import Mathlib

/-!
Verification of the crossword_compiler core against its specification.

The Rust sources are shallowly embedded: `usize` values become `Nat`
(with `usize` subtraction that may underflow modelled by `Option`,
`none` standing for the debug-build panic), `isize` becomes `Int`,
`f64` score arithmetic becomes `ℚ`, `HashMap`/`HashSet` become
association lists / duplicate-free lists (the code sorts before any
order-sensitive use, matching the unordered Rust containers), and every
Rust `panic!`/`unwrap`/`assert!` failure is modelled as `none`.
`Result<T, E>` becomes `Except E T`.
-/

set_option maxHeartbeats 4000000
set_option maxRecDepth 10000

namespace Crossword

/-! ## Embedding of src/graph.rs -/

/-- Models `HashSet<(usize,usize)>::insert`: set-semantics insertion into a
duplicate-free list. -/
def listInsert (x : Nat × Nat) (l : List (Nat × Nat)) : List (Nat × Nat) :=
  if x ∈ l then l else x :: l

/-- Models `HashSet<usize>::insert`. -/
def listInsertNat (x : Nat) (l : List Nat) : List Nat :=
  if x ∈ l then l else x :: l

/-- Errors of `graph.rs` (`GraphError`). -/
inductive GraphError
  | NodeNotFound (id : Nat)
  | InvalidEdge (e : Nat × Nat) (id : Nat)
deriving DecidableEq, Repr

/-- A node of `graph.rs` (`Node`): its fixed id and the set of neighbours,
kept as a duplicate-free list. -/
structure GNode where
  node_id : Nat
  connected_nodes : List Nat
deriving DecidableEq, Repr

/-- The graph of `graph.rs`.  The Rust struct also keeps a `node_map` from
id to index in `node_storage`; for the operations verified here (which never
delete nodes) that map is exactly "position of the unique storage node with
this id", so lookups are embedded as searches of `node_storage` by id. -/
structure Graph where
  node_storage : List GNode
deriving DecidableEq, Repr

def Graph.get_node (g : Graph) (id : Nat) : Option GNode :=
  g.node_storage.find? (fun n => n.node_id == id)

/-- `Graph::add_node` (the returned `already_present` flag is dropped; no
caller of the verified code consumes it). -/
def Graph.add_node (g : Graph) (id : Nat) : Graph :=
  if (g.get_node id).isSome then g else ⟨g.node_storage ++ [⟨id, []⟩]⟩

/-- `Node::add_edge` applied through `get_node_mut`. -/
def Graph.add_edge_at (g : Graph) (id nb : Nat) : Graph :=
  ⟨g.node_storage.map (fun n =>
    if n.node_id == id then ⟨n.node_id, listInsertNat nb n.connected_nodes⟩ else n)⟩

/-- `Graph::add_edges`. -/
def Graph.add_edges (g : Graph) (edges : List (Nat × Nat)) : Graph :=
  edges.foldl (fun g e =>
    (((g.add_node e.1).add_node e.2).add_edge_at e.1 e.2).add_edge_at e.2 e.1) g

/-- `Graph::new_from_edges`. -/
def Graph.new_from_edges (edges : List (Nat × Nat)) : Graph :=
  Graph.add_edges ⟨[]⟩ edges

/-- `Graph::count_nodes`. -/
def Graph.count_nodes (g : Graph) : Nat := g.node_storage.length

/-- `Graph::count_edges`: half the sum of the neighbour-set sizes. -/
def Graph.count_edges (g : Graph) : Nat :=
  ((g.node_storage.map (fun n => n.connected_nodes.length)).sum) / 2

/-- Sum of all neighbour-set sizes (the number of directed edges); used for
fuel bounds of the traversal loops. -/
def Graph.deg_sum (g : Graph) : Nat :=
  ((g.node_storage.map (fun n => n.connected_nodes.length)).sum)

/-- `Graph::_get_edge_list`: the edges leaving `id`, sorted (the Rust code
sorts the `Vec<Edge>`; all first components are `id`, so sorting the
neighbour list first gives the same order). -/
def Graph.get_edge_list (g : Graph) (id : Nat) : Option (List (Nat × Nat)) :=
  (g.get_node id).map (fun n =>
    (List.insertionSort (· ≤ ·) n.connected_nodes).map (fun nb => (id, nb)))

/-- State of the loop in `Graph::traverse_count_node_visits_from_node`.
The Rust `Counter<usize>` is kept only for `contains_key` queries, so it is
embedded as the duplicate-free list of visited nodes.  The Rust stack pops
from the back of a `Vec`; here the head of `stack` is the top. -/
structure TravState where
  visited : List Nat
  used : List (Nat × Nat)
  stack : List (Nat × Nat)
deriving DecidableEq, Repr

/-- Loop body of `traverse_count_node_visits_from_node`.  Rust appends the
freshly discovered edge list at the back of the `Vec` stack, so those edges
are popped first and in reverse order: hence `es.reverse ++ rest`.
Running out of fuel and the `panic!` on an inconsistent graph are both
`none`; the fuel passed by the wrapper below is proved sufficient for
well-formed graphs. -/
def Graph.traverse_loop (g : Graph) : Nat → TravState → Option (List Nat)
  | 0, _ => none
  | fuel+1, s =>
    match s.stack with
    | [] => some s.visited
    | e :: rest =>
      let used1 := listInsert (e.2, e.1) (listInsert e s.used)
      if e ∈ s.used then g.traverse_loop fuel ⟨s.visited, used1, rest⟩
      else if e.2 ∈ s.visited then g.traverse_loop fuel ⟨s.visited, used1, rest⟩
      else match g.get_edge_list e.2 with
        | none => none
        | some es => g.traverse_loop fuel ⟨listInsertNat e.2 s.visited, used1, es.reverse ++ rest⟩

/-- `Graph::traverse_count_node_visits_from_node`. -/
def Graph.traverse_count_node_visits_from_node (g : Graph) (id : Nat) : Option (List Nat) :=
  match g.get_edge_list id with
  | none => none
  | some es => g.traverse_loop (g.deg_sum + es.length + 1) ⟨[id], [], es.reverse⟩

/-- `Graph::traverse_count_node_visits`. -/
def Graph.traverse_count_node_visits (g : Graph) : Option (List Nat) :=
  match g.node_storage with
  | [] => some []
  | n :: _ => g.traverse_count_node_visits_from_node n.node_id

def Graph.node_ids (g : Graph) : List Nat := g.node_storage.map (·.node_id)

/-- `Graph::is_connected`. -/
def Graph.is_connected (g : Graph) : Option Bool :=
  if g.count_nodes > 0 then
    (g.traverse_count_node_visits).map (fun visited => g.node_ids.all (fun id => id ∈ visited))
  else some true

/-- `Graph::count_cycles`: `count_edges() + 1 - count_nodes()` in `usize`
arithmetic.  When `edges + 1 < nodes` the Rust subtraction underflows,
which panics in a debug build: that is the `none` case. -/
def Graph.count_cycles (g : Graph) : Option Nat :=
  match g.is_connected with
  | some _ =>
    if g.count_edges + 1 < g.count_nodes then none
    else some (g.count_edges + 1 - g.count_nodes)
  | none => none

/-- `Graph::find_leaves`. -/
def Graph.find_leaves (g : Graph) : List Nat :=
  List.insertionSort (· ≤ ·)
    ((g.node_storage.filter (fun n => n.connected_nodes.length ≤ 1)).map (·.node_id))

/-- `sorted_vec_from_set` of graph.rs. -/
def sorted_vec_from_set (s : List Nat) : List Nat := List.insertionSort (· ≤ ·) s

/-- State of the loop in `Graph::partition_nodes`: the two visited sets, the
used-edge set and the `VecDeque` of `(from_first, edge)` entries (head =
front). -/
structure PartState where
  first_set : List Nat
  second_set : List Nat
  used : List (Nat × Nat)
  queue : List (Bool × (Nat × Nat))
deriving DecidableEq, Repr

/-- Loop body of `Graph::partition_nodes`.  `push_back` appends at the end
of the queue. -/
def Graph.partition_loop (g : Graph) :
    Nat → PartState → Option (Except GraphError (List Nat × List Nat))
  | 0, _ => none
  | fuel+1, s =>
    match s.queue with
    | [] => some (Except.ok (s.first_set, s.second_set))
    | (from_first, e) :: rest =>
      let already := e ∈ s.used
      let used1 := listInsert (e.2, e.1) (listInsert e s.used)
      if already then g.partition_loop fuel ⟨s.first_set, s.second_set, used1, rest⟩
      else if e.2 ∈ s.first_set ∨ e.2 ∈ s.second_set then
        g.partition_loop fuel ⟨s.first_set, s.second_set, used1, rest⟩
      else match g.get_edge_list e.2 with
        | none => some (Except.error (GraphError.InvalidEdge e e.2))
        | some es =>
          g.partition_loop fuel
            ⟨(if from_first then listInsertNat e.2 s.first_set else s.first_set),
             (if from_first then s.second_set else listInsertNat e.2 s.second_set),
             used1, rest ++ es.map (fun e2 => (from_first, e2))⟩

/-- `Graph::partition_nodes`. -/
def Graph.partition_nodes (g : Graph) (first_node second_node : Nat) :
    Option (Except GraphError (List Nat × List Nat)) :=
  match g.get_edge_list first_node with
  | none => some (Except.error (GraphError.NodeNotFound first_node))
  | some ea =>
    match g.get_edge_list second_node with
    | none => some (Except.error (GraphError.NodeNotFound second_node))
    | some eb =>
      (g.partition_loop (g.deg_sum + ea.length + eb.length + 1)
          ⟨[first_node], [second_node], [],
           ea.map (fun e => (true, e)) ++ eb.map (fun e => (false, e))⟩).map
        (fun r => r.map (fun p => (sorted_vec_from_set p.1, sorted_vec_from_set p.2)))

/-! ### Specification-level notions for the graph -/

/-- The neighbour list of a node (empty for an absent node). -/
def Graph.adj (g : Graph) (u : Nat) : List Nat :=
  ((g.get_node u).map (·.connected_nodes)).getD []

/-- Well-formedness, as guaranteed by `new_from_edges`/`add_edges`/`add_node`
on loop-free edge input: storage ids are distinct, neighbour lists are
duplicate-free, every neighbour exists, adjacency is symmetric and
loop-free. -/
def Graph.wfb (g : Graph) : Bool :=
  decide (g.node_ids).Nodup &&
  g.node_storage.all (fun n =>
    decide n.connected_nodes.Nodup &&
    n.connected_nodes.all (fun v =>
      decide (v ≠ n.node_id) && decide (v ∈ g.node_ids) && decide (n.node_id ∈ g.adj v)))

def Graph.WF (g : Graph) : Prop := g.wfb = true

instance Graph.WF.decidable (g : Graph) : Decidable g.WF :=
  inferInstanceAs (Decidable (g.wfb = true))

/-- One step along an edge of the graph. -/
def Graph.adjRel (g : Graph) (u v : Nat) : Prop := v ∈ g.adj u

/-- Reachability along edges of the graph. -/
def Graph.Reach (g : Graph) : Nat → Nat → Prop := Relation.ReflTransGen g.adjRel

/-- Reachability along edges whose two endpoints both lie in `S`. -/
def Graph.ReachIn (g : Graph) (S : List Nat) (u v : Nat) : Prop :=
  Relation.ReflTransGen (fun x y => x ∈ S ∧ y ∈ S ∧ y ∈ g.adj x) u v

/-- The list of all directed edges of the graph. -/
def Graph.directed_edges (g : Graph) : List (Nat × Nat) :=
  g.node_storage.flatMap (fun n => n.connected_nodes.map (fun v => (n.node_id, v)))

/-- Fuel potential of the single-source traversal: pending stack entries plus
the degrees of the not-yet-visited nodes.  Every loop iteration strictly
decreases it. -/
def Graph.potential (g : Graph) (s : TravState) : Nat :=
  s.stack.length +
    ((g.node_storage.filter (fun n => n.node_id ∉ s.visited)).map
      (fun n => n.connected_nodes.length)).sum

/-- Fuel potential of the partition traversal. -/
def Graph.ppotential (g : Graph) (s : PartState) : Nat :=
  s.queue.length +
    ((g.node_storage.filter
        (fun n => n.node_id ∉ s.first_set ∧ n.node_id ∉ s.second_set)).map
      (fun n => n.connected_nodes.length)).sum

/-- Invariant of the single-source traversal loop. -/
structure TravInv (g : Graph) (root : Nat) (s : TravState) : Prop where
  root_mem : root ∈ s.visited
  vis_nodup : s.visited.Nodup
  vis_ids : ∀ v ∈ s.visited, v ∈ g.node_ids
  vis_reach : ∀ v ∈ s.visited, g.Reach root v
  stack_inv : ∀ e ∈ s.stack, e.1 ∈ s.visited ∧ e.2 ∈ g.adj e.1
  used_edge : ∀ e ∈ s.used, e.2 ∈ g.adj e.1
  used_vis : ∀ e ∈ s.used, e.1 ∈ s.visited ∧ e.2 ∈ s.visited
  used_symm : ∀ e ∈ s.used, (e.2, e.1) ∈ s.used
  used_nodup : s.used.Nodup
  closure : ∀ u ∈ s.visited, ∀ v ∈ g.adj u, v ∈ s.visited ∨ (u, v) ∈ s.stack ∨ (u, v) ∈ s.used
  card : 2 * s.visited.length ≤ s.used.length + 2

/-- Invariant of the dual-source partition loop. -/
structure PartInv (g : Graph) (a b : Nat) (s : PartState) : Prop where
  a_mem : a ∈ s.first_set
  b_mem : b ∈ s.second_set
  f_nodup : s.first_set.Nodup
  s_nodup : s.second_set.Nodup
  disj : ∀ x ∈ s.first_set, x ∉ s.second_set
  f_ids : ∀ x ∈ s.first_set, x ∈ g.node_ids
  s_ids : ∀ x ∈ s.second_set, x ∈ g.node_ids
  f_reach : ∀ x ∈ s.first_set, g.ReachIn s.first_set a x
  s_reach : ∀ x ∈ s.second_set, g.ReachIn s.second_set b x
  q_inv : ∀ p ∈ s.queue,
    (p.2.1 ∈ (if p.1 then s.first_set else s.second_set)) ∧ p.2.2 ∈ g.adj p.2.1
  used_vis : ∀ e ∈ s.used, (e.1 ∈ s.first_set ∨ e.1 ∈ s.second_set) ∧
    (e.2 ∈ s.first_set ∨ e.2 ∈ s.second_set)
  used_symm : ∀ e ∈ s.used, (e.2, e.1) ∈ s.used
  closure : ∀ u, (u ∈ s.first_set ∨ u ∈ s.second_set) → ∀ v ∈ g.adj u,
    (v ∈ s.first_set ∨ v ∈ s.second_set) ∨ (∃ fl, (fl, (u, v)) ∈ s.queue) ∨ (u, v) ∈ s.used

/-! ## Embedding of src/grid: mod.rs, cell.rs, word.rs, spacing.rs, add_word.rs

`HashMap<K, V>` is embedded as an association list with duplicate-free keys:
lookup searches by key, insertion updates the existing entry in place or
appends a fresh one, removal filters the key out.  All map iterations in the
verified code are order-insensitive (they sort, count, or act per key), so
the list order is immaterial. -/

deriving instance DecidableEq for Except

/-- `HashMap` lookup. -/
def mapGet {α β : Type} [DecidableEq α] : List (α × β) → α → Option β
  | [], _ => none
  | p :: rest, k => if p.1 = k then some p.2 else mapGet rest k

/-- `HashMap::insert`: update in place if the key is present, else append. -/
def mapInsert {α β : Type} [DecidableEq α] : List (α × β) → α → β → List (α × β)
  | [], k, v => [(k, v)]
  | p :: rest, k, v => if p.1 = k then (k, v) :: rest else p :: mapInsert rest k v

/-- `HashMap::remove` (the removed value is never consumed by the verified code). -/
def mapRemove {α β : Type} [DecidableEq α] : List (α × β) → α → List (α × β)
  | [], _ => []
  | p :: rest, k => if p.1 = k then mapRemove rest k else p :: mapRemove rest k

/-- `Location(isize, isize)` of `grid/mod.rs`: `.0` is the row, `.1` the column. -/
structure Location where
  row : Int
  col : Int
deriving DecidableEq, Repr

/-- `Location::relative_location`. -/
def Location.relative_location (l : Location) (move_across move_down : Int) : Location :=
  ⟨l.row + move_across, l.col + move_down⟩

/-- `Direction` of `grid/mod.rs`. -/
inductive Direction
  | Across
  | Down
deriving DecidableEq, Repr

/-- `Direction::rotate`. -/
def Direction.rotate : Direction → Direction
  | .Across => .Down
  | .Down => .Across

/-- `Location::relative_location_directed`. -/
def Location.relative_location_directed (l : Location) (move_size : Int) :
    Direction → Location
  | .Across => ⟨l.row, l.col + move_size⟩
  | .Down => ⟨l.row + move_size, l.col⟩

/-- `FillStatus` of `grid/cell.rs`, with `FilledCell` inlined. -/
inductive FillStatus
  | Filled (letter : Char) (across_word_id : Option Nat) (down_word_id : Option Nat)
  | Empty
  | Black
deriving DecidableEq, Repr

/-- `Cell` of `grid/cell.rs`. -/
structure Cell where
  fill_status : FillStatus
deriving DecidableEq, Repr

/-- `Cell::empty`. -/
def Cell.empty : Cell := ⟨.Empty⟩

/-- `Cell::get_across_word_id`. -/
def Cell.get_across_word_id : Cell → Option Nat
  | ⟨.Filled _ a _⟩ => a
  | _ => none

/-- `Cell::get_down_word_id`. -/
def Cell.get_down_word_id : Cell → Option Nat
  | ⟨.Filled _ _ d⟩ => d
  | _ => none

/-- The word id of the cell in the given direction (used by
`check_adjacent_cells_compatible` as `cell.get_word_id(direction)`). -/
def Cell.get_word_id (c : Cell) : Direction → Option Nat
  | .Across => c.get_across_word_id
  | .Down => c.get_down_word_id

/-- `Cell::remove_word`. -/
def Cell.remove_word (c : Cell) (word_id : Nat) : Cell :=
  match c.fill_status with
  | .Filled l a d =>
    let a2 := if a = some word_id then none else a
    let d2 := if d = some word_id then none else d
    if a2 = none ∧ d2 = none then ⟨.Empty⟩ else ⟨.Filled l a2 d2⟩
  | _ => c

/-- `CellError` of `grid/mod.rs`. -/
inductive CellError
  | WordIdMismatch (new existing : Nat) (dir : Direction)
  | LetterMismatch (new existing : Char)
  | FillBlack
deriving DecidableEq, Repr

/-- `Cell::add_word`.  The snapshot's `cell.rs` returns a `bool` success flag
while its callers in `add_word.rs` and the `CellError` taxonomy in `mod.rs`
consume a `Result`; the embedding follows the `Result` interface the callers
compile against, with the first failing check of the `cell.rs` body (existing
same-orientation id mismatch, then letter mismatch, then black cell) choosing
the error.  On failure the cell is unchanged, on success it is refilled with
the new letter, the updated id slot for `direction`, and the kept other slot,
exactly as the `cell.rs` body does. -/
def Cell.add_word (c : Cell) (word_id : Nat) (letter : Char) (dir : Direction) :
    Except CellError Cell :=
  match c.fill_status, dir with
  | .Filled l a d, .Across =>
    match a with
    | some existing =>
      if existing ≠ word_id then .error (.WordIdMismatch word_id existing .Across)
      else if l ≠ letter then .error (.LetterMismatch letter l)
      else .ok ⟨.Filled letter (some word_id) d⟩
    | none =>
      if l ≠ letter then .error (.LetterMismatch letter l)
      else .ok ⟨.Filled letter (some word_id) d⟩
  | .Filled l a d, .Down =>
    match d with
    | some existing =>
      if existing ≠ word_id then .error (.WordIdMismatch word_id existing .Down)
      else if l ≠ letter then .error (.LetterMismatch letter l)
      else .ok ⟨.Filled letter a (some word_id)⟩
    | none =>
      if l ≠ letter then .error (.LetterMismatch letter l)
      else .ok ⟨.Filled letter a (some word_id)⟩
  | .Empty, .Across => .ok ⟨.Filled letter (some word_id) none⟩
  | .Empty, .Down => .ok ⟨.Filled letter none (some word_id)⟩
  | .Black, _ => .error .FillBlack

/-- `Cell::is_intersection`. -/
def Cell.is_intersection (c : Cell) : Bool :=
  c.get_across_word_id.isSome && c.get_down_word_id.isSome

/-- `Cell::set_empty`. -/
def Cell.set_empty (_ : Cell) : Cell := ⟨.Empty⟩

/-- `Cell::set_black`. -/
def Cell.set_black (_ : Cell) : Cell := ⟨.Black⟩

/-- `Cell::contains_letter`. -/
def Cell.contains_letter (c : Cell) : Bool :=
  match c.fill_status with
  | .Filled .. => true
  | _ => false

/-- `Cell::to_char`. -/
def Cell.to_char (c : Cell) : Char :=
  match c.fill_status with
  | .Filled l _ _ => l
  | _ => ' '

/-- `Cell::is_empty`. -/
def Cell.is_empty (c : Cell) : Bool :=
  match c.fill_status with
  | .Empty => true
  | _ => false

/-- `Cell::is_black`. -/
def Cell.is_black (c : Cell) : Bool :=
  match c.fill_status with
  | .Black => true
  | _ => false

/-- `WordPlacement` of `grid/word.rs`. -/
structure WordPlacement where
  start_location : Location
  end_location : Location
  direction : Direction
deriving DecidableEq, Repr

/-- `WordPlacement::new`.  Rust strings here hold only ASCII answer
characters, so `String` is embedded as `List Char` throughout. -/
def WordPlacement.new (s : List Char) (start : Location) (dir : Direction) :
    WordPlacement :=
  match dir with
  | .Across => ⟨start, ⟨start.row, start.col + (s.length : Int) - 1⟩, dir⟩
  | .Down => ⟨start, ⟨start.row + (s.length : Int) - 1, start.col⟩, dir⟩

/-- `Word` of `grid/word.rs`. -/
structure Word where
  word_text : List Char
  placement : Option WordPlacement
  clue : List Char
  required_direction : Option Direction
deriving DecidableEq, Repr

/-- `Word::new_unplaced`. -/
def Word.new_unplaced (word_text : List Char) (clue : List Char)
    (required_direction : Option Direction) : Word :=
  ⟨word_text, none, clue, required_direction⟩

/-- `Word::get_location`. -/
def Word.get_location (w : Word) : Option (Location × Location × Direction) :=
  w.placement.map (fun p => (p.start_location, p.end_location, p.direction))

/-- `Word::is_placed`. -/
def Word.is_placed (w : Word) : Bool := w.get_location.isSome

/-- `Word::allowed_in_direction`. -/
def Word.allowed_in_direction (w : Word) (dir : Direction) : Bool :=
  match w.required_direction with
  | none => true
  | some d => d == dir

/-- `Word::update_location`; its `assert!(allowed_in_direction)` panic is
`none`. -/
def Word.update_location (w : Word) (start : Location) (dir : Direction) :
    Option Word :=
  if w.allowed_in_direction dir then
    some { w with placement := some (WordPlacement.new w.word_text start dir) }
  else none

/-- `CrosswordError` of `grid/mod.rs`. -/
inductive CrosswordError
  | AdjacentCellsNoLinkWord (l1 l2 : Location)
  | AdjacentCellsMismatchedLinkWord (l1 l2 : Location) (id1 id2 : Nat)
  | CellError (l : Location) (e : CellError)
  | NonEmptyWordBoundary (l1 l2 : Location)
  | CellNotFound (l : Location)
  | WordAlreadyPlaced (id : Nat) (w : List Char) (l : Location)
  | InvalidWordDirection (id : Nat) (w : List Char) (d : Direction)
  | WordNotFound (id : Nat)
deriving DecidableEq, Repr

/-- `CrosswordGrid` of `grid/mod.rs`. -/
structure CrosswordGrid where
  cell_map : List (Location × Cell)
  word_map : List (Nat × Word)
  top_left_cell_index : Location
  bottom_right_cell_index : Location
deriving DecidableEq, Repr

/-- `CrosswordGrid::get_word`. -/
def CrosswordGrid.get_word (g : CrosswordGrid) (word_id : Nat) :
    Except CrosswordError Word :=
  match mapGet g.word_map word_id with
  | some w => .ok w
  | none => .error (.WordNotFound word_id)

/-- `CrosswordGrid::get_cell`. -/
def CrosswordGrid.get_cell (g : CrosswordGrid) (l : Location) :
    Except CrosswordError Cell :=
  match mapGet g.cell_map l with
  | some c => .ok c
  | none => .error (.CellNotFound l)

/-- The inclusive integer range `lo..=hi` as a list. -/
def intRange (lo hi : Int) : List Int :=
  (List.range (hi + 1 - lo).toNat).map (fun (i : Nat) => lo + (i : Int))

/-- The column indices of the grid's bounding box. -/
def CrosswordGrid.colRange (g : CrosswordGrid) : List Int :=
  intRange g.top_left_cell_index.col g.bottom_right_cell_index.col

/-- The row indices of the grid's bounding box. -/
def CrosswordGrid.rowRange (g : CrosswordGrid) : List Int :=
  intRange g.top_left_cell_index.row g.bottom_right_cell_index.row

/-- All locations of the grid's bounding box (the cells `check_valid`
requires to be present). -/
def CrosswordGrid.boxLocations (g : CrosswordGrid) : List Location :=
  g.rowRange.flatMap (fun r => g.colRange.map (fun c => (⟨r, c⟩ : Location)))

/-- `CrosswordGrid::add_empty_row` of `grid/spacing.rs`. -/
def CrosswordGrid.add_empty_row (g : CrosswordGrid) (new_row : Int) : CrosswordGrid :=
  let cm := g.colRange.foldl
    (fun m c => mapInsert m (⟨new_row, c⟩ : Location) Cell.empty) g.cell_map
  let g1 := { g with cell_map := cm }
  if new_row > g.bottom_right_cell_index.row then
    { g1 with bottom_right_cell_index := ⟨new_row, g.bottom_right_cell_index.col⟩ }
  else if new_row < g.top_left_cell_index.row then
    { g1 with top_left_cell_index := ⟨new_row, g.top_left_cell_index.col⟩ }
  else g1

/-- `CrosswordGrid::add_empty_col`. -/
def CrosswordGrid.add_empty_col (g : CrosswordGrid) (new_col : Int) : CrosswordGrid :=
  let cm := g.rowRange.foldl
    (fun m r => mapInsert m (⟨r, new_col⟩ : Location) Cell.empty) g.cell_map
  let g1 := { g with cell_map := cm }
  if new_col > g.bottom_right_cell_index.col then
    { g1 with bottom_right_cell_index := ⟨g.bottom_right_cell_index.row, new_col⟩ }
  else if new_col < g.top_left_cell_index.col then
    { g1 with top_left_cell_index := ⟨g.top_left_cell_index.row, new_col⟩ }
  else g1

/-- First `while` loop of `expand_to_fit_cell`: grow upwards until the target
row is inside.  Fuel exhaustion (`none`) models the loop not terminating;
the wrapper passes enough fuel for every grid whose box bounds are ordered. -/
def CrosswordGrid.expand_up : Nat → CrosswordGrid → Int → Option CrosswordGrid
  | 0, _, _ => none
  | fuel+1, g, r =>
    if r < g.top_left_cell_index.row then
      CrosswordGrid.expand_up fuel (g.add_empty_row (g.top_left_cell_index.row - 1)) r
    else some g

/-- Second `while` loop of `expand_to_fit_cell`: grow downwards. -/
def CrosswordGrid.expand_down : Nat → CrosswordGrid → Int → Option CrosswordGrid
  | 0, _, _ => none
  | fuel+1, g, r =>
    if r > g.bottom_right_cell_index.row then
      CrosswordGrid.expand_down fuel (g.add_empty_row (g.bottom_right_cell_index.row + 1)) r
    else some g

/-- Third `while` loop of `expand_to_fit_cell`: grow leftwards. -/
def CrosswordGrid.expand_left : Nat → CrosswordGrid → Int → Option CrosswordGrid
  | 0, _, _ => none
  | fuel+1, g, c =>
    if c < g.top_left_cell_index.col then
      CrosswordGrid.expand_left fuel (g.add_empty_col (g.top_left_cell_index.col - 1)) c
    else some g

/-- Fourth `while` loop of `expand_to_fit_cell`: grow rightwards. -/
def CrosswordGrid.expand_right : Nat → CrosswordGrid → Int → Option CrosswordGrid
  | 0, _, _ => none
  | fuel+1, g, c =>
    if c > g.bottom_right_cell_index.col then
      CrosswordGrid.expand_right fuel (g.add_empty_col (g.bottom_right_cell_index.col + 1)) c
    else some g

/-- `CrosswordGrid::expand_to_fit_cell` of `grid/spacing.rs`.  Each loop gets
one more unit of fuel than the distance it has to cover, which is exactly
enough whenever it terminates in Rust. -/
def CrosswordGrid.expand_to_fit_cell (g : CrosswordGrid) (l : Location) :
    Option CrosswordGrid := do
  let g ← CrosswordGrid.expand_up ((g.top_left_cell_index.row - l.row).toNat + 1) g l.row
  let g ← CrosswordGrid.expand_down ((l.row - g.bottom_right_cell_index.row).toNat + 1) g l.row
  let g ← CrosswordGrid.expand_left ((g.top_left_cell_index.col - l.col).toNat + 1) g l.col
  let g ← CrosswordGrid.expand_right ((l.col - g.bottom_right_cell_index.col).toNat + 1) g l.col
  return g

/-- The counting loop shared by `count_filled_cells_row` and
`count_filled_cells_col`: `none` is the `unwrap` panic on a missing cell. -/
def countFilled (cm : List (Location × Cell)) : List Location → Option Nat
  | [] => some 0
  | l :: rest =>
    match mapGet cm l, countFilled cm rest with
    | some cell, some n => some (if cell.contains_letter then n + 1 else n)
    | _, _ => none

/-- `CrosswordGrid::count_filled_cells_row`. -/
def CrosswordGrid.count_filled_cells_row (g : CrosswordGrid) (row : Int) : Option Nat :=
  countFilled g.cell_map (g.colRange.map (fun c => (⟨row, c⟩ : Location)))

/-- `CrosswordGrid::count_filled_cells_col`. -/
def CrosswordGrid.count_filled_cells_col (g : CrosswordGrid) (col : Int) : Option Nat :=
  countFilled g.cell_map (g.rowRange.map (fun r => (⟨r, col⟩ : Location)))

/-- `CrosswordGrid::ensure_buffer_exists`. -/
def CrosswordGrid.ensure_buffer_exists (g : CrosswordGrid) : Option CrosswordGrid := do
  let c1 ← g.count_filled_cells_row g.top_left_cell_index.row
  let g := if c1 > 0 then g.add_empty_row (g.top_left_cell_index.row - 1) else g
  let c2 ← g.count_filled_cells_row g.bottom_right_cell_index.row
  let g := if c2 > 0 then g.add_empty_row (g.bottom_right_cell_index.row + 1) else g
  let c3 ← g.count_filled_cells_col g.top_left_cell_index.col
  let g := if c3 > 0 then g.add_empty_col (g.top_left_cell_index.col - 1) else g
  let c4 ← g.count_filled_cells_col g.bottom_right_cell_index.col
  let g := if c4 > 0 then g.add_empty_col (g.bottom_right_cell_index.col + 1) else g
  return g

/-- `CrosswordGrid::remove_row`. -/
def CrosswordGrid.remove_row (g : CrosswordGrid) (row : Int) : CrosswordGrid :=
  let cm := g.colRange.foldl (fun m c => mapRemove m (⟨row, c⟩ : Location)) g.cell_map
  let g1 := { g with cell_map := cm }
  if row = g.bottom_right_cell_index.row then
    { g1 with bottom_right_cell_index := g.bottom_right_cell_index.relative_location (-1) 0 }
  else if row = g.top_left_cell_index.row then
    { g1 with top_left_cell_index := g.top_left_cell_index.relative_location 1 0 }
  else g1

/-- `CrosswordGrid::remove_col`. -/
def CrosswordGrid.remove_col (g : CrosswordGrid) (col : Int) : CrosswordGrid :=
  let cm := g.rowRange.foldl (fun m r => mapRemove m (⟨r, col⟩ : Location)) g.cell_map
  let g1 := { g with cell_map := cm }
  if col = g.bottom_right_cell_index.col then
    { g1 with bottom_right_cell_index := g.bottom_right_cell_index.relative_location 0 (-1) }
  else if col = g.top_left_cell_index.col then
    { g1 with top_left_cell_index := g.top_left_cell_index.relative_location 0 1 }
  else g1

/-- First `while` loop of `remove_excess_empty`: drop the top row while the
row below it holds no letter. -/
def CrosswordGrid.remove_rows_top : Nat → CrosswordGrid → Option CrosswordGrid
  | 0, _ => none
  | fuel+1, g =>
    match g.count_filled_cells_row (g.top_left_cell_index.row + 1) with
    | none => none
    | some 0 => CrosswordGrid.remove_rows_top fuel (g.remove_row g.top_left_cell_index.row)
    | some _ => some g

/-- Second `while` loop of `remove_excess_empty`. -/
def CrosswordGrid.remove_rows_bottom : Nat → CrosswordGrid → Option CrosswordGrid
  | 0, _ => none
  | fuel+1, g =>
    match g.count_filled_cells_row (g.bottom_right_cell_index.row - 1) with
    | none => none
    | some 0 => CrosswordGrid.remove_rows_bottom fuel (g.remove_row g.bottom_right_cell_index.row)
    | some _ => some g

/-- Third `while` loop of `remove_excess_empty`. -/
def CrosswordGrid.remove_cols_left : Nat → CrosswordGrid → Option CrosswordGrid
  | 0, _ => none
  | fuel+1, g =>
    match g.count_filled_cells_col (g.top_left_cell_index.col + 1) with
    | none => none
    | some 0 => CrosswordGrid.remove_cols_left fuel (g.remove_col g.top_left_cell_index.col)
    | some _ => some g

/-- Fourth `while` loop of `remove_excess_empty`. -/
def CrosswordGrid.remove_cols_right : Nat → CrosswordGrid → Option CrosswordGrid
  | 0, _ => none
  | fuel+1, g =>
    match g.count_filled_cells_col (g.bottom_right_cell_index.col - 1) with
    | none => none
    | some 0 => CrosswordGrid.remove_cols_right fuel (g.remove_col g.bottom_right_cell_index.col)
    | some _ => some g

/-- `CrosswordGrid::remove_excess_empty`.  Each loop gets fuel one past the
box extent, enough for every terminating Rust run (each iteration shrinks
the box). -/
def CrosswordGrid.remove_excess_empty (g : CrosswordGrid) : Option CrosswordGrid := do
  let g ← CrosswordGrid.remove_rows_top
    ((g.bottom_right_cell_index.row - g.top_left_cell_index.row).toNat + 2) g
  let g ← CrosswordGrid.remove_rows_bottom
    ((g.bottom_right_cell_index.row - g.top_left_cell_index.row).toNat + 2) g
  let g ← CrosswordGrid.remove_cols_left
    ((g.bottom_right_cell_index.col - g.top_left_cell_index.col).toNat + 2) g
  let g ← CrosswordGrid.remove_cols_right
    ((g.bottom_right_cell_index.col - g.top_left_cell_index.col).toNat + 2) g
  return g

/-- `CrosswordGrid::get_all_intersections`: the `(across, down)` id pairs of
all intersection cells, sorted as Rust's `Vec::sort` sorts `(usize, usize)`.
The ids are present whenever `is_intersection` holds, so the `unwrap`s are
total here (`getD 0` is never the default). -/
def CrosswordGrid.get_all_intersections (g : CrosswordGrid) : List (Nat × Nat) :=
  List.insertionSort (fun a b => a.1 < b.1 ∨ (a.1 = b.1 ∧ a.2 ≤ b.2))
    ((g.cell_map.filter (fun p => p.2.is_intersection)).map
      (fun p => (p.2.get_across_word_id.getD 0, p.2.get_down_word_id.getD 0)))

/-- `CrosswordGrid::to_graph`. -/
def CrosswordGrid.to_graph (g : CrosswordGrid) : Graph :=
  (g.word_map.filter (fun p => p.2.is_placed)).foldl (fun gr p => gr.add_node p.1)
    (Graph.new_from_edges g.get_all_intersections)

/-- `CrosswordGrid::check_valid` as a pass/fail flag: the conjunction of its
`assert!`s (`false` covers both a failing assertion and a panic inside
`is_connected`, which both abort the caller). -/
def CrosswordGrid.check_valid_ok (g : CrosswordGrid) : Bool :=
  decide (g.top_left_cell_index.row ≤ g.bottom_right_cell_index.row) &&
  decide (g.top_left_cell_index.col ≤ g.bottom_right_cell_index.col) &&
  g.boxLocations.all (fun l => (mapGet g.cell_map l).isSome) &&
  g.cell_map.all (fun p =>
    (match p.2.get_across_word_id with
     | some id => (mapGet g.word_map id).isSome
     | none => true) &&
    (match p.2.get_down_word_id with
     | some id => (mapGet g.word_map id).isSome
     | none => true)) &&
  (g.to_graph.is_connected == some true)

/-- `CrosswordGrid::fit_to_size` of `grid/spacing.rs`. -/
def CrosswordGrid.fit_to_size (g : CrosswordGrid) : Option CrosswordGrid :=
  if g.check_valid_ok then do
    let g1 ← g.ensure_buffer_exists
    g1.remove_excess_empty
  else none

/-- One row of `CrosswordGrid::to_string`. -/
def renderRow (cm : List (Location × Cell)) (r : Int) : List Int → Option (List Char)
  | [] => some []
  | c :: rest => do
    let cell ← mapGet cm (⟨r, c⟩ : Location)
    let others ← renderRow cm r rest
    pure (cell.to_char :: others)

/-- The row loop of `CrosswordGrid::to_string`. -/
def renderRows (cm : List (Location × Cell)) (cols : List Int) :
    List Int → Option (List Char)
  | [] => some []
  | r :: rest => do
    let rowChars ← renderRow cm r cols
    let others ← renderRows cm cols rest
    pure (rowChars ++ '\n' :: others)

/-- `CrosswordGrid::to_string`: renders the rows strictly between the box
bounds (`row` runs from `top+1` while `< bottom`, likewise columns);
`none` is the `unwrap` panic on a missing cell. -/
def CrosswordGrid.to_string (g : CrosswordGrid) : Option (List Char) :=
  renderRows g.cell_map
    (intRange (g.top_left_cell_index.col + 1) (g.bottom_right_cell_index.col - 1))
    (intRange (g.top_left_cell_index.row + 1) (g.bottom_right_cell_index.row - 1))

/-- `CrosswordGrid::get_expected_black_cells` of `grid/add_word.rs`. -/
def CrosswordGrid.get_expected_black_cells (g : CrosswordGrid) : List Location :=
  g.word_map.foldl (fun acc p =>
    match p.2.get_location with
    | some (s, e, dir) =>
      acc ++ [s.relative_location_directed (-1) dir, e.relative_location_directed 1 dir]
    | none => acc) []

/-- The `set_black` loop of `fill_black_cells`; `none` is its
`panic!("Cell doesn't exist!")`. -/
def setBlackAll (cm : List (Location × Cell)) :
    List Location → Option (List (Location × Cell))
  | [] => some cm
  | l :: rest =>
    match mapGet cm l with
    | some _ => setBlackAll (mapInsert cm l (⟨.Black⟩ : Cell)) rest
    | none => none

/-- `CrosswordGrid::fill_black_cells`. -/
def CrosswordGrid.fill_black_cells (g : CrosswordGrid) : Option CrosswordGrid :=
  let cleared := g.cell_map.map
    (fun p => (p.1, if p.2.is_black then p.2.set_empty else p.2))
  let g1 : CrosswordGrid := { g with cell_map := cleared }
  (setBlackAll g1.cell_map g1.get_expected_black_cells).map
    (fun cm => { g1 with cell_map := cm })

/-- `CrosswordGrid::check_adjacent_cells_compatible` of `grid/add_word.rs`. -/
def CrosswordGrid.check_adjacent_cells_compatible (g : CrosswordGrid) (l : Location)
    (move_by : Int) (dir : Direction) : Except CrosswordError Unit :=
  let nl := l.relative_location_directed move_by dir
  match mapGet g.cell_map l, mapGet g.cell_map nl with
  | none, _ => .error (.CellNotFound l)
  | some _, none => .error (.CellNotFound nl)
  | some cell, some neighbour =>
    if cell.contains_letter && neighbour.contains_letter then
      match cell.get_word_id dir, neighbour.get_word_id dir with
      | none, _ => .error (.AdjacentCellsNoLinkWord l nl)
      | some _, none => .error (.AdjacentCellsNoLinkWord l nl)
      | some cw, some nw =>
        if cw ≠ nw then .error (.AdjacentCellsMismatchedLinkWord l nl cw nw)
        else .ok ()
    else .ok ()

/-- `CrosswordGrid::place_letter`: the grid after the attempt together with
the outcome (the grid is unchanged when the cell rejects the letter). -/
def CrosswordGrid.place_letter (g : CrosswordGrid) (letter : Char) (word_id : Nat)
    (l : Location) (dir : Direction) : CrosswordGrid × Except CrosswordError Unit :=
  match mapGet g.cell_map l with
  | none => (g, .error (.CellNotFound l))
  | some cell =>
    match cell.add_word word_id letter dir with
    | .ok c2 => ({ g with cell_map := mapInsert g.cell_map l c2 }, .ok ())
    | .error e => (g, .error (.CellError l e))

/-- `CrosswordGrid::check_cells_at_ends_free_for_word`: may grow the grid
via `expand_to_fit_cell` before failing, exactly as the Rust does. -/
def CrosswordGrid.check_cells_at_ends_free_for_word (g : CrosswordGrid) (l : Location)
    (word : Word) (index_in_word : Nat) (dir : Direction) :
    Option (CrosswordGrid × Except CrosswordError Location) := do
  let start_location := l.relative_location_directed (-(index_in_word : Int)) dir
  let before_start := start_location.relative_location_directed (-1) dir
  let g ← g.expand_to_fit_cell before_start
  match mapGet g.cell_map before_start with
  | none => some (g, .error (.CellNotFound before_start))
  | some cell =>
    if cell.contains_letter then
      some (g, .error (.NonEmptyWordBoundary before_start start_location))
    else do
      let cells_after_root : Int := (word.word_text.length : Int) - ((index_in_word : Int) + 1)
      let end_location := l.relative_location_directed cells_after_root dir
      let after_end := end_location.relative_location_directed 1 dir
      let g ← g.expand_to_fit_cell after_end
      match mapGet g.cell_map after_end with
      | none => some (g, .error (.CellNotFound after_end))
      | some cell2 =>
        if cell2.contains_letter then
          some (g, .error (.NonEmptyWordBoundary after_end end_location))
        else some (g, .ok start_location)

/-- The letter loop of `place_word_in_cell`: returns the grid, the list of
`updated_locations` (which includes the location of a failed attempt, as in
Rust), and the first error if any; once `result` is an error the Rust loop
body does nothing more. -/
def CrosswordGrid.place_letters_loop :
    CrosswordGrid → List Char → Nat → Location → Direction →
    CrosswordGrid × List Location × Except CrosswordError Unit
  | g, [], _, _, _ => (g, [], .ok ())
  | g, letter :: rest, word_id, working, dir =>
    match g.place_letter letter word_id working dir with
    | (g1, .ok _) =>
      let r := CrosswordGrid.place_letters_loop g1 rest word_id
        (working.relative_location_directed 1 dir) dir
      (r.1, working :: r.2.1, r.2.2)
    | (g1, .error e) => (g1, [working], .error e)

/-- The undo loop of `place_word_in_cell`'s failure branch; `none` is the
`unwrap` panic on a vanished cell. -/
def undoLocations (word_id : Nat) :
    List (Location × Cell) → List Location → Option (List (Location × Cell))
  | cm, [] => some cm
  | cm, l :: rest =>
    match mapGet cm l with
    | none => none
    | some cell => undoLocations word_id (mapInsert cm l (cell.remove_word word_id)) rest

/-- `CrosswordGrid::place_word_in_cell` of `grid/add_word.rs`: the grid
visible to the caller afterwards, paired with the `Result`; `none` is a
panic anywhere on the way (including inside the `fit_to_size` of the undo
branch). -/
def CrosswordGrid.place_word_in_cell (g : CrosswordGrid) (l : Location) (word_id : Nat)
    (index_in_word : Nat) (dir : Direction) :
    Option (CrosswordGrid × Except CrosswordError Unit) :=
  match g.get_word word_id with
  | .error e => some (g, .error e)
  | .ok word =>
    match g.check_cells_at_ends_free_for_word l word index_in_word dir with
    | none => none
    | some (g1, .error e) => some (g1, .error e)
    | some (g1, .ok start_location) =>
      match g1.place_letters_loop word.word_text word_id start_location dir with
      | (g2, _, .ok _) =>
        match word.update_location start_location dir with
        | none => none
        | some w2 => some ({ g2 with word_map := mapInsert g2.word_map word_id w2 }, .ok ())
      | (g2, updated, .error e) =>
        match undoLocations word_id g2.cell_map updated with
        | none => none
        | some cm2 =>
          match CrosswordGrid.fit_to_size { g2 with cell_map := cm2 } with
          | none => none
          | some g3 => some (g3, .error e)

/-- `CrosswordGrid::try_place_word_in_cell` of `grid/add_word.rs`. -/
def CrosswordGrid.try_place_word_in_cell (g : CrosswordGrid) (l : Location)
    (word_id : Nat) (index_in_word : Nat) (dir : Direction) :
    Option (CrosswordGrid × Except CrosswordError Unit) :=
  match g.fill_black_cells with
  | none => none
  | some g0 =>
    match g0.get_word word_id with
    | .error e => some (g0, .error e)
    | .ok word =>
      match word.get_location with
      | some loc3 => some (g0, .error (.WordAlreadyPlaced word_id word.word_text loc3.1))
      | none =>
        if !word.allowed_in_direction dir then
          some (g0, .error (.InvalidWordDirection word_id word.word_text dir))
        else
          match g0.place_word_in_cell l word_id index_in_word dir with
          | none => none
          | some (g2, .error e) => some (g2, .error e)
          | some (g2, .ok _) =>
            match g2.get_word word_id with
            | .error e => some (g2, .error e)
            | .ok _ => some (g2, .ok ())

/-- The filled content of the cell at a location: its letter and word ids if
the cell exists and is filled, `none` otherwise.  This is the letter data a
caller can observe, stable under adding or trimming empty padding. -/
def CrosswordGrid.filledAt (g : CrosswordGrid) (l : Location) :
    Option (Char × Option Nat × Option Nat) :=
  match mapGet g.cell_map l with
  | some ⟨.Filled ch a d⟩ => some (ch, a, d)
  | _ => none

/-- Well-formedness of the cell map as maintained by the grid builders:
ordered box bounds, duplicate-free keys, and the key set exactly the
bounding box. -/
def CrosswordGrid.box_exact (g : CrosswordGrid) : Bool :=
  decide (g.top_left_cell_index.row ≤ g.bottom_right_cell_index.row) &&
  decide (g.top_left_cell_index.col ≤ g.bottom_right_cell_index.col) &&
  decide ((g.cell_map.map Prod.fst).Nodup) &&
  g.cell_map.all (fun p => p.1 ∈ g.boxLocations) &&
  g.boxLocations.all (fun l => (mapGet g.cell_map l).isSome)

/-- No cell of the grid carries this word id (true of any unplaced word in a
grid the code built). -/
def CrosswordGrid.id_unused_in_cells (g : CrosswordGrid) (word_id : Nat) : Bool :=
  g.cell_map.all (fun p =>
    p.2.get_across_word_id ≠ some word_id && p.2.get_down_word_id ≠ some word_id)

/-- Every filled cell carries at least one word id (true of any grid the
code built: letters only enter cells through a word). -/
def CrosswordGrid.filled_cells_labelled (g : CrosswordGrid) : Bool :=
  g.cell_map.all (fun p =>
    !p.2.contains_letter || p.2.get_across_word_id.isSome || p.2.get_down_word_id.isSome)

/-- Exactly one empty buffer row/column on every side of the occupied
region: the boundary rows/columns hold no letter and the rows/columns just
inside them do. -/
def CrosswordGrid.one_buffer_each_side (g : CrosswordGrid) : Bool :=
  (g.count_filled_cells_row g.top_left_cell_index.row == some 0) &&
  (g.count_filled_cells_row g.bottom_right_cell_index.row == some 0) &&
  (g.count_filled_cells_col g.top_left_cell_index.col == some 0) &&
  (g.count_filled_cells_col g.bottom_right_cell_index.col == some 0) &&
  (match g.count_filled_cells_row (g.top_left_cell_index.row + 1) with
   | some k => !(k == 0)
   | none => false) &&
  (match g.count_filled_cells_row (g.bottom_right_cell_index.row - 1) with
   | some k => !(k == 0)
   | none => false) &&
  (match g.count_filled_cells_col (g.top_left_cell_index.col + 1) with
   | some k => !(k == 0)
   | none => false) &&
  (match g.count_filled_cells_col (g.bottom_right_cell_index.col - 1) with
   | some k => !(k == 0)
   | none => false)

/-- The grid `CrosswordGrid::new_single_word("ALPHA")` builds before its
final `fit_to_size`: the five letter cells of ALPHA as word 0 across at
`(0,0)`, box exactly those cells. -/
def alphaBase : CrosswordGrid :=
  { cell_map := [(⟨0, 0⟩, ⟨.Filled 'A' (some 0) none⟩),
                 (⟨0, 1⟩, ⟨.Filled 'L' (some 0) none⟩),
                 (⟨0, 2⟩, ⟨.Filled 'P' (some 0) none⟩),
                 (⟨0, 3⟩, ⟨.Filled 'H' (some 0) none⟩),
                 (⟨0, 4⟩, ⟨.Filled 'A' (some 0) none⟩)],
    word_map := [(0, ⟨"ALPHA".toList, some ⟨⟨0, 0⟩, ⟨0, 4⟩, .Across⟩, [], none⟩)],
    top_left_cell_index := ⟨0, 0⟩,
    bottom_right_cell_index := ⟨0, 4⟩ }

/-- The fitted ALPHA grid (3 rows × 7 columns, as the Rust test
`test_fit_to_size` checks). -/
def alphaFitted : CrosswordGrid :=
  match alphaBase.fit_to_size with
  | some g => g
  | none => alphaBase

/-- The fitted ALPHA grid with the two-letter word `BA` added unplaced as
word 1: the input of the C1 counterexample. -/
def c1Grid : CrosswordGrid :=
  { alphaFitted with
    word_map := mapInsert alphaFitted.word_map 1 (Word.new_unplaced "BA".toList [] none) }

/-- The grid the caller is left with after the failing C1 placement
attempt. -/
def c1After : CrosswordGrid :=
  match c1Grid.place_word_in_cell ⟨-1, 4⟩ 1 1 .Down with
  | some r => r.1
  | none => c1Grid

/-! ### Matrix embedding (`grid/matrix.rs` and `utils.rs`)

`Array2<i16>` / `Array2<u8>` are embedded as `List (List Int)` built row by
row; out-of-range reads are 0, matching the zero-padding the code arranges
before every elementwise operation. -/

/-- A matrix of the given dimensions from an entry function. -/
def mkMat (nr nc : Nat) (f : Nat → Nat → Int) : List (List Int) :=
  (List.range nr).map (fun i => (List.range nc).map (fun j => f i j))

/-- Entry read; 0 outside the stored rectangle. -/
def matGet (m : List (List Int)) (i j : Nat) : Int :=
  (m.getD i []).getD j 0

/-- Number of entries satisfying a predicate (`.iter().filter(..).count()`). -/
def countMat (p : Int → Bool) (m : List (List Int)) : Nat :=
  (m.map (fun row => row.countP p)).sum

def matRowsOf (m : List (List Int)) : Nat := m.length

def matColsOf (m : List (List Int)) : Nat := (m.headD []).length

/-- `utils::shift_by_row`: row `i` of the result is row `i+1` of the input,
the last row zero. -/
def shift_by_row (m : List (List Int)) : List (List Int) :=
  mkMat (matRowsOf m) (matColsOf m) (fun i j => matGet m (i + 1) j)

/-- `utils::shift_by_col`. -/
def shift_by_col (m : List (List Int)) : List (List Int) :=
  mkMat (matRowsOf m) (matColsOf m) (fun i j => matGet m i (j + 1))

/-- `utils::binarise_array`: 1 where nonzero. -/
def binarise_array (m : List (List Int)) : List (List Int) :=
  mkMat (matRowsOf m) (matColsOf m)
    (fun i j => if matGet m i j ≠ 0 then 1 else 0)

/-- `utils::binarise_array_threshold`: 1 where `|x| > thresh`. -/
def binarise_array_threshold (m : List (List Int)) (thresh : Int) :
    List (List Int) :=
  mkMat (matRowsOf m) (matColsOf m)
    (fun i j => if thresh < |matGet m i j| then 1 else 0)

/-- Elementwise sum (ndarray `+` of two same-shape arrays). -/
def matAdd (a b : List (List Int)) : List (List Int) :=
  mkMat (matRowsOf a) (matColsOf a) (fun i j => matGet a i j + matGet b i j)

/-- Elementwise difference. -/
def matSub (a b : List (List Int)) : List (List Int) :=
  mkMat (matRowsOf a) (matColsOf a) (fun i j => matGet a i j - matGet b i j)

/-- Elementwise product. -/
def matMul (a b : List (List Int)) : List (List Int) :=
  mkMat (matRowsOf a) (matColsOf a) (fun i j => matGet a i j * matGet b i j)

/-- `matrix.rs count_squares`: binarise, add the three shifts, count the 4s. -/
def count_squares (a : List (List Int)) : Nat :=
  let a_binary := binarise_array a
  let row_shifted := shift_by_row a_binary
  let col_shifted := shift_by_col a_binary
  let both_shifted := shift_by_col row_shifted
  let sums := matAdd (matAdd (matAdd a_binary row_shifted) col_shifted) both_shifted
  countMat (fun x => x == 4) sums

/-- `matrix.rs look_for_squares`. -/
def look_for_squares (a : List (List Int)) : Bool :=
  decide (count_squares a > 0)

/-- `CrosswordGridMatrix` of `grid/matrix.rs`. -/
structure CrosswordGridMatrix where
  matrix : List (List Int)
  row_shift : Int
  col_shift : Int
  nrows : Nat
  ncols : Nat
deriving DecidableEq, Repr

/-- `CrosswordGridMatrixCompatability` of `grid/matrix.rs`. -/
structure CrosswordGridMatrixCompatability where
  row_shift : Int
  col_shift : Int
  compatible : Bool
  num_overlaps : Nat
deriving DecidableEq, Repr

/-- `CrosswordGridMatrix::empty`. -/
def CrosswordGridMatrix.empty (nr nc : Nat) (rs cs : Int) : CrosswordGridMatrix :=
  ⟨mkMat nr nc (fun _ _ => 0), rs, cs, nr, nc⟩

/-- `CrosswordGridMatrix::shifted`: the original block moved down/right by
the extra rows/cols, zeros in front. -/
def CrosswordGridMatrix.shifted (m : CrosswordGridMatrix) (er ec : Nat) :
    CrosswordGridMatrix :=
  ⟨mkMat (m.nrows + er) (m.ncols + ec)
    (fun i j => if er ≤ i ∧ ec ≤ j then matGet m.matrix (i - er) (j - ec) else 0),
   m.row_shift + er, m.col_shift + ec, m.nrows + er, m.ncols + ec⟩

/-- `CrosswordGridMatrix::padded_to_size`: the original block in the top-left
corner of a fresh zero matrix.  (The `slice_mut` panic when asked to shrink
is not modelled; `assess_compatability` only ever passes enlarged sizes.) -/
def CrosswordGridMatrix.padded_to_size (m : CrosswordGridMatrix) (nr nc : Nat) :
    CrosswordGridMatrix :=
  ⟨mkMat nr nc (fun i j => matGet m.matrix i j), m.row_shift, m.col_shift, nr, nc⟩

/-- The shift-then-pad alignment step of `assess_compatability`: both
matrices brought onto a common grid of `max` dimensions, `other` offset by
`(other_row_shift, other_col_shift)` relative to `self`. -/
def CrosswordGridMatrix.alignedPadded (m other : CrosswordGridMatrix)
    (other_row_shift other_col_shift : Int) :
    CrosswordGridMatrix × CrosswordGridMatrix :=
  let shifted1 := m.shifted (max 0 (-other_row_shift)).toNat
    (max 0 (-other_col_shift)).toNat
  let shifted2 := other.shifted (max 0 other_row_shift).toNat
    (max 0 other_col_shift).toNat
  let max_rows := max shifted1.nrows shifted2.nrows
  let max_cols := max shifted1.ncols shifted2.ncols
  (shifted1.padded_to_size max_rows max_cols,
   shifted2.padded_to_size max_rows max_cols)

/-- `CrosswordGridMatrix::assess_compatability`. -/
def CrosswordGridMatrix.assess_compatability (m other : CrosswordGridMatrix)
    (other_row_shift other_col_shift : Int) : CrosswordGridMatrixCompatability :=
  let padded := m.alignedPadded other other_row_shift other_col_shift
  let nonempty_cells_shared := matMul padded.1.matrix padded.2.matrix
  let cells_mismatch := matSub padded.1.matrix padded.2.matrix
  let num_overlaps := countMat (fun x => decide (1 < x)) nonempty_cells_shared
  let grids_overlap := decide (num_overlaps ≠ 0)
  let cells_shared_and_mismatched := matMul nonempty_cells_shared cells_mismatch
  let no_mismatches :=
    countMat (fun x => decide (x ≠ 0)) cells_shared_and_mismatched == 0
  let nonempty_cells_after_merge :=
    matAdd (binarise_array_threshold padded.1.matrix 1)
      (binarise_array_threshold padded.2.matrix 1)
  let squares_present := look_for_squares nonempty_cells_after_merge
  ⟨other_row_shift, other_col_shift,
   grids_overlap && no_mismatches && !squares_present, num_overlaps⟩

/-- `CrosswordGridMatrix::compatible_with_matrix`. -/
def CrosswordGridMatrix.compatible_with_matrix (m other : CrosswordGridMatrix)
    (ors ocs : Int) : Bool :=
  (m.assess_compatability other ors ocs).compatible

/-- `VALID_ANSWERCHARS` of `grid/mod.rs`. -/
def VALID_ANSWERCHARS : List Char := "ABCDEFGHIJKLMNOPQRSTUVWXYZ".toList

/-- `matrix.rs cell_to_i16`: empty 0, black 1, letter `index + 2`; `none` is
the `unwrap` panic on a character outside `VALID_ANSWERCHARS`. -/
def cell_to_i16 (c : Cell) : Option Int :=
  if c.is_empty then some 0
  else if c.is_black then some 1
  else match VALID_ANSWERCHARS.indexOf? c.to_char with
    | some k => some ((k : Int) + 2)
    | none => none

/-- `CrosswordGrid::to_matrix`: the box rendered as a matrix with shifts
`(-top_left.row, -top_left.col)` and the buffered dimensions; `none` is the
`unwrap` panic when a box cell is missing or holds an invalid character. -/
def CrosswordGrid.to_matrix (g : CrosswordGrid) : Option CrosswordGridMatrix :=
  let nrows := (g.bottom_right_cell_index.row - g.top_left_cell_index.row + 1).toNat
  let ncols := (g.bottom_right_cell_index.col - g.top_left_cell_index.col + 1).toNat
  if g.boxLocations.all (fun l =>
      match mapGet g.cell_map l with
      | some c => (cell_to_i16 c).isSome
      | none => false) then
    some ⟨mkMat nrows ncols (fun i j =>
      match mapGet g.cell_map
        ⟨g.top_left_cell_index.row + (i : Int), g.top_left_cell_index.col + (j : Int)⟩ with
      | some c => (cell_to_i16 c).getD 0
      | none => 0),
      -g.top_left_cell_index.row, -g.top_left_cell_index.col, nrows, ncols⟩
  else none

/-- The spec's compatibility conditions read literally, on the aligned
rasters: every overlapping nonzero cell identical, at least one shared
nonzero cell, and no axis-aligned 2×2 all-nonzero block in the union of the
binarised (nonzero ↦ 1) rasters. -/
abbrev specMatrixCompatible (m other : CrosswordGridMatrix) (ors ocs : Int) : Prop :=
  let p := m.alignedPadded other ors ocs
  let R := p.1.nrows
  let C := p.1.ncols
  (∀ i < R, ∀ j < C, matGet p.1.matrix i j ≠ 0 → matGet p.2.matrix i j ≠ 0 →
    matGet p.1.matrix i j = matGet p.2.matrix i j) ∧
  (∃ i < R, ∃ j < C, matGet p.1.matrix i j ≠ 0 ∧ matGet p.2.matrix i j ≠ 0) ∧
  ¬ (∃ i < R, ∃ j < C, i + 1 < R ∧ j + 1 < C ∧
    (∀ a, a ≤ 1 → ∀ b, b ≤ 1 →
      (matGet p.1.matrix (i + a) (j + b) ≠ 0 ∨ matGet p.2.matrix (i + a) (j + b) ≠ 0)))

/-- The corrected compatibility conditions: overlap demands a shared cell
whose product exceeds 1 (a shared black cell, value 1·1, does not count),
and the 2×2 test sees only cells holding a letter (`|value| > 1`), not
black cells. -/
abbrev amendedMatrixCompatible (m other : CrosswordGridMatrix) (ors ocs : Int) : Prop :=
  let p := m.alignedPadded other ors ocs
  let R := p.1.nrows
  let C := p.1.ncols
  (∀ i < R, ∀ j < C, matGet p.1.matrix i j ≠ 0 → matGet p.2.matrix i j ≠ 0 →
    matGet p.1.matrix i j = matGet p.2.matrix i j) ∧
  (∃ i < R, ∃ j < C, 1 < matGet p.1.matrix i j * matGet p.2.matrix i j) ∧
  ¬ (∃ i < R, ∃ j < C, i + 1 < R ∧ j + 1 < C ∧
    (∀ a, a ≤ 1 → ∀ b, b ≤ 1 →
      (1 < |matGet p.1.matrix (i + a) (j + b)| ∨
        1 < |matGet p.2.matrix (i + a) (j + b)|)))

/-- The grid `new_from_wordmap_single_placed(0, Across, {BEE, BEAR})` builds
before its final `fit_to_size`: BEE placed across at the origin. -/
def beeBase : CrosswordGrid :=
  { cell_map := [(⟨0, 0⟩, ⟨.Filled 'B' (some 0) none⟩),
                 (⟨0, 1⟩, ⟨.Filled 'E' (some 0) none⟩),
                 (⟨0, 2⟩, ⟨.Filled 'E' (some 0) none⟩)],
    word_map := [(0, ⟨"BEE".toList, some ⟨⟨0, 0⟩, ⟨0, 2⟩, .Across⟩, [], none⟩),
                 (1, ⟨"BEAR".toList, none, [], none⟩)],
    top_left_cell_index := ⟨0, 0⟩,
    bottom_right_cell_index := ⟨0, 2⟩ }

/-- `new_from_wordmap_single_placed(1, Down, {BEE, BEAR})` before its final
`fit_to_size`: BEAR placed down at the origin. -/
def bearBase : CrosswordGrid :=
  { cell_map := [(⟨0, 0⟩, ⟨.Filled 'B' none (some 1)⟩),
                 (⟨1, 0⟩, ⟨.Filled 'E' none (some 1)⟩),
                 (⟨2, 0⟩, ⟨.Filled 'A' none (some 1)⟩),
                 (⟨3, 0⟩, ⟨.Filled 'R' none (some 1)⟩)],
    word_map := [(0, ⟨"BEE".toList, none, [], none⟩),
                 (1, ⟨"BEAR".toList, some ⟨⟨0, 0⟩, ⟨3, 0⟩, .Down⟩, [], none⟩)],
    top_left_cell_index := ⟨0, 0⟩,
    bottom_right_cell_index := ⟨3, 0⟩ }

/-- The matrix of the fitted BEE grid (the Rust test `test_matrix_compatible`
scenario). -/
def beeMatrix : CrosswordGridMatrix :=
  match (match beeBase.fit_to_size with
         | some g => g
         | none => beeBase).to_matrix with
  | some mx => mx
  | none => CrosswordGridMatrix.empty 0 0 0 0

/-- The matrix of the fitted BEAR grid. -/
def bearMatrix : CrosswordGridMatrix :=
  match (match bearBase.fit_to_size with
         | some g => g
         | none => bearBase).to_matrix with
  | some mx => mx
  | none => CrosswordGridMatrix.empty 0 0 0 0

/-- How many of the 100 offsets the Rust test `test_matrix_compatible`
enumerates (`for i in -5..5 { for j in -5..5 { .. } }`) make BEE and BEAR
compatible. -/
def c7CompatCount : Nat :=
  ((intRange (-5) 4).map (fun i =>
    ((intRange (-5) 4).filter
      (fun j => beeMatrix.compatible_with_matrix bearMatrix i j)).length)).sum

/-- A 1×1 matrix holding a single black cell (`cell_to_i16` value 1). -/
def blackCellMatrix : CrosswordGridMatrix :=
  ⟨[[1]], 0, 0, 1, 1⟩

/-! ### Generator embedding (`generator/mod.rs`)

`f64` values are embedded as `ℚ` (the concrete numbers the theorems touch
are dyadic, where IEEE doubles are exact), and the `as isize` casts as
truncation toward zero.  The `StdRng` of the external `rand` crate is not
part of this repository; everything the generator draws from it is derived
from the explicit seed, which the embedding reflects by passing the derived
seeds explicitly. -/

/-- The `as isize` cast of an `f64`: truncation toward zero. -/
def f64toInt (q : ℚ) : Int := if 0 ≤ q then ⌊q⌋ else ⌈q⌉

/-- `u64::wrapping_add`. -/
def wrapAdd (a b : Nat) : Nat := (a + b) % (2 ^ 64)

/-- An `isize` summary score reinterpreted `as u64`. -/
def u64ofInt (i : Int) : Nat := (i % (2 ^ 64)).toNat

/-- Sum of all entries (ndarray `.sum()`). -/
def matSum (m : List (List Int)) : Int := (m.map (fun r => r.sum)).sum

/-- `generator/mod.rs calculate_similarity`: `|shared adjacency edges| /
|union of adjacency edges|` between two word-intersection adjacency
matrices.  In ℚ a `0 / 0` union-free comparison yields 0 where Rust's
`f64` yields `NaN`; no theorem below touches that case. -/
def calculate_similarity (adj1 adj2 : List (List Int)) : ℚ :=
  let union : ℚ := (countMat (fun x => decide (0 < x)) (matAdd adj1 adj2) : Nat)
  let intersection : ℚ := (matSum (matMul adj1 adj2) : Int)
  intersection / union

/-- The fields of `CrosswordGridAttempt` that `pick_best_varied` consumes:
the grid's rendered string (its dedup key), the integer summary score, and
`to_graph_adjacency_matrix()`. -/
structure GridAttemptLite where
  key : List Char
  summary_score : Int
  adjacency : List (List Int)
deriving DecidableEq, Repr

/-- The `HashSet::insert` dedup loop at the top of `pick_best_varied`:
keeps the first attempt with each rendered string. -/
def dedupByKey : List GridAttemptLite → List (List Char) → List GridAttemptLite
  | [], _ => []
  | a :: rest, seen =>
    if a.key ∈ seen then dedupByKey rest seen
    else a :: dedupByKey rest (a.key :: seen)

/-- Index scan of Rust `Iterator::max_by_key`, which returns the LAST
maximal element: running best index/value, later ties win. -/
def argmaxAux {α : Type} [LinearOrder α] : List α → Nat → Nat → α → Nat
  | [], _, bi, _ => bi
  | x :: rest, i, bi, bv =>
    if bv ≤ x then argmaxAux rest (i + 1) i x else argmaxAux rest (i + 1) bi bv

/-- `iter().enumerate().max_by_key(..)` over the adjusted scores. -/
def argmaxLast {α : Type} [LinearOrder α] : List α → Option Nat
  | [] => none
  | x :: rest => some (argmaxAux rest 1 0 x)

/-- The inner update of `pick_best_varied`: compute the candidate's
similarity with the grid just picked, truncate `raw * (1 - similarity)`,
and keep it only if it is smaller than the current adjusted score. -/
def updateEntry (best : GridAttemptLite) (e : GridAttemptLite × Int) :
    GridAttemptLite × Int :=
  let similarity := calculate_similarity e.1.adjacency best.adjacency
  let adjusted := f64toInt ((e.1.summary_score : ℚ) * (1 - similarity))
  if adjusted < e.2 then (e.1, adjusted) else e

/-- The `while best_attempts.len() < num_to_pick` loop of
`pick_best_varied`; each entry pairs a candidate with its adjusted score,
`none` is the `max_by_key(..).unwrap()` panic on an exhausted candidate
list.  The fuel only bounds the recursion; every iteration grows `best`,
so `num_to_pick` steps always suffice. -/
def pickLoop (num_to_pick : Nat) :
    Nat → List GridAttemptLite → List (GridAttemptLite × Int) →
    Option (List GridAttemptLite)
  | 0, best, _ => if best.length < num_to_pick then none else some best
  | fuel + 1, best, entries =>
    if best.length < num_to_pick then
      match argmaxLast (entries.map Prod.snd) with
      | none => none
      | some idx =>
        match entries.get? idx with
        | none => none
        | some p =>
          pickLoop num_to_pick fuel (best ++ [p.1])
            ((entries.eraseIdx idx).map (updateEntry p.1))
    else some best

/-- `CrosswordGenerator::pick_best_varied`: `none` is the `unwrap` panic
when the unique candidates run out before `num_to_pick` grids are
picked. -/
def pick_best_varied (grid_attempts : List GridAttemptLite) (num_to_pick : Nat) :
    Option (List GridAttemptLite) :=
  let unique_children := dedupByKey grid_attempts []
  pickLoop num_to_pick num_to_pick []
    (unique_children.map (fun a => (a, a.summary_score)))

/-- The spec's reading of the selection loop, for comparison: "reduces its
adjusted score by raw_score * similarity", an exact running subtraction
with no truncation and no minimum. -/
def specUpdateEntry (best : GridAttemptLite) (e : GridAttemptLite × ℚ) :
    GridAttemptLite × ℚ :=
  (e.1, e.2 - (e.1.summary_score : ℚ) * calculate_similarity e.1.adjacency best.adjacency)

/-- The selection loop under the spec's update rule. -/
def specPickLoop (num_to_pick : Nat) :
    Nat → List GridAttemptLite → List (GridAttemptLite × ℚ) →
    Option (List GridAttemptLite)
  | 0, best, _ => if best.length < num_to_pick then none else some best
  | fuel + 1, best, entries =>
    if best.length < num_to_pick then
      match argmaxLast (entries.map Prod.snd) with
      | none => none
      | some idx =>
        match entries.get? idx with
        | none => none
        | some p =>
          specPickLoop num_to_pick fuel (best ++ [p.1])
            ((entries.eraseIdx idx).map (specUpdateEntry p.1))
    else some best

/-- `pick_best_varied` as the spec describes it. -/
def spec_pick_best_varied (grid_attempts : List GridAttemptLite) (num_to_pick : Nat) :
    Option (List GridAttemptLite) :=
  let unique_children := dedupByKey grid_attempts []
  specPickLoop num_to_pick num_to_pick []
    (unique_children.map (fun a => (a, (a.summary_score : ℚ))))

/-- `CrosswordGeneratorSettings` (the fields the generation loop reads). -/
structure CrosswordGeneratorSettingsLite where
  seed : Nat
  moves_between_scores : Nat
  num_children : Nat
  num_per_generation : Nat
  max_rounds : Nat
  min_rounds : Nat
deriving DecidableEq, Repr

/-- `CrosswordGeneratorSettings::new_from_hashmap` with the source's
defaults. -/
def settingsFromMap (m : List (List Char × Nat)) : CrosswordGeneratorSettingsLite :=
  { seed := (mapGet m "seed".toList).getD 13,
    moves_between_scores := (mapGet m "moves-between-scores".toList).getD 4,
    num_children := (mapGet m "num-children".toList).getD 15,
    num_per_generation := (mapGet m "num-per-gen".toList).getD 15,
    max_rounds := (mapGet m "max-rounds".toList).getD 20,
    min_rounds := (mapGet m "min-rounds".toList).getD 10 }

/-- The grid-level move machinery the generation loop invokes.  The grid
mutations themselves (`produce_child`'s random moves, `fill_grid`'s
exhaustive placement, `random_partition`) draw only on the parent attempt
and the derived seed passed in, which is all the determinism claim needs;
they are abstracted as an explicit function bundle so the pipeline theorems
quantify over every such engine.  `singletons` stands for
`CrosswordGrid::random_singleton_grids` plus the per-grid scoring. -/
structure MoveEngine where
  produce_child : GridAttemptLite → Nat → GridAttemptLite
  fill_grid : GridAttemptLite → Nat → GridAttemptLite
  partition : GridAttemptLite → Nat → Option (GridAttemptLite × GridAttemptLite)
  singletons : List (List Char) → Nat → List GridAttemptLite

/-- `CrosswordGenerator` (state the generation loop reads and writes). -/
structure CrosswordGeneratorLite where
  current_generation_complete : List GridAttemptLite
  next_generation_complete : List GridAttemptLite
  current_generation_ancestors : List GridAttemptLite
  next_generation_ancestors : List GridAttemptLite
  round : Nat
  settings : CrosswordGeneratorSettingsLite
deriving Repr

/-- `CrosswordGenerator::new_from_singletons`: builds the scored singleton
grids and seats them as the first ancestor generation; `none` is the
`singletons[0]` index panic of its log line on an empty seed word list. -/
def new_from_singletonsLite (E : MoveEngine) (words : List (List Char))
    (settings_map : List (List Char × Nat)) : Option CrosswordGeneratorLite :=
  let settings := settingsFromMap settings_map
  let singles := E.singletons words settings.seed
  match singles with
  | [] => none
  | _ :: _ =>
    some { current_generation_ancestors := singles,
           current_generation_complete := [],
           next_generation_ancestors := [],
           next_generation_complete := [],
           round := 0,
           settings := settings }

/-- `CrosswordGenerator::next_generation`: children and partitions of every
ancestor (seeds derived from the summary score, the round and the child
index by wrapping u64 addition, exactly as the source), the previous
generation appended, then `pick_best_varied` twice; `none` is a
`pick_best_varied` panic. -/
def next_generationLite (E : MoveEngine) (g : CrosswordGeneratorLite) :
    Option CrosswordGeneratorLite :=
  let children := g.current_generation_ancestors.flatMap (fun a =>
    let seed := wrapAdd (u64ofInt a.summary_score) g.round
    (List.range g.settings.num_children).map (fun ci =>
      E.produce_child a (wrapAdd seed ci)))
  let partitions := g.current_generation_ancestors.flatMap (fun a =>
    let seed := wrapAdd (u64ofInt a.summary_score) g.round
    (List.range g.settings.num_children).flatMap (fun _ =>
      match E.partition a seed with
      | some (copied, other_half) => [copied, other_half]
      | none => []))
  let new_ancestors := children ++ partitions ++ g.current_generation_ancestors
  match pick_best_varied new_ancestors g.settings.num_per_generation with
  | none => none
  | some picked_ancestors =>
    let complete_children := picked_ancestors.flatMap (fun a =>
      let seed := u64ofInt a.summary_score
      (List.range g.settings.num_children).map (fun ci =>
        E.fill_grid a (wrapAdd seed ci)))
    let new_complete := complete_children ++ g.current_generation_complete
    match pick_best_varied new_complete g.settings.num_per_generation with
    | none => none
    | some picked_complete =>
      some { g with
        current_generation_ancestors := picked_ancestors,
        next_generation_ancestors := [],
        current_generation_complete := picked_complete,
        next_generation_complete := [] }

/-- `CrosswordGenerator::stringified_output`. -/
def stringifiedOutput (g : CrosswordGeneratorLite) : List Char :=
  ((g.current_generation_ancestors ++ g.current_generation_complete).map
    (fun a => a.key ++ "\n\n".toList)).flatten

/-- The `while !reached_convergence && round < max_rounds` loop of
`generate`; the fuel is `max_rounds - round`, which bounds it exactly. -/
def generateLoop (E : MoveEngine) :
    Nat → CrosswordGeneratorLite → List Char → Option CrosswordGeneratorLite
  | 0, g, _ => some g
  | fuel + 1, g, last_stringified =>
    if g.round < g.settings.max_rounds then
      match next_generationLite E g with
      | none => none
      | some g1 =>
        let this_stringified := stringifiedOutput g1
        let converged :=
          g1.round > g1.settings.min_rounds && this_stringified == last_stringified
        let g2 := { g1 with round := g1.round + 1 }
        if converged then some g2
        else generateLoop E fuel g2 this_stringified
    else some g

/-- `CrosswordGenerator::generate`: run the loop, then output the rendered
strings of the best complete grids (`output_best`). -/
def generateLite (E : MoveEngine) (g : CrosswordGeneratorLite) :
    Option (List (List Char)) :=
  match generateLoop E (g.settings.max_rounds - g.round) g (stringifiedOutput g) with
  | none => none
  | some gFinal =>
    some ((gFinal.current_generation_complete.take
      gFinal.settings.num_per_generation).map (fun a => a.key))

/-- A concrete three-candidate scenario for the selection loop: A with raw
score 102, B with raw score 101 and adjacency sharing half its union with
A, C with raw score 50 and adjacency disjoint from A. -/
def candA : GridAttemptLite :=
  ⟨"GRID-A".toList, 102, [[0, 1, 0], [1, 0, 1], [0, 1, 0]]⟩

/-- Candidate B of the C9 scenario. -/
def candB : GridAttemptLite :=
  ⟨"GRID-B".toList, 101, [[0, 1, 0], [1, 0, 0], [0, 0, 0]]⟩

/-- Candidate C of the C9 scenario. -/
def candC : GridAttemptLite :=
  ⟨"GRID-C".toList, 50, [[0, 0, 1], [0, 0, 0], [1, 0, 0]]⟩

/-- Modelled from the spec: `Word::new_parsed` sanitises via the external
`regex` crate; a plain answer string of valid answer characters parses to
an unplaced word, anything else is rejected.  Only the empty-list fact of
C5, which never parses a word, depends on this definition. -/
def Word.new_parsed_model (s : List Char) : Option Word :=
  if s ≠ [] ∧ s.all (fun c => c ∈ VALID_ANSWERCHARS) then
    some (Word.new_unplaced s [] none)
  else none

/-- Modelled from the spec: the seeded `choose` between `Down` and
`Across` in `random_singleton_grids` — a deterministic function of the
seed and the position in the draw stream. -/
def chooseDirection (seed k : Nat) : Direction :=
  if (seed + k) % 2 = 0 then Direction.Down else Direction.Across

/-- `CrosswordGrid::new_from_wordmap_single_placed`: place the word's
letters from the origin along the direction, then `fit_to_size`; `none`
is a panic (missing word, direction not allowed, invalid grid). -/
def CrosswordGrid.new_from_wordmap_single_placed (word_id : Nat) (dir : Direction)
    (word_map : List (Nat × Word)) : Option CrosswordGrid :=
  match mapGet word_map word_id with
  | none => none
  | some word =>
    match word.update_location ⟨0, 0⟩ dir with
    | none => none
    | some placed =>
      let ids := match dir with
        | Direction.Across => (some word_id, (none : Option Nat))
        | Direction.Down => ((none : Option Nat), some word_id)
      let cells := (List.range word.word_text.length).map (fun (i : Nat) =>
        ((Location.relative_location_directed ⟨0, 0⟩ (i : Int) dir),
         (⟨.Filled (word.word_text.getD i ' ') ids.1 ids.2⟩ : Cell)))
      let g : CrosswordGrid :=
        { cell_map := cells,
          word_map := mapInsert word_map word_id placed,
          top_left_cell_index := ⟨0, 0⟩,
          bottom_right_cell_index :=
            Location.relative_location_directed ⟨0, 0⟩
              ((word.word_text.length : Int) - 1) dir }
      g.fit_to_size

/-- `CrosswordGrid::random_singleton_grids`: parse each word, then build
one single-word grid per parsed word, choosing the direction with the
seeded RNG when the word does not force one. -/
def CrosswordGrid.random_singleton_grids (words : List (List Char)) (seed : Nat) :
    Option (List CrosswordGrid) :=
  let parsed := words.enum.map (fun wi => (wi.1, Word.new_parsed_model wi.2))
  let word_map := parsed.foldl (fun acc p =>
    match p.2 with
    | some w => acc ++ [(p.1, w)]
    | none => acc) []
  let rec build : List (Nat × Word) → Nat → Option (List CrosswordGrid)
    | [], _ => some []
    | (word_id, word) :: rest, k =>
      let direction := match word.required_direction with
        | none => chooseDirection seed k
        | some d => d
      match CrosswordGrid.new_from_wordmap_single_placed word_id direction word_map with
      | none => none
      | some g =>
        match build rest (k + 1) with
        | none => none
        | some gs => some (g :: gs)
  build word_map 0

/-- The `singletons[0]` the constructor's first log line indexes: `none`
both when the seed word list produces no singleton grids (the index panic
of `new_from_singletons` on an empty list) and when a singleton grid
construction itself panicked. -/
def new_from_singletons_firstGrid (words : List (List Char))
    (settings_map : List (List Char × Nat)) : Option CrosswordGrid :=
  let settings := settingsFromMap settings_map
  match CrosswordGrid.random_singleton_grids words settings.seed with
  | none => none
  | some [] => none
  | some (g :: _) => some g

/-- A concrete move engine for evaluating the pipeline: children and
filled grids are the parent itself, partitions never fire, and every seed
word becomes an unscored attempt. -/
def idEngine : MoveEngine :=
  ⟨fun a _ => a, fun a _ => a, fun _ _ => none,
   fun ws _ => ws.map (fun w => ⟨w, 0, []⟩)⟩

/-- The generator state `idEngine` builds from the one-word list. -/
def c4Gen : CrosswordGeneratorLite :=
  match new_from_singletonsLite idEngine ["HELLO".toList] [] with
  | some g => g
  | none =>
    { current_generation_ancestors := [], current_generation_complete := [],
      next_generation_ancestors := [], next_generation_complete := [],
      round := 0, settings := settingsFromMap [] }

-- ===================== THEOREMS =====================

/-! ### Basic lemmas about the list-set helpers -/

theorem mem_listInsertNat {x y : Nat} {l : List Nat} :
    y ∈ listInsertNat x l ↔ y = x ∨ y ∈ l := by
  unfold listInsertNat
  by_cases h : x ∈ l
  · simp only [if_pos h]
    constructor
    · exact Or.inr
    · rintro (rfl | hy)
      · exact h
      · exact hy
  · simp [if_neg h]

theorem nodup_listInsertNat {x : Nat} {l : List Nat} (h : l.Nodup) :
    (listInsertNat x l).Nodup := by
  unfold listInsertNat
  by_cases hx : x ∈ l <;> simp [hx, h]

theorem length_listInsertNat_of_not_mem {x : Nat} {l : List Nat} (h : x ∉ l) :
    (listInsertNat x l).length = l.length + 1 := by
  unfold listInsertNat; simp [h]

theorem subset_listInsertNat {x : Nat} {l : List Nat} : l ⊆ listInsertNat x l := by
  intro y hy; exact mem_listInsertNat.2 (Or.inr hy)

theorem mem_listInsert {x y : Nat × Nat} {l : List (Nat × Nat)} :
    y ∈ listInsert x l ↔ y = x ∨ y ∈ l := by
  unfold listInsert
  by_cases h : x ∈ l
  · simp only [if_pos h]
    constructor
    · exact Or.inr
    · rintro (rfl | hy)
      · exact h
      · exact hy
  · simp [if_neg h]

theorem nodup_listInsert {x : Nat × Nat} {l : List (Nat × Nat)} (h : l.Nodup) :
    (listInsert x l).Nodup := by
  unfold listInsert
  by_cases hx : x ∈ l <;> simp [hx, h]

theorem length_listInsert_of_not_mem {x : Nat × Nat} {l : List (Nat × Nat)} (h : x ∉ l) :
    (listInsert x l).length = l.length + 1 := by
  unfold listInsert; simp [h]

theorem listInsert_of_mem {x : Nat × Nat} {l : List (Nat × Nat)} (h : x ∈ l) :
    listInsert x l = l := by
  unfold listInsert; simp [h]

theorem subset_listInsert {x : Nat × Nat} {l : List (Nat × Nat)} : l ⊆ listInsert x l := by
  intro y hy; exact mem_listInsert.2 (Or.inr hy)

theorem nodup_subset_length {α : Type} [DecidableEq α] {l l' : List α}
    (h : l.Nodup) (hs : l ⊆ l') : l.length ≤ l'.length := by
  calc l.length = l.toFinset.card := (List.toFinset_card_of_nodup h).symm
    _ ≤ l'.toFinset.card := Finset.card_le_card (fun a ha => by
        simp only [List.mem_toFinset] at ha ⊢; exact hs ha)
    _ ≤ l'.length := l'.toFinset_card_le

/-! ### Lemmas about `get_node`, `adj` and well-formedness -/

theorem get_node_some_id {g : Graph} {u : Nat} {n : GNode} (h : g.get_node u = some n) :
    n.node_id = u := by
  have := List.find?_some h
  simpa using this

theorem get_node_some_mem {g : Graph} {u : Nat} {n : GNode} (h : g.get_node u = some n) :
    n ∈ g.node_storage := List.mem_of_find?_eq_some h

theorem get_node_isSome_iff {g : Graph} {u : Nat} :
    (g.get_node u).isSome ↔ u ∈ g.node_ids := by
  unfold Graph.get_node Graph.node_ids
  rw [List.find?_isSome, List.mem_map]
  constructor
  · rintro ⟨n, hn, hp⟩
    exact ⟨n, hn, by simpa using hp⟩
  · rintro ⟨n, hn, hp⟩
    exact ⟨n, hn, by simpa using hp⟩

theorem Graph.WF.ids_nodup {g : Graph} (h : g.WF) : g.node_ids.Nodup := by
  unfold Graph.WF Graph.wfb at h
  simp only [Bool.and_eq_true, decide_eq_true_eq] at h
  exact h.1

theorem Graph.WF.node_props {g : Graph} (h : g.WF) {n : GNode} (hn : n ∈ g.node_storage) :
    n.connected_nodes.Nodup ∧
    ∀ v ∈ n.connected_nodes, v ≠ n.node_id ∧ v ∈ g.node_ids ∧ n.node_id ∈ g.adj v := by
  unfold Graph.WF Graph.wfb at h
  simp only [Bool.and_eq_true, decide_eq_true_eq, List.all_eq_true] at h
  obtain ⟨-, h2⟩ := h
  have := h2 n hn
  refine ⟨this.1, fun v hv => ?_⟩
  have hv' := this.2 v hv
  exact ⟨hv'.1.1, hv'.1.2, hv'.2⟩

theorem find?_id_eq_of_mem_nodup {l : List GNode} {n : GNode} (hn : n ∈ l)
    (hnodup : (l.map (fun x => x.node_id)).Nodup) :
    l.find? (fun m => m.node_id == n.node_id) = some n := by
  induction l with
  | nil => simp at hn
  | cons m rest ih =>
    simp only [List.map_cons, List.nodup_cons] at hnodup
    rcases List.mem_cons.1 hn with rfl | hn
    · simp [List.find?]
    · have hne : m.node_id ≠ n.node_id := by
        intro heq
        exact hnodup.1 (heq ▸ List.mem_map_of_mem (fun x => x.node_id) hn)
      rw [List.find?_cons_of_neg _ (by simpa using hne)]
      exact ih hn hnodup.2

theorem Graph.WF.get_node_of_mem {g : Graph} (h : g.WF) {n : GNode}
    (hn : n ∈ g.node_storage) : g.get_node n.node_id = some n := by
  have hnodup := h.ids_nodup
  unfold Graph.node_ids at hnodup
  exact find?_id_eq_of_mem_nodup hn hnodup

theorem adj_eq_of_mem {g : Graph} (h : g.WF) {n : GNode} (hn : n ∈ g.node_storage) :
    g.adj n.node_id = n.connected_nodes := by
  unfold Graph.adj
  rw [h.get_node_of_mem hn]
  rfl

theorem mem_adj_elim {g : Graph} {u v : Nat} (hv : v ∈ g.adj u) :
    ∃ n ∈ g.node_storage, n.node_id = u ∧ v ∈ n.connected_nodes := by
  unfold Graph.adj at hv
  cases hfind : g.get_node u with
  | none => rw [hfind] at hv; simp at hv
  | some n =>
    rw [hfind] at hv
    exact ⟨n, get_node_some_mem hfind, get_node_some_id hfind, by simpa using hv⟩

theorem mem_adj_ids_left {g : Graph} {u v : Nat} (hv : v ∈ g.adj u) : u ∈ g.node_ids := by
  obtain ⟨n, hn, rfl, -⟩ := mem_adj_elim hv
  exact List.mem_map_of_mem (fun x => x.node_id) hn

theorem mem_adj_ids_right {g : Graph} (h : g.WF) {u v : Nat} (hv : v ∈ g.adj u) :
    v ∈ g.node_ids := by
  obtain ⟨n, hn, rfl, hvn⟩ := mem_adj_elim hv
  exact ((h.node_props hn).2 v hvn).2.1

theorem mem_adj_symm {g : Graph} (h : g.WF) {u v : Nat} (hv : v ∈ g.adj u) :
    u ∈ g.adj v := by
  obtain ⟨n, hn, rfl, hvn⟩ := mem_adj_elim hv
  exact ((h.node_props hn).2 v hvn).2.2

theorem mem_adj_ne {g : Graph} (h : g.WF) {u v : Nat} (hv : v ∈ g.adj u) : v ≠ u := by
  obtain ⟨n, hn, rfl, hvn⟩ := mem_adj_elim hv
  exact ((h.node_props hn).2 v hvn).1

theorem adj_nodup {g : Graph} (h : g.WF) (u : Nat) : (g.adj u).Nodup := by
  unfold Graph.adj
  cases hfind : g.get_node u with
  | none => simp
  | some n =>
    have := (h.node_props (get_node_some_mem hfind)).1
    simpa using this

theorem mem_node_ids_elim {g : Graph} {u : Nat} (hu : u ∈ g.node_ids) :
    ∃ n ∈ g.node_storage, n.node_id = u := by
  unfold Graph.node_ids at hu
  obtain ⟨n, hn, hid⟩ := List.mem_map.1 hu
  exact ⟨n, hn, hid⟩

/-! ### Lemmas about `get_edge_list` and `directed_edges` -/

theorem get_edge_list_eq {g : Graph} {u : Nat} (hu : u ∈ g.node_ids) :
    ∃ es, g.get_edge_list u = some es ∧ es.length = (g.adj u).length ∧
      ∀ e, e ∈ es ↔ e.1 = u ∧ e.2 ∈ g.adj u := by
  have hsome : (g.get_node u).isSome := get_node_isSome_iff.2 hu
  obtain ⟨n, hn⟩ := Option.isSome_iff_exists.1 hsome
  have hadj : g.adj u = n.connected_nodes := by
    unfold Graph.adj; rw [hn]; rfl
  refine ⟨_, by unfold Graph.get_edge_list; rw [hn]; rfl, ?_, ?_⟩
  · rw [List.length_map, hadj]
    exact (List.perm_insertionSort (· ≤ ·) n.connected_nodes).length_eq
  · intro e
    rw [List.mem_map]
    constructor
    · rintro ⟨nb, hnb, rfl⟩
      have := (List.perm_insertionSort (· ≤ ·) n.connected_nodes).mem_iff.1 hnb
      exact ⟨rfl, by rw [hadj]; exact this⟩
    · rintro ⟨h1, h2⟩
      rw [hadj] at h2
      exact ⟨e.2, (List.perm_insertionSort (· ≤ ·) n.connected_nodes).mem_iff.2 h2,
        by cases e; simp only at h1; simp [h1]⟩

theorem get_edge_list_none {g : Graph} {u : Nat} (hu : u ∉ g.node_ids) :
    g.get_edge_list u = none := by
  unfold Graph.get_edge_list
  have hnone : g.get_node u = none := by
    cases hfind : g.get_node u with
    | none => rfl
    | some n =>
      exact absurd (get_node_isSome_iff.1 (by rw [hfind]; rfl)) hu
  rw [hnone]
  rfl

theorem mem_directed_edges {g : Graph} (h : g.WF) {e : Nat × Nat} :
    e ∈ g.directed_edges ↔ e.2 ∈ g.adj e.1 := by
  unfold Graph.directed_edges
  rw [List.mem_flatMap]
  constructor
  · rintro ⟨n, hn, he⟩
    obtain ⟨v, hv, rfl⟩ := List.mem_map.1 he
    rw [adj_eq_of_mem h hn]
    exact hv
  · intro he
    obtain ⟨n, hn, hid, hv⟩ := mem_adj_elim he
    refine ⟨n, hn, List.mem_map.2 ⟨e.2, hv, ?_⟩⟩
    cases e
    simp only at hid
    simp [hid]

theorem directed_edges_length {g : Graph} : g.directed_edges.length = g.deg_sum := by
  unfold Graph.directed_edges Graph.deg_sum
  rw [List.length_flatMap]
  congr 1
  simp [Function.comp]

theorem directed_edges_nodup {g : Graph} (h : g.WF) : g.directed_edges.Nodup := by
  unfold Graph.directed_edges
  rw [List.nodup_flatMap]
  constructor
  · intro n hn
    exact ((h.node_props hn).1).map (fun a b hab => by simpa using hab)
  · have hnodup := h.ids_nodup
    unfold Graph.node_ids at hnodup
    have hpw : g.node_storage.Pairwise (fun m n => m.node_id ≠ n.node_id) :=
      List.Pairwise.of_map (fun x => x.node_id) (fun a b hab => hab) hnodup
    refine hpw.imp ?_
    intro m n hne
    intro x hx hy
    obtain ⟨v, -, rfl⟩ := List.mem_map.1 hx
    obtain ⟨w, -, hw⟩ := List.mem_map.1 hy
    exact hne (by simpa using congrArg Prod.fst hw.symm)

/-! ### Reachability lemmas -/

theorem reach_of_adj {g : Graph} {u v : Nat} (h : v ∈ g.adj u) : g.Reach u v :=
  Relation.ReflTransGen.single h

theorem reach_symm {g : Graph} (h : g.WF) {u v : Nat} (hr : g.Reach u v) : g.Reach v u := by
  have hsym : Symmetric g.adjRel := fun a b hab => mem_adj_symm h hab
  exact (Relation.ReflTransGen.symmetric hsym) hr

theorem reach_mem_ids {g : Graph} (hwf : g.WF) {u v : Nat} (hu : u ∈ g.node_ids)
    (hr : g.Reach u v) : v ∈ g.node_ids := by
  induction hr with
  | refl => exact hu
  | tail _ hstep ih => exact mem_adj_ids_right hwf hstep

theorem reach_closed {g : Graph} {S : List Nat} {root x : Nat}
    (hc : ∀ u ∈ S, ∀ v ∈ g.adj u, v ∈ S) (hr : root ∈ S) (h : g.Reach root x) : x ∈ S := by
  induction h with
  | refl => exact hr
  | tail _ hstep ih => exact hc _ ih _ hstep

theorem reachIn_mono {g : Graph} {S T : List Nat} (hst : ∀ x ∈ S, x ∈ T) {u v : Nat}
    (h : g.ReachIn S u v) : g.ReachIn T u v := by
  refine Relation.ReflTransGen.mono ?_ h
  intro a b hab
  exact ⟨hst a hab.1, hst b hab.2.1, hab.2.2⟩

theorem reachIn_reach {g : Graph} {S : List Nat} {u v : Nat} (h : g.ReachIn S u v) :
    g.Reach u v := by
  refine Relation.ReflTransGen.mono ?_ h
  intro a b hab
  exact hab.2.2

/-! ### The single-source traversal computes exactly the reachable set -/

theorem filter_deg_drop {l : List GNode} {vis : List Nat} {v : Nat} (hnv : v ∉ vis)
    {n : GNode} (hfind : l.find? (fun m => m.node_id == v) = some n) :
    ((l.filter (fun m => decide (m.node_id ∉ v :: vis))).map
        (fun m => m.connected_nodes.length)).sum + n.connected_nodes.length
    ≤ ((l.filter (fun m => decide (m.node_id ∉ vis))).map
        (fun m => m.connected_nodes.length)).sum := by
  induction l with
  | nil => simp [List.find?] at hfind
  | cons m rest ih =>
    by_cases hm : m.node_id = v
    · rw [List.find?_cons_of_pos _ (by simp [hm])] at hfind
      obtain rfl : m = n := Option.some.inj hfind
      rw [List.filter_cons_of_neg (by simp [hm]), List.filter_cons_of_pos (by simp [hm, hnv])]
      have hsub : ((rest.filter (fun m => decide (m.node_id ∉ v :: vis))).map
          (fun m => m.connected_nodes.length)).Sublist
          ((rest.filter (fun m => decide (m.node_id ∉ vis))).map
          (fun m => m.connected_nodes.length)) := by
        refine List.Sublist.map _ (List.monotone_filter_right _ ?_)
        intro a ha
        simp only [decide_eq_true_eq, List.mem_cons, not_or] at ha ⊢
        exact ha.2
      have hle := hsub.sum_le_sum (by intro a _; exact Nat.zero_le a)
      simp only [List.map_cons, List.sum_cons]
      omega
    · rw [List.find?_cons_of_neg _ (by simp [hm])] at hfind
      have hhead : (decide (m.node_id ∉ v :: vis)) = (decide (m.node_id ∉ vis)) := by
        simp [hm]
      by_cases hmv : m.node_id ∈ vis
      · rw [List.filter_cons_of_neg (by rw [hhead]; simp [hmv]),
          List.filter_cons_of_neg (by simp [hmv])]
        exact ih hfind
      · rw [List.filter_cons_of_pos (by rw [hhead]; simp [hmv]),
          List.filter_cons_of_pos (by simp [hmv])]
        simp only [List.map_cons, List.sum_cons]
        have := ih hfind
        omega

theorem filter_map_sum_le_deg_sum (g : Graph) (p : GNode → Bool) :
    ((g.node_storage.filter p).map (fun n => n.connected_nodes.length)).sum ≤ g.deg_sum := by
  unfold Graph.deg_sum
  exact ((List.filter_sublist _).map _).sum_le_sum (by intro a _; exact Nat.zero_le a)

theorem unvis_sum_le_deg_sum (g : Graph) (vis : List Nat) :
    ((g.node_storage.filter (fun n => n.node_id ∉ vis)).map
      (fun n => n.connected_nodes.length)).sum ≤ g.deg_sum :=
  filter_map_sum_le_deg_sum g _

theorem filter_deg_drop2 {l : List GNode} {p q : GNode → Bool}
    (himp : ∀ m, q m = true → p m = true)
    {v : Nat} {n : GNode} (hfind : l.find? (fun m => m.node_id == v) = some n)
    (hqv : ∀ m, m.node_id = v → q m = false) (hpn : p n = true) :
    ((l.filter q).map (fun m => m.connected_nodes.length)).sum + n.connected_nodes.length
      ≤ ((l.filter p).map (fun m => m.connected_nodes.length)).sum := by
  induction l with
  | nil => simp [List.find?] at hfind
  | cons m rest ih =>
    have hsubrest : ((rest.filter q).map (fun m => m.connected_nodes.length)).sum
        ≤ ((rest.filter p).map (fun m => m.connected_nodes.length)).sum := by
      refine ((List.monotone_filter_right _ himp).map _).sum_le_sum ?_
      intro x _
      exact Nat.zero_le x
    by_cases hm : m.node_id = v
    · rw [List.find?_cons_of_pos _ (by simp [hm])] at hfind
      obtain rfl : m = n := Option.some.inj hfind
      rw [List.filter_cons_of_neg (by simp [hqv m hm]),
        List.filter_cons_of_pos hpn]
      simp only [List.map_cons, List.sum_cons]
      omega
    · rw [List.find?_cons_of_neg _ (by simp [hm])] at hfind
      have hrec := ih hfind
      by_cases hq : q m = true
      · rw [List.filter_cons_of_pos hq, List.filter_cons_of_pos (himp m hq)]
        simp only [List.map_cons, List.sum_cons]
        omega
      · rw [List.filter_cons_of_neg (by simp_all)]
        by_cases hp : p m = true
        · rw [List.filter_cons_of_pos hp]
          simp only [List.map_cons, List.sum_cons]
          omega
        · rw [List.filter_cons_of_neg (by simp_all)]
          exact hrec

theorem traverse_loop_ok {g : Graph} (hwf : g.WF) (root : Nat) :
    ∀ fuel (s : TravState), TravInv g root s → g.potential s < fuel →
    ∃ out, g.traverse_loop fuel s = some out ∧ out.Nodup ∧
      root ∈ out ∧
      (∀ v ∈ out, g.Reach root v) ∧
      (∀ u ∈ out, ∀ v ∈ g.adj u, v ∈ out) ∧
      (∀ v ∈ out, v ∈ g.node_ids) ∧
      2 * out.length ≤ g.deg_sum + 2 := by
  intro fuel
  induction fuel with
  | zero => intro s _ hpot; omega
  | succ fuel ih =>
    rintro ⟨vis, used, stk⟩ hinv hpot
    cases stk with
    | nil =>
      refine ⟨vis, by simp [Graph.traverse_loop], hinv.vis_nodup, hinv.root_mem,
        hinv.vis_reach, ?_, hinv.vis_ids, ?_⟩
      · intro u hu v hv
        rcases hinv.closure u hu v hv with h | h | h
        · exact h
        · simp at h
        · exact (hinv.used_vis _ h).2
      · have hsubD : used ⊆ g.directed_edges := by
          intro e he
          exact (mem_directed_edges hwf).2 (hinv.used_edge e he)
        have hlen : used.length ≤ g.deg_sum := by
          rw [← directed_edges_length]
          exact nodup_subset_length hinv.used_nodup hsubD
        have hcard := hinv.card
        simp only at hcard hlen
        omega
    | cons e rest =>
      have he1vis : e.1 ∈ vis := (hinv.stack_inv e (List.mem_cons_self e rest)).1
      have headj : e.2 ∈ g.adj e.1 := (hinv.stack_inv e (List.mem_cons_self e rest)).2
      have hne : e.2 ≠ e.1 := mem_adj_ne hwf headj
      have hswapadj : e.1 ∈ g.adj e.2 := mem_adj_symm hwf headj
      have hpotrest : rest.length +
          ((g.node_storage.filter (fun n => n.node_id ∉ vis)).map
            (fun n => n.connected_nodes.length)).sum < fuel := by
        unfold Graph.potential at hpot
        simp only [List.length_cons] at hpot
        omega
      by_cases huse : e ∈ used
      · -- edge already used: both inserts are no-ops
        have hswap : (e.2, e.1) ∈ used := hinv.used_symm e huse
        have hused1 : listInsert (e.2, e.1) (listInsert e used) = used := by
          rw [listInsert_of_mem huse, listInsert_of_mem hswap]
        have hstep : g.traverse_loop (fuel+1) ⟨vis, used, e :: rest⟩ =
            g.traverse_loop fuel ⟨vis, used, rest⟩ := by
          simp only [Graph.traverse_loop, huse, if_pos, hused1]
        rw [hstep]
        refine ih ⟨vis, used, rest⟩ ⟨hinv.root_mem, hinv.vis_nodup, hinv.vis_ids,
          hinv.vis_reach, ?_, hinv.used_edge, hinv.used_vis, hinv.used_symm,
          hinv.used_nodup, ?_, hinv.card⟩ ?_
        · intro d hd
          exact hinv.stack_inv d (List.mem_cons_of_mem e hd)
        · intro u hu v hv
          rcases hinv.closure u hu v hv with h | h | h
          · exact Or.inl h
          · rcases List.mem_cons.1 h with heq | h
            · exact Or.inr (Or.inr (heq ▸ huse))
            · exact Or.inr (Or.inl h)
          · exact Or.inr (Or.inr h)
        · unfold Graph.potential
          simpa using hpotrest
      · -- edge is fresh
        have hswapnot : (e.2, e.1) ∉ used := by
          intro hc
          exact huse (by simpa using hinv.used_symm _ hc)
        have hused1 : listInsert (e.2, e.1) (listInsert e used) =
            (e.2, e.1) :: e :: used := by
          unfold listInsert
          rw [if_neg huse]
          rw [if_neg (by
            intro hc
            rcases List.mem_cons.1 hc with heq | hmem
            · exact hne (congrArg Prod.fst heq)
            · exact hswapnot hmem)]
        have hused1_nodup : ((e.2, e.1) :: e :: used).Nodup := by
          refine List.nodup_cons.2 ⟨?_, List.nodup_cons.2 ⟨huse, hinv.used_nodup⟩⟩
          intro hc
          rcases List.mem_cons.1 hc with heq | hmem
          · exact hne (congrArg Prod.fst heq)
          · exact hswapnot hmem
        have hused1_edge : ∀ d ∈ (e.2, e.1) :: e :: used, d.2 ∈ g.adj d.1 := by
          intro d hd
          rcases List.mem_cons.1 hd with rfl | hd
          · exact hswapadj
          · rcases List.mem_cons.1 hd with rfl | hd
            · exact headj
            · exact hinv.used_edge d hd
        have hused1_symm : ∀ d ∈ (e.2, e.1) :: e :: used,
            (d.2, d.1) ∈ (e.2, e.1) :: e :: used := by
          intro d hd
          rcases List.mem_cons.1 hd with rfl | hd
          · exact List.mem_cons_of_mem _ (List.mem_cons_self _ _)
          · rcases List.mem_cons.1 hd with rfl | hd
            · exact List.mem_cons_self _ _
            · exact List.mem_cons_of_mem _ (List.mem_cons_of_mem _ (hinv.used_symm d hd))
        by_cases hvis : e.2 ∈ vis
        · -- target already visited
          have hstep : g.traverse_loop (fuel+1) ⟨vis, used, e :: rest⟩ =
              g.traverse_loop fuel ⟨vis, (e.2, e.1) :: e :: used, rest⟩ := by
            simp only [Graph.traverse_loop, hused1]
            rw [if_neg huse, if_pos hvis]
          rw [hstep]
          refine ih _ ⟨hinv.root_mem, hinv.vis_nodup, hinv.vis_ids, hinv.vis_reach, ?_,
            hused1_edge, ?_, hused1_symm, hused1_nodup, ?_, ?_⟩ ?_
          · intro d hd
            exact hinv.stack_inv d (List.mem_cons_of_mem e hd)
          · intro d hd
            rcases List.mem_cons.1 hd with rfl | hd
            · exact ⟨hvis, he1vis⟩
            · rcases List.mem_cons.1 hd with rfl | hd
              · exact ⟨he1vis, hvis⟩
              · exact hinv.used_vis d hd
          · intro u hu v hv
            rcases hinv.closure u hu v hv with h | h | h
            · exact Or.inl h
            · rcases List.mem_cons.1 h with heq | h
              · exact Or.inr (Or.inr (by rw [heq]; exact List.mem_cons_of_mem _ (List.mem_cons_self _ _)))
              · exact Or.inr (Or.inl h)
            · exact Or.inr (Or.inr (List.mem_cons_of_mem _ (List.mem_cons_of_mem _ h)))
          · have hcard := hinv.card
            simp only [List.length_cons] at hcard ⊢
            omega
          · unfold Graph.potential
            simpa using hpotrest
        · -- fresh node: push its edge list
          have hids : e.2 ∈ g.node_ids := mem_adj_ids_right hwf headj
          obtain ⟨es, hes, heslen, hesmem⟩ := get_edge_list_eq hids
          have hvisnew : listInsertNat e.2 vis = e.2 :: vis := by
            unfold listInsertNat
            rw [if_neg hvis]
          have hstep : g.traverse_loop (fuel+1) ⟨vis, used, e :: rest⟩ =
              g.traverse_loop fuel ⟨e.2 :: vis,
                (e.2, e.1) :: e :: used, es.reverse ++ rest⟩ := by
            simp only [Graph.traverse_loop, hes, hused1, hvisnew]
            rw [if_neg huse, if_neg hvis]
          rw [hstep]
          have hfind : g.node_storage.find? (fun m => m.node_id == e.2) =
              g.get_node e.2 := rfl
          obtain ⟨n2, hn2⟩ : ∃ n2, g.get_node e.2 = some n2 :=
            Option.isSome_iff_exists.1 (get_node_isSome_iff.2 hids)
          have hadj2 : g.adj e.2 = n2.connected_nodes := by
            unfold Graph.adj
            rw [hn2]
            rfl
          refine ih _ ⟨List.mem_cons_of_mem _ hinv.root_mem,
            List.nodup_cons.2 ⟨hvis, hinv.vis_nodup⟩, ?_, ?_, ?_,
            hused1_edge, ?_, hused1_symm, hused1_nodup, ?_, ?_⟩ ?_
          · intro v hv
            rcases List.mem_cons.1 hv with rfl | hv
            · exact hids
            · exact hinv.vis_ids v hv
          · intro v hv
            rcases List.mem_cons.1 hv with rfl | hv
            · exact Relation.ReflTransGen.tail (hinv.vis_reach _ he1vis) headj
            · exact hinv.vis_reach v hv
          · intro d hd
            rcases List.mem_append.1 hd with hd | hd
            · have hd2 := List.mem_reverse.1 hd
              have hmm := (hesmem d).1 hd2
              exact ⟨by rw [hmm.1]; exact List.mem_cons_self _ _, hmm.1 ▸ hmm.2⟩
            · have hmm := hinv.stack_inv d (List.mem_cons_of_mem e hd)
              exact ⟨List.mem_cons_of_mem _ hmm.1, hmm.2⟩
          · intro d hd
            rcases List.mem_cons.1 hd with rfl | hd
            · exact ⟨List.mem_cons_self _ _, List.mem_cons_of_mem _ he1vis⟩
            · rcases List.mem_cons.1 hd with rfl | hd
              · exact ⟨List.mem_cons_of_mem _ he1vis, List.mem_cons_self _ _⟩
              · have hmm := hinv.used_vis d hd
                exact ⟨List.mem_cons_of_mem _ hmm.1, List.mem_cons_of_mem _ hmm.2⟩
          · intro u hu v hv
            rcases List.mem_cons.1 hu with rfl | hu
            · refine Or.inr (Or.inl ?_)
              refine List.mem_append.2 (Or.inl (List.mem_reverse.2 ?_))
              exact (hesmem (e.2, v)).2 ⟨rfl, hv⟩
            · rcases hinv.closure u hu v hv with h | h | h
              · exact Or.inl (List.mem_cons_of_mem _ h)
              · rcases List.mem_cons.1 h with heq | h
                · left
                  have hv2 : v = e.2 := congrArg Prod.snd heq
                  rw [hv2]
                  exact List.mem_cons_self _ _
                · exact Or.inr (Or.inl (List.mem_append.2 (Or.inr h)))
              · exact Or.inr (Or.inr (List.mem_cons_of_mem _ (List.mem_cons_of_mem _ h)))
          · have hcard := hinv.card
            simp only [List.length_cons] at hcard ⊢
            omega
          · unfold Graph.potential
            simp only [List.length_append, List.length_reverse, List.length_cons]
            have hdrop := @filter_deg_drop g.node_storage vis _ hvis n2
              (by rw [hfind]; exact hn2)
            have hlen2 : es.length = n2.connected_nodes.length := by
              rw [heslen, hadj2]
            omega

theorem traverse_from_node_ok {g : Graph} (hwf : g.WF) {root : Nat}
    (hroot : root ∈ g.node_ids) :
    ∃ out, g.traverse_count_node_visits_from_node root = some out ∧ out.Nodup ∧
      (∀ v, v ∈ out ↔ g.Reach root v) ∧ (∀ v ∈ out, v ∈ g.node_ids) ∧
      2 * out.length ≤ g.deg_sum + 2 := by
  obtain ⟨es, hes, heslen, hesmem⟩ := get_edge_list_eq hroot
  have hinv : TravInv g root ⟨[root], [], es.reverse⟩ := by
    refine ⟨List.mem_singleton_self root, List.nodup_singleton root, ?_, ?_, ?_, ?_, ?_, ?_,
      List.nodup_nil, ?_, by simp⟩
    · intro v hv
      rw [List.mem_singleton.1 hv]
      exact hroot
    · intro v hv
      rw [List.mem_singleton.1 hv]
      exact Relation.ReflTransGen.refl
    · intro d hd
      have hmm := (hesmem d).1 (List.mem_reverse.1 hd)
      exact ⟨by rw [hmm.1]; exact List.mem_singleton_self root, hmm.1 ▸ hmm.2⟩
    · intro d hd; simp at hd
    · intro d hd; simp at hd
    · intro d hd; simp at hd
    · intro u hu v hv
      rw [List.mem_singleton.1 hu] at hv ⊢
      exact Or.inr (Or.inl (List.mem_reverse.2 ((hesmem (root, v)).2 ⟨rfl, hv⟩)))
  have hpot : g.potential ⟨[root], [], es.reverse⟩ < g.deg_sum + es.length + 1 := by
    unfold Graph.potential
    simp only [List.length_reverse]
    have := unvis_sum_le_deg_sum g [root]
    omega
  obtain ⟨out, hloop, hnodup, hrootmem, hreach, hclosed, hids, hcard⟩ :=
    traverse_loop_ok hwf root (g.deg_sum + es.length + 1) _ hinv hpot
  refine ⟨out, ?_, hnodup, ?_, hids, hcard⟩
  · unfold Graph.traverse_count_node_visits_from_node
    rw [hes]
    exact hloop
  · intro v
    constructor
    · exact hreach v
    · intro hr
      exact reach_closed hclosed hrootmem hr

theorem is_connected_spec {g : Graph} (hwf : g.WF) {n : GNode} {rest : List GNode}
    (hst : g.node_storage = n :: rest) :
    ∃ b, g.is_connected = some b ∧
      (b = true ↔ ∀ id ∈ g.node_ids, g.Reach n.node_id id) := by
  have hroot : n.node_id ∈ g.node_ids := by
    unfold Graph.node_ids
    rw [hst]
    exact List.mem_map_of_mem _ (List.mem_cons_self n rest)
  obtain ⟨out, htrav, hnodup, hiff, hids, hcard⟩ := traverse_from_node_ok hwf hroot
  have htcv : g.traverse_count_node_visits = some out := by
    unfold Graph.traverse_count_node_visits
    rw [hst]
    exact htrav
  have hpos : g.count_nodes > 0 := by
    unfold Graph.count_nodes
    rw [hst]
    simp
  refine ⟨g.node_ids.all (fun id => id ∈ out), ?_, ?_⟩
  · unfold Graph.is_connected
    rw [if_pos hpos, htcv]
    rfl
  · rw [List.all_eq_true]
    constructor
    · intro h id hid
      exact (hiff id).1 (by simpa using h id hid)
    · intro h id hid
      simpa using (hiff id).2 (h id hid)

theorem connected_nodes_le {g : Graph} (hwf : g.WF) (hc : g.is_connected = some true) :
    g.count_nodes ≤ g.count_edges + 1 := by
  cases hst : g.node_storage with
  | nil =>
    unfold Graph.count_nodes
    rw [hst]
    simp
  | cons n rest =>
    have hroot : n.node_id ∈ g.node_ids := by
      unfold Graph.node_ids
      rw [hst]
      exact List.mem_map_of_mem _ (List.mem_cons_self n rest)
    obtain ⟨out, htrav, hnodup, hiff, hids, hcard⟩ := traverse_from_node_ok hwf hroot
    have htcv : g.traverse_count_node_visits = some out := by
      unfold Graph.traverse_count_node_visits
      rw [hst]
      exact htrav
    have hpos : g.count_nodes > 0 := by
      unfold Graph.count_nodes
      rw [hst]
      simp
    have hconn : g.node_ids.all (fun id => id ∈ out) = true := by
      have : g.is_connected = some (g.node_ids.all (fun id => id ∈ out)) := by
        unfold Graph.is_connected
        rw [if_pos hpos, htcv]
        rfl
      rw [this] at hc
      exact Option.some.inj hc
    rw [List.all_eq_true] at hconn
    have hsub : g.node_ids ⊆ out := fun id hid => by simpa using hconn id hid
    have h1 : g.node_ids.length ≤ out.length :=
      nodup_subset_length hwf.ids_nodup hsub
    have h2 : g.count_nodes = g.node_ids.length := by
      unfold Graph.count_nodes Graph.node_ids
      simp
    have hce : g.count_edges = g.deg_sum / 2 := rfl
    omega

theorem connected_reach {g : Graph} (hwf : g.WF) (hc : g.is_connected = some true)
    {a x : Nat} (ha : a ∈ g.node_ids) (hx : x ∈ g.node_ids) : g.Reach a x := by
  cases hst : g.node_storage with
  | nil =>
    exfalso
    unfold Graph.node_ids at ha
    rw [hst] at ha
    simp at ha
  | cons n rest =>
    obtain ⟨b, hb, hbiff⟩ := is_connected_spec hwf hst
    rw [hb] at hc
    obtain rfl := Option.some.inj hc
    have hall := hbiff.1 rfl
    exact Relation.ReflTransGen.trans (reach_symm hwf (hall a ha)) (hall x hx)

/-! ### Claim C2, C6 and C10 theorems -/

/-- C2: for every well-formed connected graph (as built by
`new_from_edges`/`add_edges`/`add_node` from loop-free edges),
`count_cycles()` returns normally and equals `E - N + 1`; in particular the
4-cycle on edges (0-1),(1-2),(2-3),(3-0) yields 1 cycle and adding the edge
(2-0) yields 2. -/
theorem c2_cycle_formula :
    (∀ g : Graph, g.WF → g.is_connected = some true →
      g.count_cycles = some (g.count_edges + 1 - g.count_nodes) ∧
      ((g.count_edges + 1 - g.count_nodes : Int) =
        (g.count_edges : Int) - (g.count_nodes : Int) + 1)) ∧
    (Graph.new_from_edges [(0,1),(1,2),(2,3),(3,0)]).count_cycles = some 1 ∧
    (Graph.new_from_edges [(0,1),(1,2),(2,3),(3,0),(2,0)]).count_cycles = some 2 := by
  refine ⟨?_, by decide, by decide⟩
  intro g hwf hc
  have hle := connected_nodes_le hwf hc
  constructor
  · unfold Graph.count_cycles
    rw [hc]
    rw [if_neg (by omega)]
  · omega

/-- C2 witness: the universal part of `c2_cycle_formula` applied to the
concrete 4-cycle. -/
theorem c2_cycle_formula_witness :
    (Graph.new_from_edges [(0,1),(1,2),(2,3),(3,0)]).count_cycles =
      some ((Graph.new_from_edges [(0,1),(1,2),(2,3),(3,0)]).count_edges + 1 -
        (Graph.new_from_edges [(0,1),(1,2),(2,3),(3,0)]).count_nodes) :=
  (c2_cycle_formula.1 (Graph.new_from_edges [(0,1),(1,2),(2,3),(3,0)])
    (by decide) (by decide)).1

/-- C6: `count_cycles` on the disconnected graph of two isolated nodes does
not return normally: the `usize` expression `count_edges() + 1 -
count_nodes()` underflows (`0 + 1 - 2`), which panics in a debug build
(`none` here), contradicting both the claim and the code's own logged
warning, which promises a merely under-reported count.  On a disconnected
graph where no underflow occurs (two triangles), the call does return
normally with the under-reported count 1. -/
theorem c6_count_cycles_disconnected_panics :
    (((Graph.new_from_edges []).add_node 0).add_node 1).count_cycles = none ∧
    (Graph.new_from_edges [(0,1),(1,2),(2,0),(5,3),(3,4),(4,5)]).count_cycles = some 1 := by
  constructor
  · decide
  · decide

/-- C10: `is_connected()` returns `some true` for a graph with zero nodes
(for example one built from an empty edge list); for every non-empty
well-formed graph it returns normally, with `true` exactly when every
registered node is reachable from the traversal's single starting node,
which is the id of the first node in storage. -/
theorem c10_is_connected_spec :
    (Graph.new_from_edges []).is_connected = some true ∧
    (∀ g : Graph, g.count_nodes = 0 → g.is_connected = some true) ∧
    (∀ (g : Graph) (n : GNode) (rest : List GNode), g.WF → g.node_storage = n :: rest →
      ∃ b, g.is_connected = some b ∧
        (b = true ↔ ∀ id ∈ g.node_ids, g.Reach n.node_id id)) := by
  refine ⟨by decide, ?_, ?_⟩
  · intro g h0
    unfold Graph.is_connected
    rw [if_neg (by omega)]
  · intro g n rest hwf hst
    exact is_connected_spec hwf hst

/-- C10 witness: the zero-node branch of `c10_is_connected_spec` applied to
the graph built from the empty edge list. -/
theorem c10_is_connected_spec_witness :
    (Graph.new_from_edges []).count_nodes = 0 ∧
    (Graph.new_from_edges []).is_connected = some true :=
  ⟨by decide, c10_is_connected_spec.2.1 (Graph.new_from_edges []) (by decide)⟩

/-! ### The dual-source partition loop -/

theorem mem_sorted_vec_from_set {x : Nat} {l : List Nat} :
    x ∈ sorted_vec_from_set l ↔ x ∈ l :=
  (List.perm_insertionSort (· ≤ ·) l).mem_iff

theorem sorted_vec_from_set_sorted (l : List Nat) :
    (sorted_vec_from_set l).Sorted (· ≤ ·) :=
  List.sorted_insertionSort (· ≤ ·) l

theorem mem_ite_mono {c : Bool} {x : Nat} {A B A2 B2 : List Nat}
    (hA : A ⊆ A2) (hB : B ⊆ B2) (h : x ∈ if c then A else B) :
    x ∈ if c then A2 else B2 := by
  cases c
  · rw [if_neg (by simp)] at h ⊢
    exact hB h
  · rw [if_pos rfl] at h ⊢
    exact hA h

theorem partition_loop_ok {g : Graph} (hwf : g.WF) (a b : Nat)
    (hconn : ∀ id ∈ g.node_ids, g.Reach a id) :
    ∀ fuel (s : PartState), PartInv g a b s → g.ppotential s < fuel →
    ∃ f1 f2, g.partition_loop fuel s = some (Except.ok (f1, f2)) ∧
      a ∈ f1 ∧ b ∈ f2 ∧
      (∀ x ∈ f1, x ∉ f2) ∧
      (∀ x, x ∈ g.node_ids ↔ (x ∈ f1 ∨ x ∈ f2)) ∧
      f1.Nodup ∧ f2.Nodup ∧
      (∀ x ∈ f1, g.ReachIn f1 a x) ∧ (∀ x ∈ f2, g.ReachIn f2 b x) := by
  intro fuel
  induction fuel with
  | zero => intro s _ hpot; omega
  | succ fuel ih =>
    rintro ⟨fst, snd, used, q⟩ hinv hpot
    cases q with
    | nil =>
      refine ⟨fst, snd, by simp [Graph.partition_loop], hinv.a_mem, hinv.b_mem, hinv.disj,
        ?_, hinv.f_nodup, hinv.s_nodup, hinv.f_reach, hinv.s_reach⟩
      have hclosed : ∀ u, (u ∈ fst ∨ u ∈ snd) → ∀ v ∈ g.adj u, (v ∈ fst ∨ v ∈ snd) := by
        intro u hu v hv
        rcases hinv.closure u hu v hv with h | h | h
        · exact h
        · obtain ⟨fl, hfl⟩ := h
          simp at hfl
        · exact (hinv.used_vis _ h).2
      intro x
      constructor
      · intro hx
        have hreach : g.Reach a x := hconn x hx
        have hcl : ∀ u ∈ fst ++ snd, ∀ v ∈ g.adj u, v ∈ fst ++ snd := by
          intro u hu v hv
          rcases List.mem_append.1 hu with hu | hu
          · exact List.mem_append.2 (hclosed u (Or.inl hu) v hv)
          · exact List.mem_append.2 (hclosed u (Or.inr hu) v hv)
        have := reach_closed hcl (List.mem_append.2 (Or.inl hinv.a_mem)) hreach
        exact List.mem_append.1 this
      · intro hx
        rcases hx with hx | hx
        · exact hinv.f_ids x hx
        · exact hinv.s_ids x hx
    | cons p rest =>
      obtain ⟨flag, e⟩ := p
      have hq1 := hinv.q_inv (flag, e) (List.mem_cons_self _ rest)
      have headj : e.2 ∈ g.adj e.1 := hq1.2
      have he1set : e.1 ∈ fst ∨ e.1 ∈ snd := by
        have hq11 := hq1.1
        cases flag
        · exact Or.inr (by simpa using hq11)
        · exact Or.inl (by simpa using hq11)
      have hne : e.2 ≠ e.1 := mem_adj_ne hwf headj
      have hswapadj : e.1 ∈ g.adj e.2 := mem_adj_symm hwf headj
      have hpotrest : rest.length +
          ((g.node_storage.filter
            (fun n => n.node_id ∉ fst ∧ n.node_id ∉ snd)).map
            (fun n => n.connected_nodes.length)).sum < fuel := by
        unfold Graph.ppotential at hpot
        simp only [List.length_cons] at hpot
        omega
      by_cases huse : e ∈ used
      · have hswap : (e.2, e.1) ∈ used := hinv.used_symm e huse
        have hused1 : listInsert (e.2, e.1) (listInsert e used) = used := by
          rw [listInsert_of_mem huse, listInsert_of_mem hswap]
        have hstep : g.partition_loop (fuel+1) ⟨fst, snd, used, (flag, e) :: rest⟩ =
            g.partition_loop fuel ⟨fst, snd, used, rest⟩ := by
          simp only [Graph.partition_loop, hused1]
          rw [if_pos huse]
        rw [hstep]
        refine ih ⟨fst, snd, used, rest⟩ ⟨hinv.a_mem, hinv.b_mem, hinv.f_nodup, hinv.s_nodup,
          hinv.disj, hinv.f_ids, hinv.s_ids, hinv.f_reach, hinv.s_reach, ?_,
          hinv.used_vis, hinv.used_symm, ?_⟩ ?_
        · intro d hd
          exact hinv.q_inv d (List.mem_cons_of_mem _ hd)
        · intro u hu v hv
          rcases hinv.closure u hu v hv with h | h | h
          · exact Or.inl h
          · obtain ⟨fl, hfl⟩ := h
            rcases List.mem_cons.1 hfl with heq | hfl
            · refine Or.inr (Or.inr ?_)
              have : (u, v) = e := congrArg Prod.snd heq
              rw [this]
              exact huse
            · exact Or.inr (Or.inl ⟨fl, hfl⟩)
          · exact Or.inr (Or.inr h)
        · unfold Graph.ppotential
          simpa using hpotrest
      · have hswapnot : (e.2, e.1) ∉ used := by
          intro hc
          exact huse (by simpa using hinv.used_symm _ hc)
        have hused1 : listInsert (e.2, e.1) (listInsert e used) =
            (e.2, e.1) :: e :: used := by
          unfold listInsert
          rw [if_neg huse]
          rw [if_neg (by
            intro hc
            rcases List.mem_cons.1 hc with heq | hmem
            · exact hne (congrArg Prod.fst heq)
            · exact hswapnot hmem)]
        by_cases hvis : e.2 ∈ fst ∨ e.2 ∈ snd
        · have hstep : g.partition_loop (fuel+1) ⟨fst, snd, used, (flag, e) :: rest⟩ =
              g.partition_loop fuel ⟨fst, snd, (e.2, e.1) :: e :: used, rest⟩ := by
            simp only [Graph.partition_loop, hused1]
            rw [if_neg huse, if_pos hvis]
          rw [hstep]
          refine ih _ ⟨hinv.a_mem, hinv.b_mem, hinv.f_nodup, hinv.s_nodup,
            hinv.disj, hinv.f_ids, hinv.s_ids, hinv.f_reach, hinv.s_reach, ?_, ?_, ?_, ?_⟩ ?_
          · intro d hd
            exact hinv.q_inv d (List.mem_cons_of_mem _ hd)
          · intro d hd
            rcases List.mem_cons.1 hd with rfl | hd
            · exact ⟨hvis, he1set⟩
            · rcases List.mem_cons.1 hd with rfl | hd
              · exact ⟨he1set, hvis⟩
              · exact hinv.used_vis d hd
          · intro d hd
            rcases List.mem_cons.1 hd with rfl | hd
            · exact List.mem_cons_of_mem _ (List.mem_cons_self _ _)
            · rcases List.mem_cons.1 hd with rfl | hd
              · exact List.mem_cons_self _ _
              · exact List.mem_cons_of_mem _ (List.mem_cons_of_mem _ (hinv.used_symm d hd))
          · intro u hu v hv
            rcases hinv.closure u hu v hv with h | h | h
            · exact Or.inl h
            · obtain ⟨fl, hfl⟩ := h
              rcases List.mem_cons.1 hfl with heq | hfl
              · refine Or.inr (Or.inr ?_)
                have : (u, v) = e := congrArg Prod.snd heq
                rw [this]
                exact List.mem_cons_of_mem _ (List.mem_cons_self _ _)
              · exact Or.inr (Or.inl ⟨fl, hfl⟩)
            · exact Or.inr (Or.inr (List.mem_cons_of_mem _ (List.mem_cons_of_mem _ h)))
          · unfold Graph.ppotential
            simpa using hpotrest
        · -- fresh node e.2, joins the set selected by `flag`
          push_neg at hvis
          obtain ⟨hvf, hvs⟩ := hvis
          have hids : e.2 ∈ g.node_ids := mem_adj_ids_right hwf headj
          obtain ⟨es, hes, heslen, hesmem⟩ := get_edge_list_eq hids
          obtain ⟨n2, hn2⟩ : ∃ n2, g.get_node e.2 = some n2 :=
            Option.isSome_iff_exists.1 (get_node_isSome_iff.2 hids)
          have hadj2 : g.adj e.2 = n2.connected_nodes := by
            unfold Graph.adj
            rw [hn2]
            rfl
          have hq11 := hq1.1
          cases flag
          -- flag = false : e.2 joins the second set
          · have he1snd : e.1 ∈ snd := by simpa using hq11
            have hsndnew : listInsertNat e.2 snd = e.2 :: snd := by
              unfold listInsertNat
              rw [if_neg hvs]
            have hstep : g.partition_loop (fuel+1) ⟨fst, snd, used, (false, e) :: rest⟩ =
                g.partition_loop fuel
                  ⟨fst, e.2 :: snd, (e.2, e.1) :: e :: used,
                   rest ++ es.map (fun e2 => (false, e2))⟩ := by
              simp only [Graph.partition_loop, hused1, hes, hsndnew, if_neg, Bool.false_eq_true,
                ite_false]
              rw [if_neg huse, if_neg (by push_neg; exact ⟨hvf, hvs⟩)]
            rw [hstep]
            refine ih _ ⟨hinv.a_mem, List.mem_cons_of_mem _ hinv.b_mem, hinv.f_nodup,
              List.nodup_cons.2 ⟨hvs, hinv.s_nodup⟩, ?_, hinv.f_ids, ?_, ?_, ?_, ?_, ?_, ?_, ?_⟩ ?_
            · intro x hx
              intro hc
              rcases List.mem_cons.1 hc with rfl | hc
              · exact hvf hx
              · exact hinv.disj x hx hc
            · intro x hx
              rcases List.mem_cons.1 hx with rfl | hx
              · exact hids
              · exact hinv.s_ids x hx
            · intro x hx
              exact reachIn_mono (fun y hy => hy) (hinv.f_reach x hx)
            · intro x hx
              rcases List.mem_cons.1 hx with rfl | hx
              · refine Relation.ReflTransGen.tail
                  (reachIn_mono (fun y hy => List.mem_cons_of_mem _ hy)
                    (hinv.s_reach _ he1snd)) ?_
                exact ⟨List.mem_cons_of_mem _ he1snd, List.mem_cons_self _ _, headj⟩
              · exact reachIn_mono (fun y hy => List.mem_cons_of_mem _ hy)
                  (hinv.s_reach x hx)
            · intro d hd
              rcases List.mem_append.1 hd with hd | hd
              · have hd2 := hinv.q_inv d (List.mem_cons_of_mem _ hd)
                exact ⟨mem_ite_mono (fun y hy => hy)
                  (fun y hy => List.mem_cons_of_mem _ hy) hd2.1, hd2.2⟩
              · obtain ⟨e2, he2, rfl⟩ := List.mem_map.1 hd
                have hmm := (hesmem e2).1 he2
                refine ⟨?_, ?_⟩
                · rw [if_neg (by simp)]
                  rw [hmm.1]
                  exact List.mem_cons_self _ _
                · show e2.2 ∈ g.adj e2.1
                  rw [hmm.1]
                  exact hmm.2
            · intro d hd
              rcases List.mem_cons.1 hd with rfl | hd
              · exact ⟨Or.inr (List.mem_cons_self _ _), Or.inr (List.mem_cons_of_mem _ he1snd)⟩
              · rcases List.mem_cons.1 hd with rfl | hd
                · exact ⟨Or.inr (List.mem_cons_of_mem _ he1snd), Or.inr (List.mem_cons_self _ _)⟩
                · have hd2 := hinv.used_vis d hd
                  refine ⟨?_, ?_⟩
                  · rcases hd2.1 with h | h
                    · exact Or.inl h
                    · exact Or.inr (List.mem_cons_of_mem _ h)
                  · rcases hd2.2 with h | h
                    · exact Or.inl h
                    · exact Or.inr (List.mem_cons_of_mem _ h)
            · intro d hd
              rcases List.mem_cons.1 hd with rfl | hd
              · exact List.mem_cons_of_mem _ (List.mem_cons_self _ _)
              · rcases List.mem_cons.1 hd with rfl | hd
                · exact List.mem_cons_self _ _
                · exact List.mem_cons_of_mem _ (List.mem_cons_of_mem _ (hinv.used_symm d hd))
            · intro u hu v hv
              have hucases : u = e.2 ∨ (u ∈ fst ∨ u ∈ snd) := by
                rcases hu with h | h
                · exact Or.inr (Or.inl h)
                · rcases List.mem_cons.1 h with rfl | h
                  · exact Or.inl rfl
                  · exact Or.inr (Or.inr h)
              rcases hucases with rfl | hu2
              · refine Or.inr (Or.inl ⟨false, ?_⟩)
                refine List.mem_append.2 (Or.inr ?_)
                exact List.mem_map.2 ⟨(e.2, v), (hesmem (e.2, v)).2 ⟨rfl, hv⟩, rfl⟩
              · rcases hinv.closure u hu2 v hv with h | h | h
                · rcases h with h | h
                  · exact Or.inl (Or.inl h)
                  · exact Or.inl (Or.inr (List.mem_cons_of_mem _ h))
                · obtain ⟨fl, hfl2⟩ := h
                  rcases List.mem_cons.1 hfl2 with heq | hfl2
                  · have huv : (u, v) = e := congrArg Prod.snd heq
                    refine Or.inl (Or.inr ?_)
                    have : v = e.2 := congrArg Prod.snd huv
                    rw [this]
                    exact List.mem_cons_self _ _
                  · exact Or.inr (Or.inl ⟨fl, List.mem_append.2 (Or.inl hfl2)⟩)
                · exact Or.inr (Or.inr (List.mem_cons_of_mem _ (List.mem_cons_of_mem _ h)))
            · unfold Graph.ppotential
              simp only [List.length_append, List.length_map, List.length_cons]
              have hdrop := @filter_deg_drop2 _
                (fun n => decide (n.node_id ∉ fst) && decide (n.node_id ∉ snd))
                (fun n => decide (n.node_id ∉ fst) && decide (n.node_id ∉ e.2 :: snd))
                (by
                  intro m hm
                  simp only [Bool.and_eq_true, decide_eq_true_eq, List.mem_cons, not_or] at hm ⊢
                  exact ⟨hm.1, hm.2.2⟩)
                e.2 n2
                (by exact hn2)
                (by
                  intro m hm
                  simp [hm])
                (by
                  have hid2 : n2.node_id = e.2 := get_node_some_id hn2
                  simp [hid2, hvf, hvs])
              have hlen2 : es.length = n2.connected_nodes.length := by
                rw [heslen, hadj2]
              have hpredeq : (fun (n : GNode) => decide (n.node_id ∉ fst) &&
                  decide (n.node_id ∉ snd)) =
                  (fun n => decide (n.node_id ∉ fst ∧ n.node_id ∉ snd)) := by
                funext n
                by_cases h1 : n.node_id ∈ fst <;> by_cases h2 : n.node_id ∈ snd <;>
                  simp [h1, h2]
              have hpredeq2 : (fun (n : GNode) => decide (n.node_id ∉ fst) &&
                  decide (n.node_id ∉ e.2 :: snd)) =
                  (fun n => decide (n.node_id ∉ fst ∧ n.node_id ∉ e.2 :: snd)) := by
                funext n
                by_cases h1 : n.node_id ∈ fst <;> by_cases h2 : n.node_id ∈ e.2 :: snd <;>
                  simp [h1, h2]
              rw [hpredeq, hpredeq2] at hdrop
              omega
          -- flag = true : e.2 joins the first set
          · have he1fst : e.1 ∈ fst := by simpa using hq11
            have hfstnew : listInsertNat e.2 fst = e.2 :: fst := by
              unfold listInsertNat
              rw [if_neg hvf]
            have hstep : g.partition_loop (fuel+1) ⟨fst, snd, used, (true, e) :: rest⟩ =
                g.partition_loop fuel
                  ⟨e.2 :: fst, snd, (e.2, e.1) :: e :: used,
                   rest ++ es.map (fun e2 => (true, e2))⟩ := by
              simp only [Graph.partition_loop, hused1, hes, hfstnew, ite_true]
              rw [if_neg huse, if_neg (by push_neg; exact ⟨hvf, hvs⟩)]
            rw [hstep]
            refine ih _ ⟨List.mem_cons_of_mem _ hinv.a_mem, hinv.b_mem,
              List.nodup_cons.2 ⟨hvf, hinv.f_nodup⟩, hinv.s_nodup, ?_, ?_, hinv.s_ids,
              ?_, ?_, ?_, ?_, ?_, ?_⟩ ?_
            · intro x hx
              rcases List.mem_cons.1 hx with rfl | hx
              · exact hvs
              · exact hinv.disj x hx
            · intro x hx
              rcases List.mem_cons.1 hx with rfl | hx
              · exact hids
              · exact hinv.f_ids x hx
            · intro x hx
              rcases List.mem_cons.1 hx with rfl | hx
              · refine Relation.ReflTransGen.tail
                  (reachIn_mono (fun y hy => List.mem_cons_of_mem _ hy)
                    (hinv.f_reach _ he1fst)) ?_
                exact ⟨List.mem_cons_of_mem _ he1fst, List.mem_cons_self _ _, headj⟩
              · exact reachIn_mono (fun y hy => List.mem_cons_of_mem _ hy)
                  (hinv.f_reach x hx)
            · intro x hx
              exact reachIn_mono (fun y hy => hy) (hinv.s_reach x hx)
            · intro d hd
              rcases List.mem_append.1 hd with hd | hd
              · have hd2 := hinv.q_inv d (List.mem_cons_of_mem _ hd)
                exact ⟨mem_ite_mono (fun y hy => List.mem_cons_of_mem _ hy)
                  (fun y hy => hy) hd2.1, hd2.2⟩
              · obtain ⟨e2, he2, rfl⟩ := List.mem_map.1 hd
                have hmm := (hesmem e2).1 he2
                refine ⟨?_, ?_⟩
                · rw [if_pos rfl]
                  rw [hmm.1]
                  exact List.mem_cons_self _ _
                · show e2.2 ∈ g.adj e2.1
                  rw [hmm.1]
                  exact hmm.2
            · intro d hd
              rcases List.mem_cons.1 hd with rfl | hd
              · exact ⟨Or.inl (List.mem_cons_self _ _), Or.inl (List.mem_cons_of_mem _ he1fst)⟩
              · rcases List.mem_cons.1 hd with rfl | hd
                · exact ⟨Or.inl (List.mem_cons_of_mem _ he1fst), Or.inl (List.mem_cons_self _ _)⟩
                · have hd2 := hinv.used_vis d hd
                  refine ⟨?_, ?_⟩
                  · rcases hd2.1 with h | h
                    · exact Or.inl (List.mem_cons_of_mem _ h)
                    · exact Or.inr h
                  · rcases hd2.2 with h | h
                    · exact Or.inl (List.mem_cons_of_mem _ h)
                    · exact Or.inr h
            · intro d hd
              rcases List.mem_cons.1 hd with rfl | hd
              · exact List.mem_cons_of_mem _ (List.mem_cons_self _ _)
              · rcases List.mem_cons.1 hd with rfl | hd
                · exact List.mem_cons_self _ _
                · exact List.mem_cons_of_mem _ (List.mem_cons_of_mem _ (hinv.used_symm d hd))
            · intro u hu v hv
              have hucases : u = e.2 ∨ (u ∈ fst ∨ u ∈ snd) := by
                rcases hu with h | h
                · rcases List.mem_cons.1 h with rfl | h
                  · exact Or.inl rfl
                  · exact Or.inr (Or.inl h)
                · exact Or.inr (Or.inr h)
              rcases hucases with rfl | hu2
              · refine Or.inr (Or.inl ⟨true, ?_⟩)
                refine List.mem_append.2 (Or.inr ?_)
                exact List.mem_map.2 ⟨(e.2, v), (hesmem (e.2, v)).2 ⟨rfl, hv⟩, rfl⟩
              · rcases hinv.closure u hu2 v hv with h | h | h
                · rcases h with h | h
                  · exact Or.inl (Or.inl (List.mem_cons_of_mem _ h))
                  · exact Or.inl (Or.inr h)
                · obtain ⟨fl, hfl2⟩ := h
                  rcases List.mem_cons.1 hfl2 with heq | hfl2
                  · have huv : (u, v) = e := congrArg Prod.snd heq
                    refine Or.inl (Or.inl ?_)
                    have : v = e.2 := congrArg Prod.snd huv
                    rw [this]
                    exact List.mem_cons_self _ _
                  · exact Or.inr (Or.inl ⟨fl, List.mem_append.2 (Or.inl hfl2)⟩)
                · exact Or.inr (Or.inr (List.mem_cons_of_mem _ (List.mem_cons_of_mem _ h)))
            · unfold Graph.ppotential
              simp only [List.length_append, List.length_map, List.length_cons]
              have hdrop := @filter_deg_drop2 _
                (fun n => decide (n.node_id ∉ fst) && decide (n.node_id ∉ snd))
                (fun n => decide (n.node_id ∉ e.2 :: fst) && decide (n.node_id ∉ snd))
                (by
                  intro m hm
                  simp only [Bool.and_eq_true, decide_eq_true_eq, List.mem_cons, not_or] at hm ⊢
                  exact ⟨hm.1.2, hm.2⟩)
                e.2 n2
                (by exact hn2)
                (by
                  intro m hm
                  simp [hm])
                (by
                  have hid2 : n2.node_id = e.2 := get_node_some_id hn2
                  simp [hid2, hvf, hvs])
              have hlen2 : es.length = n2.connected_nodes.length := by
                rw [heslen, hadj2]
              have hpredeq : (fun (n : GNode) => decide (n.node_id ∉ fst) &&
                  decide (n.node_id ∉ snd)) =
                  (fun n => decide (n.node_id ∉ fst ∧ n.node_id ∉ snd)) := by
                funext n
                by_cases h1 : n.node_id ∈ fst <;> by_cases h2 : n.node_id ∈ snd <;>
                  simp [h1, h2]
              have hpredeq2 : (fun (n : GNode) => decide (n.node_id ∉ e.2 :: fst) &&
                  decide (n.node_id ∉ snd)) =
                  (fun n => decide (n.node_id ∉ e.2 :: fst ∧ n.node_id ∉ snd)) := by
                funext n
                by_cases h1 : n.node_id ∈ e.2 :: fst <;> by_cases h2 : n.node_id ∈ snd <;>
                  simp [h1, h2]
              rw [hpredeq, hpredeq2] at hdrop
              omega

/-- C3: on every well-formed connected graph, for distinct present nodes `a`
and `b`, `partition_nodes(a, b)` returns `Ok` with two lists whose union is
the node set, whose intersection is empty, with `a` in the first and `b` in
the second, each list sorted ascending, and each part internally connected
using only edges with both endpoints inside that part (`ReachIn`).  The
embedding is a pure function of the graph value, so the result is
deterministic for a fixed edge ordering by construction. -/
theorem c3_partition_nodes_correct :
    ∀ (g : Graph) (a b : Nat), g.WF → g.is_connected = some true →
    a ∈ g.node_ids → b ∈ g.node_ids → a ≠ b →
    ∃ l1 l2, g.partition_nodes a b = some (Except.ok (l1, l2)) ∧
      a ∈ l1 ∧ b ∈ l2 ∧
      (∀ x, x ∈ g.node_ids ↔ (x ∈ l1 ∨ x ∈ l2)) ∧
      (∀ x ∈ l1, x ∉ l2) ∧
      l1.Sorted (· ≤ ·) ∧ l2.Sorted (· ≤ ·) ∧
      (∀ x ∈ l1, g.ReachIn l1 a x) ∧ (∀ x ∈ l2, g.ReachIn l2 b x) := by
  intro g a b hwf hc ha hb hab
  have hconn : ∀ id ∈ g.node_ids, g.Reach a id := fun id hid =>
    connected_reach hwf hc ha hid
  obtain ⟨ea, hea, healen, heamem⟩ := get_edge_list_eq ha
  obtain ⟨eb, heb, heblen, hebmem⟩ := get_edge_list_eq hb
  have hinv : PartInv g a b ⟨[a], [b], [],
      ea.map (fun e => (true, e)) ++ eb.map (fun e => (false, e))⟩ := by
    refine ⟨List.mem_singleton_self a, List.mem_singleton_self b,
      List.nodup_singleton a, List.nodup_singleton b, ?_, ?_, ?_, ?_, ?_, ?_, ?_, ?_, ?_⟩
    · intro x hx
      rw [List.mem_singleton.1 hx]
      intro hcon
      exact hab (List.mem_singleton.1 hcon)
    · intro x hx
      rw [List.mem_singleton.1 hx]
      exact ha
    · intro x hx
      rw [List.mem_singleton.1 hx]
      exact hb
    · intro x hx
      rw [List.mem_singleton.1 hx]
      exact Relation.ReflTransGen.refl
    · intro x hx
      rw [List.mem_singleton.1 hx]
      exact Relation.ReflTransGen.refl
    · intro d hd
      rcases List.mem_append.1 hd with hd | hd
      · obtain ⟨e2, he2, rfl⟩ := List.mem_map.1 hd
        have hmm := (heamem e2).1 he2
        refine ⟨?_, ?_⟩
        · rw [if_pos rfl, hmm.1]
          exact List.mem_singleton_self a
        · show e2.2 ∈ g.adj e2.1
          rw [hmm.1]
          exact hmm.2
      · obtain ⟨e2, he2, rfl⟩ := List.mem_map.1 hd
        have hmm := (hebmem e2).1 he2
        refine ⟨?_, ?_⟩
        · rw [if_neg (by simp), hmm.1]
          exact List.mem_singleton_self b
        · show e2.2 ∈ g.adj e2.1
          rw [hmm.1]
          exact hmm.2
    · intro e he
      simp at he
    · intro e he
      simp at he
    · intro u hu v hv
      rcases hu with hu | hu
      · rw [List.mem_singleton.1 hu] at hv ⊢
        refine Or.inr (Or.inl ⟨true, List.mem_append.2 (Or.inl ?_)⟩)
        exact List.mem_map.2 ⟨(a, v), (heamem (a, v)).2 ⟨rfl, hv⟩, rfl⟩
      · rw [List.mem_singleton.1 hu] at hv ⊢
        refine Or.inr (Or.inl ⟨false, List.mem_append.2 (Or.inr ?_)⟩)
        exact List.mem_map.2 ⟨(b, v), (hebmem (b, v)).2 ⟨rfl, hv⟩, rfl⟩
  have hpot : g.ppotential ⟨[a], [b], [],
      ea.map (fun e => (true, e)) ++ eb.map (fun e => (false, e))⟩ <
      g.deg_sum + ea.length + eb.length + 1 := by
    unfold Graph.ppotential
    simp only [List.length_append, List.length_map]
    have := filter_map_sum_le_deg_sum g
      (fun n => decide (n.node_id ∉ [a] ∧ n.node_id ∉ [b]))
    omega
  obtain ⟨f1, f2, hloop, haf, hbf, hdisj, hunion, hnd1, hnd2, hr1, hr2⟩ :=
    partition_loop_ok hwf a b hconn (g.deg_sum + ea.length + eb.length + 1) _ hinv hpot
  refine ⟨sorted_vec_from_set f1, sorted_vec_from_set f2, ?_, ?_, ?_, ?_, ?_, ?_, ?_, ?_, ?_⟩
  · simp only [Graph.partition_nodes, hea, heb]
    rw [hloop]
    rfl
  · exact mem_sorted_vec_from_set.2 haf
  · exact mem_sorted_vec_from_set.2 hbf
  · intro x
    rw [hunion x, mem_sorted_vec_from_set, mem_sorted_vec_from_set]
  · intro x hx
    intro hc
    exact hdisj x (mem_sorted_vec_from_set.1 hx) (mem_sorted_vec_from_set.1 hc)
  · exact sorted_vec_from_set_sorted f1
  · exact sorted_vec_from_set_sorted f2
  · intro x hx
    exact reachIn_mono (fun y hy => mem_sorted_vec_from_set.2 hy)
      (hr1 x (mem_sorted_vec_from_set.1 hx))
  · intro x hx
    exact reachIn_mono (fun y hy => mem_sorted_vec_from_set.2 hy)
      (hr2 x (mem_sorted_vec_from_set.1 hx))

/-- C3 witness: `c3_partition_nodes_correct` applied to the path graph
0-1-2-3 with `a = 0`, `b = 3` (the doc-test example of `partition_nodes`). -/
theorem c3_partition_nodes_correct_witness :
    ∃ l1 l2, (Graph.new_from_edges [(0,1),(1,2),(2,3)]).partition_nodes 0 3 =
        some (Except.ok (l1, l2)) ∧
      0 ∈ l1 ∧ 3 ∈ l2 ∧
      (∀ x, x ∈ (Graph.new_from_edges [(0,1),(1,2),(2,3)]).node_ids ↔ (x ∈ l1 ∨ x ∈ l2)) ∧
      (∀ x ∈ l1, x ∉ l2) ∧
      l1.Sorted (· ≤ ·) ∧ l2.Sorted (· ≤ ·) ∧
      (∀ x ∈ l1, (Graph.new_from_edges [(0,1),(1,2),(2,3)]).ReachIn l1 0 x) ∧
      (∀ x ∈ l2, (Graph.new_from_edges [(0,1),(1,2),(2,3)]).ReachIn l2 3 x) :=
  c3_partition_nodes_correct (Graph.new_from_edges [(0,1),(1,2),(2,3)]) 0 3
    (by decide) (by decide) (by decide) (by decide) (by decide)

/-! ### Association-list map lemmas -/

theorem mapGet_eq_some_mem {α β : Type} [DecidableEq α] {m : List (α × β)} {k : α} {v : β}
    (h : mapGet m k = some v) : (k, v) ∈ m := by
  induction m with
  | nil => simp [mapGet] at h
  | cons p rest ih =>
    by_cases hpk : p.1 = k
    · simp only [mapGet, if_pos hpk] at h
      obtain rfl := Option.some_injective _ h
      subst hpk
      exact List.mem_cons_self _ _
    · simp only [mapGet, if_neg hpk] at h
      exact List.mem_cons_of_mem _ (ih h)

theorem mapGet_eq_none_of_not_mem_keys {α β : Type} [DecidableEq α] {m : List (α × β)}
    {k : α} (h : k ∉ m.map Prod.fst) : mapGet m k = none := by
  induction m with
  | nil => rfl
  | cons p rest ih =>
    simp only [List.map_cons, List.mem_cons, not_or] at h
    have hne : ¬ p.1 = k := fun hc => h.1 hc.symm
    simp only [mapGet, if_neg hne]
    exact ih h.2

theorem mapGet_isSome_mem_keys {α β : Type} [DecidableEq α] {m : List (α × β)} {k : α}
    (h : (mapGet m k).isSome) : k ∈ m.map Prod.fst := by
  by_contra hc
  rw [mapGet_eq_none_of_not_mem_keys hc] at h
  simp at h

theorem mapGet_isSome_of_mem {α β : Type} [DecidableEq α] {m : List (α × β)}
    {p : α × β} (h : p ∈ m) : (mapGet m p.1).isSome := by
  induction m with
  | nil => simp at h
  | cons q rest ih =>
    rcases List.mem_cons.1 h with rfl | h
    · simp [mapGet]
    · by_cases hq : q.1 = p.1
      · simp [mapGet, hq]
      · simp only [mapGet, if_neg hq]
        exact ih h

theorem mapGet_append_of_some {α β : Type} [DecidableEq α] {m1 m2 : List (α × β)} {k : α}
    {v : β} (h : mapGet m1 k = some v) : mapGet (m1 ++ m2) k = some v := by
  induction m1 with
  | nil => simp [mapGet] at h
  | cons p rest ih =>
    by_cases hpk : p.1 = k
    · simp only [mapGet, if_pos hpk] at h ⊢
      exact h
    · simp only [List.cons_append, mapGet, if_neg hpk] at h ⊢
      exact ih h

theorem mapGet_append_of_none {α β : Type} [DecidableEq α] {m1 m2 : List (α × β)} {k : α}
    (h : mapGet m1 k = none) : mapGet (m1 ++ m2) k = mapGet m2 k := by
  induction m1 with
  | nil => rfl
  | cons p rest ih =>
    by_cases hpk : p.1 = k
    · simp [mapGet, if_pos hpk] at h
    · simp only [List.cons_append, mapGet, if_neg hpk] at h ⊢
      exact ih h

theorem mapGet_mapInsert {α β : Type} [DecidableEq α] (m : List (α × β)) (k k' : α)
    (v : β) : mapGet (mapInsert m k v) k' = if k' = k then some v else mapGet m k' := by
  induction m with
  | nil =>
    by_cases h : k' = k
    · simp [mapInsert, mapGet, h]
    · have hne : ¬ k = k' := fun hc => h hc.symm
      simp [mapInsert, mapGet, h, hne]
  | cons p rest ih =>
    by_cases hpk : p.1 = k
    · by_cases h : k' = k
      · simp [mapInsert, mapGet, hpk, h]
      · subst hpk
        have hne : ¬ p.1 = k' := fun hc => h hc.symm
        simp [mapInsert, mapGet, h, hne]
    · simp only [mapInsert, if_neg hpk]
      by_cases h : p.1 = k'
      · have hne : ¬ k' = k := fun hc => hpk (h.trans hc)
        simp [mapGet, h, hne]
      · simp [mapGet, h, ih]

theorem mapInsert_of_get_none {α β : Type} [DecidableEq α] {m : List (α × β)} {k : α}
    (v : β) (h : mapGet m k = none) : mapInsert m k v = m ++ [(k, v)] := by
  induction m with
  | nil => rfl
  | cons p rest ih =>
    by_cases hpk : p.1 = k
    · simp [mapGet, if_pos hpk] at h
    · simp only [mapGet, if_neg hpk] at h
      simp [mapInsert, if_neg hpk, ih h]

theorem mapKeys_mapInsert_of_get_some {α β : Type} [DecidableEq α] {m : List (α × β)}
    {k : α} (v : β) (h : (mapGet m k).isSome) :
    (mapInsert m k v).map Prod.fst = m.map Prod.fst := by
  induction m with
  | nil => simp [mapGet] at h
  | cons p rest ih =>
    by_cases hpk : p.1 = k
    · simp [mapInsert, if_pos hpk, hpk]
    · simp only [mapGet, if_neg hpk] at h
      simp [mapInsert, if_neg hpk, ih h]

theorem mapGet_mapRemove {α β : Type} [DecidableEq α] (m : List (α × β)) (k k' : α) :
    mapGet (mapRemove m k) k' = if k' = k then none else mapGet m k' := by
  induction m with
  | nil => simp [mapRemove, mapGet]
  | cons p rest ih =>
    by_cases hpk : p.1 = k
    · by_cases h : k' = k
      · subst h
        simp [mapRemove, if_pos hpk, ih]
      · have hne : ¬ p.1 = k' := fun hc => h ((hc.symm.trans hpk))
        simp [mapRemove, if_pos hpk, ih, h, mapGet, hne]
    · by_cases h : p.1 = k'
      · have hne : ¬ k' = k := fun hc => hpk (h.trans hc)
        simp [mapRemove, if_neg hpk, mapGet, h, hne]
      · simp [mapRemove, if_neg hpk, mapGet, h, ih]

theorem mapRemove_subset {α β : Type} [DecidableEq α] {m : List (α × β)} {k : α}
    {p : α × β} (h : p ∈ mapRemove m k) : p ∈ m := by
  induction m with
  | nil => simp [mapRemove] at h
  | cons q rest ih =>
    by_cases hq : q.1 = k
    · simp only [mapRemove, if_pos hq] at h
      exact List.mem_cons_of_mem _ (ih h)
    · simp only [mapRemove, if_neg hq] at h
      rcases List.mem_cons.1 h with rfl | h
      · exact List.mem_cons_self _ _
      · exact List.mem_cons_of_mem _ (ih h)

theorem mapKeys_mapRemove {α β : Type} [DecidableEq α] (m : List (α × β)) (k : α) :
    (mapRemove m k).map Prod.fst = (m.map Prod.fst).filter (fun x => decide (x ≠ k)) := by
  induction m with
  | nil => rfl
  | cons p rest ih =>
    by_cases hpk : p.1 = k
    · simp [mapRemove, if_pos hpk, List.filter, hpk, ih]
    · simp [mapRemove, if_neg hpk, List.filter, hpk, ih]

theorem assoc_ext {α β : Type} [DecidableEq α] :
    ∀ {m1 m2 : List (α × β)}, m1.map Prod.fst = m2.map Prod.fst →
    (m1.map Prod.fst).Nodup → (∀ k, mapGet m1 k = mapGet m2 k) → m1 = m2
  | [], [], _, _, _ => rfl
  | [], q :: t2, hk, _, _ => by simp at hk
  | p :: t1, [], hk, _, _ => by simp at hk
  | p :: t1, q :: t2, hk, hn, hget => by
    simp only [List.map_cons, List.cons.injEq] at hk
    obtain ⟨hk1, hkt⟩ := hk
    have hv : p.2 = q.2 := by
      have h1 := hget p.1
      simp only [mapGet, if_pos rfl] at h1
      rw [if_pos hk1.symm] at h1
      exact Option.some_injective _ h1
    have hn1 : p.1 ∉ t1.map Prod.fst := by
      simp only [List.map_cons, List.nodup_cons] at hn
      exact hn.1
    have hn2 : (t1.map Prod.fst).Nodup := by
      simp only [List.map_cons, List.nodup_cons] at hn
      exact hn.2
    have hgt : ∀ k2, mapGet t1 k2 = mapGet t2 k2 := by
      intro k2
      by_cases hpk : p.1 = k2
      · rw [mapGet_eq_none_of_not_mem_keys (hpk ▸ hn1),
          mapGet_eq_none_of_not_mem_keys (by rw [← hkt]; exact hpk ▸ hn1)]
      · have h1 := hget k2
        simp only [mapGet, if_neg hpk] at h1
        rw [if_neg (hk1 ▸ hpk)] at h1
        exact h1
    have hpq : p = q := by
      cases p
      cases q
      simp only at hk1 hv
      rw [hk1, hv]
    rw [hpq, assoc_ext hkt hn2 hgt]

theorem foldl_mapInsert_fresh {α β γ : Type} [DecidableEq α] (v : β) (f : γ → α) :
    ∀ (cs : List γ) (m : List (α × β)), (∀ c ∈ cs, mapGet m (f c) = none) →
    (cs.map f).Nodup →
    cs.foldl (fun m2 c => mapInsert m2 (f c) v) m = m ++ cs.map (fun c => (f c, v))
  | [], m, _, _ => by simp
  | c :: rest, m, hfresh, hnodup => by
    simp only [List.foldl_cons]
    rw [mapInsert_of_get_none v (hfresh c (List.mem_cons_self _ _))]
    simp only [List.map_cons, List.nodup_cons] at hnodup
    rw [foldl_mapInsert_fresh v f rest (m ++ [(f c, v)])
      (fun c2 hc2 => by
        rw [mapGet_append_of_none (hfresh c2 (List.mem_cons_of_mem _ hc2))]
        have hne : ¬ f c = f c2 := fun hc => hnodup.1 (hc ▸ List.mem_map_of_mem f hc2)
        simp [mapGet, hne])
      hnodup.2]
    simp

theorem mapGet_foldl_mapRemove {α β γ : Type} [DecidableEq α] (f : γ → α) :
    ∀ (cs : List γ) (m : List (α × β)) (k : α),
    mapGet (cs.foldl (fun m2 c => mapRemove m2 (f c)) m) k =
      if k ∈ cs.map f then none else mapGet m k
  | [], m, k => by simp
  | c :: rest, m, k => by
    simp only [List.foldl_cons, mapGet_foldl_mapRemove f rest (mapRemove m (f c)) k]
    by_cases h1 : k ∈ rest.map f
    · simp [h1]
    · by_cases h2 : k = f c
      · simp [h1, h2, mapGet_mapRemove]
      · have : ¬ k ∈ List.map f (c :: rest) := by
          simp only [List.map_cons, List.mem_cons, not_or]
          exact ⟨h2, h1⟩
        simp only [if_neg h1, if_neg this, mapGet_mapRemove]
        rw [if_neg h2]

theorem mapKeys_foldl_mapRemove_nodup {α β γ : Type} [DecidableEq α] (f : γ → α) :
    ∀ (cs : List γ) (m : List (α × β)), (m.map Prod.fst).Nodup →
    ((cs.foldl (fun m2 c => mapRemove m2 (f c)) m).map Prod.fst).Nodup
  | [], m, h => h
  | c :: rest, m, h => by
    simp only [List.foldl_cons]
    apply mapKeys_foldl_mapRemove_nodup f rest
    rw [mapKeys_mapRemove]
    exact h.filter _

theorem foldl_mapRemove_subset {α β γ : Type} [DecidableEq α] (f : γ → α) :
    ∀ (cs : List γ) (m : List (α × β)) (p : α × β),
    p ∈ cs.foldl (fun m2 c => mapRemove m2 (f c)) m → p ∈ m
  | [], _, _, h => h
  | c :: rest, m, p, h => by
    simp only [List.foldl_cons] at h
    exact mapRemove_subset (foldl_mapRemove_subset f rest _ p h)

theorem filter_mapRemove_of_not {α β : Type} [DecidableEq α]
    (P : α × β → Bool) {m : List (α × β)} {k : α}
    (h : ∀ p ∈ m, p.1 = k → P p = false) :
    (mapRemove m k).filter P = m.filter P := by
  induction m with
  | nil => rfl
  | cons q rest ih =>
    have hrest : ∀ p ∈ rest, p.1 = k → P p = false :=
      fun p hp => h p (List.mem_cons_of_mem _ hp)
    by_cases hq : q.1 = k
    · have hPq : P q = false := h q (List.mem_cons_self _ _) hq
      simp only [mapRemove, if_pos hq, List.filter_cons, hPq]
      simp only [Bool.false_eq_true, if_neg (by simp : ¬ (false = true))]
      exact ih hrest
    · simp only [mapRemove, if_neg hq, List.filter_cons]
      by_cases hPq : P q = true
      · simp only [hPq, if_pos trivial]
        rw [ih hrest]
      · simp only [Bool.not_eq_true] at hPq
        simp only [hPq]
        simp only [Bool.false_eq_true, if_neg (by simp : ¬ (false = true))]
        exact ih hrest

theorem filter_foldl_mapRemove_of_not {α β γ : Type} [DecidableEq α]
    (P : α × β → Bool) (f : γ → α) :
    ∀ (cs : List γ) (m : List (α × β)),
    (∀ p ∈ m, p.1 ∈ cs.map f → P p = false) →
    (cs.foldl (fun m2 c => mapRemove m2 (f c)) m).filter P = m.filter P
  | [], _, _ => rfl
  | c :: rest, m, h => by
    simp only [List.foldl_cons]
    rw [filter_foldl_mapRemove_of_not P f rest (mapRemove m (f c))
      (fun p hp hmem => h p (mapRemove_subset hp)
        (by simp only [List.map_cons, List.mem_cons]; exact Or.inr hmem))]
    exact filter_mapRemove_of_not P
      (fun p hp hpk => h p hp (by simp only [List.map_cons, List.mem_cons]; exact Or.inl hpk))

/-! ### intRange lemmas -/

theorem mem_intRange {x lo hi : Int} : x ∈ intRange lo hi ↔ lo ≤ x ∧ x ≤ hi := by
  simp only [intRange, List.mem_map, List.mem_range]
  constructor
  · rintro ⟨i, hilt, hfx⟩
    omega
  · rintro ⟨h1, h2⟩
    refine ⟨(x - lo).toNat, by omega, ?_⟩
    show lo + ((x - lo).toNat : Int) = x
    omega

theorem intRange_nodup (lo hi : Int) : (intRange lo hi).Nodup := by
  apply List.Nodup.map
  · intro a b hab
    simp only [] at hab
    omega
  · exact List.nodup_range _

theorem intRange_eq_nil {lo hi : Int} (h : hi < lo) : intRange lo hi = [] := by
  have h0 : (hi + 1 - lo).toNat = 0 := by omega
  rw [intRange, h0]
  rfl

theorem intRange_cons {lo hi : Int} (h : lo ≤ hi) :
    intRange lo hi = lo :: intRange (lo + 1) hi := by
  have h0 : (hi + 1 - lo).toNat = (hi + 1 - (lo + 1)).toNat + 1 := by omega
  unfold intRange
  rw [h0, List.range_succ_eq_map, List.map_cons, List.map_map]
  congr 1
  · simp
  · apply List.map_congr_left
    intro i _
    simp only [Function.comp_apply]
    push_cast
    ring

theorem intRange_snoc {lo hi : Int} (h : lo ≤ hi) :
    intRange lo hi = intRange lo (hi - 1) ++ [hi] := by
  have h0 : (hi + 1 - lo).toNat = (hi - 1 + 1 - lo).toNat + 1 := by omega
  unfold intRange
  rw [h0, List.range_succ, List.map_append]
  congr 1
  simp only [List.map_cons, List.map_nil, List.cons.injEq, and_true]
  omega

/-! ### countFilled lemmas -/

theorem countFilled_congr {cm1 cm2 : List (Location × Cell)} :
    ∀ (locs : List Location), (∀ l ∈ locs, mapGet cm1 l = mapGet cm2 l) →
    countFilled cm1 locs = countFilled cm2 locs
  | [], _ => rfl
  | l :: rest, h => by
    simp only [countFilled]
    rw [h l (List.mem_cons_self _ _),
      countFilled_congr rest (fun l2 hl2 => h l2 (List.mem_cons_of_mem _ hl2))]

theorem countFilled_cons (cm : List (Location × Cell)) (l : Location)
    (locs : List Location) :
    countFilled cm (l :: locs) =
      match mapGet cm l, countFilled cm locs with
      | some cell, some n => some (if cell.contains_letter then n + 1 else n)
      | _, _ => none := rfl

theorem countFilled_append (cm : List (Location × Cell)) :
    ∀ (l1 l2 : List Location),
    countFilled cm (l1 ++ l2) =
      match countFilled cm l1, countFilled cm l2 with
      | some a, some b => some (a + b)
      | _, _ => none
  | [], l2 => by
    simp only [List.nil_append, countFilled]
    cases countFilled cm l2 <;> simp
  | l :: rest, l2 => by
    have hra := countFilled_append cm rest l2
    have hL : countFilled cm ((l :: rest) ++ l2) =
        match mapGet cm l, countFilled cm (rest ++ l2) with
        | some cell, some n => some (if cell.contains_letter then n + 1 else n)
        | _, _ => none := rfl
    rw [hL, countFilled_cons, hra]
    cases hg : mapGet cm l with
    | none => rfl
    | some cell =>
      cases hr : countFilled cm rest with
      | none => rfl
      | some a =>
        cases hl2 : countFilled cm l2 with
        | none => rfl
        | some b =>
          cases hcl : cell.contains_letter <;> simp [hcl] <;> omega

theorem countFilled_zero_iff (cm : List (Location × Cell)) :
    ∀ (locs : List Location),
    countFilled cm locs = some 0 ↔
      ∀ l ∈ locs, ∃ c, mapGet cm l = some c ∧ c.contains_letter = false
  | [] => by simp [countFilled]
  | l :: rest => by
    constructor
    · intro h
      simp only [countFilled] at h
      cases hg : mapGet cm l with
      | none => rw [hg] at h; simp at h
      | some cell =>
        rw [hg] at h
        cases hr : countFilled cm rest with
        | none => rw [hr] at h; simp at h
        | some n =>
          rw [hr] at h
          simp only [Option.some.injEq] at h
          have hcl : cell.contains_letter = false := by
            by_cases hc : cell.contains_letter = true
            · rw [hc] at h; simp at h
            · simpa using hc
          have hn : n = 0 := by
            rw [hcl] at h
            simpa using h
          intro l2 hl2
          rcases List.mem_cons.1 hl2 with rfl | hl2
          · exact ⟨cell, hg, hcl⟩
          · exact ((countFilled_zero_iff cm rest).1 (hn ▸ hr) l2 hl2)
    · intro h
      obtain ⟨c, hg, hcl⟩ := h l (List.mem_cons_self _ _)
      have hrest := (countFilled_zero_iff cm rest).2
        (fun l2 hl2 => h l2 (List.mem_cons_of_mem _ hl2))
      simp [countFilled, hg, hcl, hrest]

theorem countFilled_isSome_iff (cm : List (Location × Cell)) :
    ∀ (locs : List Location),
    (countFilled cm locs).isSome = true ↔ ∀ l ∈ locs, (mapGet cm l).isSome = true
  | [] => by simp [countFilled]
  | l :: rest => by
    constructor
    · intro h l2 hl2
      simp only [countFilled] at h
      cases hg : mapGet cm l with
      | none => rw [hg] at h; simp at h
      | some cell =>
        rw [hg] at h
        cases hr : countFilled cm rest with
        | none => rw [hr] at h; simp at h
        | some n =>
          rcases List.mem_cons.1 hl2 with rfl | hl2
          · simp [hg]
          · exact (countFilled_isSome_iff cm rest).1 (by simp [hr]) l2 hl2
    · intro h
      obtain ⟨cell, hg⟩ := Option.isSome_iff_exists.1 (h l (List.mem_cons_self _ _))
      obtain ⟨n, hr⟩ := Option.isSome_iff_exists.1
        ((countFilled_isSome_iff cm rest).2 (fun l2 hl2 => h l2 (List.mem_cons_of_mem _ hl2)))
      simp [countFilled, hg, hr]

theorem countFilled_exists_letter (cm : List (Location × Cell)) :
    ∀ (locs : List Location) (k : Nat), countFilled cm locs = some k → k ≠ 0 →
    ∃ l ∈ locs, ∃ c, mapGet cm l = some c ∧ c.contains_letter = true
  | [], k, h, hk => by
    simp only [countFilled, Option.some.injEq] at h
    exact absurd h.symm hk
  | l :: rest, k, h, hk => by
    simp only [countFilled] at h
    cases hg : mapGet cm l with
    | none => rw [hg] at h; simp at h
    | some cell =>
      rw [hg] at h
      cases hr : countFilled cm rest with
      | none => rw [hr] at h; simp at h
      | some n =>
        rw [hr] at h
        cases hcl : cell.contains_letter with
        | true => exact ⟨l, List.mem_cons_self _ _, cell, hg, hcl⟩
        | false =>
          simp only [hcl, Bool.false_eq_true, if_false, Option.some.injEq] at h
          obtain ⟨l2, hl2, c2, hg2, hc2⟩ :=
            countFilled_exists_letter cm rest n hr (by omega)
          exact ⟨l2, List.mem_cons_of_mem _ hl2, c2, hg2, hc2⟩

/-! ### Grid well-formedness and bounding-box lemmas -/

theorem mapGet_eq_of_mem_nodup {α β : Type} [DecidableEq α] {m : List (α × β)}
    (hn : (m.map Prod.fst).Nodup) {p : α × β} (hp : p ∈ m) :
    mapGet m p.1 = some p.2 := by
  induction m with
  | nil => simp at hp
  | cons q rest ih =>
    simp only [List.map_cons, List.nodup_cons] at hn
    rcases List.mem_cons.1 hp with rfl | hp
    · simp [mapGet]
    · have hne : ¬ q.1 = p.1 := fun hc => hn.1 (hc ▸ List.mem_map_of_mem Prod.fst hp)
      simp only [mapGet, if_neg hne]
      exact ih hn.2 hp

theorem Cell.is_intersection_contains_letter {c : Cell}
    (h : c.is_intersection = true) : c.contains_letter = true := by
  obtain ⟨st⟩ := c
  cases st <;> simp [Cell.is_intersection, Cell.get_across_word_id,
    Cell.get_down_word_id, Cell.contains_letter] at h ⊢

theorem Cell.empty_not_letter : Cell.empty.contains_letter = false := rfl

theorem Cell.empty_not_intersection : Cell.empty.is_intersection = false := rfl

theorem box_exact_iff (g : CrosswordGrid) :
    g.box_exact = true ↔
      (g.top_left_cell_index.row ≤ g.bottom_right_cell_index.row ∧
       g.top_left_cell_index.col ≤ g.bottom_right_cell_index.col ∧
       (g.cell_map.map Prod.fst).Nodup ∧
       (∀ p ∈ g.cell_map, p.1 ∈ g.boxLocations) ∧
       (∀ l ∈ g.boxLocations, (mapGet g.cell_map l).isSome = true)) := by
  simp [CrosswordGrid.box_exact, List.all_eq_true, Bool.and_eq_true, decide_eq_true_eq,
    and_assoc]

theorem mem_boxLocations {g : CrosswordGrid} {l : Location} :
    l ∈ g.boxLocations ↔
      (g.top_left_cell_index.row ≤ l.row ∧ l.row ≤ g.bottom_right_cell_index.row ∧
       g.top_left_cell_index.col ≤ l.col ∧ l.col ≤ g.bottom_right_cell_index.col) := by
  simp only [CrosswordGrid.boxLocations, List.mem_flatMap, List.mem_map,
    CrosswordGrid.rowRange, CrosswordGrid.colRange, mem_intRange]
  constructor
  · rintro ⟨r, hr, c, hc, rfl⟩
    exact ⟨hr.1, hr.2, hc.1, hc.2⟩
  · intro h
    refine ⟨l.row, ⟨h.1, h.2.1⟩, l.col, ⟨h.2.2.1, h.2.2.2⟩, ?_⟩
    obtain ⟨r, c⟩ := l
    rfl

theorem box_exact_get_none {g : CrosswordGrid} (hbox : g.box_exact = true)
    {l : Location} (hout : l ∉ g.boxLocations) : mapGet g.cell_map l = none := by
  cases hg : mapGet g.cell_map l with
  | none => rfl
  | some cell =>
    exact absurd (((box_exact_iff g).1 hbox).2.2.2.1 (l, cell) (mapGet_eq_some_mem hg))
      hout

theorem box_exact_get_isSome {g : CrosswordGrid} (hbox : g.box_exact = true)
    {l : Location} (hmem : l ∈ g.boxLocations) : (mapGet g.cell_map l).isSome = true :=
  ((box_exact_iff g).1 hbox).2.2.2.2 l hmem

/-! ### add_empty_row / add_empty_col -/

theorem add_empty_row_cell_map_raw (g : CrosswordGrid) (n : Int) :
    (g.add_empty_row n).cell_map =
      g.colRange.foldl (fun m c => mapInsert m (⟨n, c⟩ : Location) Cell.empty)
        g.cell_map := by
  simp only [CrosswordGrid.add_empty_row]
  split
  · rfl
  · split <;> rfl

theorem add_empty_row_word_map (g : CrosswordGrid) (n : Int) :
    (g.add_empty_row n).word_map = g.word_map := by
  simp only [CrosswordGrid.add_empty_row]
  split
  · rfl
  · split <;> rfl

theorem add_empty_col_cell_map_raw (g : CrosswordGrid) (n : Int) :
    (g.add_empty_col n).cell_map =
      g.rowRange.foldl (fun m r => mapInsert m (⟨r, n⟩ : Location) Cell.empty)
        g.cell_map := by
  simp only [CrosswordGrid.add_empty_col]
  split
  · rfl
  · split <;> rfl

theorem add_empty_col_word_map (g : CrosswordGrid) (n : Int) :
    (g.add_empty_col n).word_map = g.word_map := by
  simp only [CrosswordGrid.add_empty_col]
  split
  · rfl
  · split <;> rfl

theorem add_empty_row_low_bounds (g : CrosswordGrid) {n : Int}
    (hlt : n < g.top_left_cell_index.row)
    (hle : n ≤ g.bottom_right_cell_index.row) :
    (g.add_empty_row n).top_left_cell_index = ⟨n, g.top_left_cell_index.col⟩ ∧
    (g.add_empty_row n).bottom_right_cell_index = g.bottom_right_cell_index := by
  simp only [CrosswordGrid.add_empty_row]
  rw [if_neg (by omega), if_pos (by omega)]
  exact ⟨rfl, rfl⟩

theorem add_empty_row_high_bounds (g : CrosswordGrid) {n : Int}
    (hgt : n > g.bottom_right_cell_index.row) :
    (g.add_empty_row n).top_left_cell_index = g.top_left_cell_index ∧
    (g.add_empty_row n).bottom_right_cell_index =
      ⟨n, g.bottom_right_cell_index.col⟩ := by
  simp only [CrosswordGrid.add_empty_row]
  rw [if_pos (by omega)]
  exact ⟨rfl, rfl⟩

theorem add_empty_col_low_bounds (g : CrosswordGrid) {n : Int}
    (hlt : n < g.top_left_cell_index.col)
    (hle : n ≤ g.bottom_right_cell_index.col) :
    (g.add_empty_col n).top_left_cell_index = ⟨g.top_left_cell_index.row, n⟩ ∧
    (g.add_empty_col n).bottom_right_cell_index = g.bottom_right_cell_index := by
  simp only [CrosswordGrid.add_empty_col]
  rw [if_neg (by omega), if_pos (by omega)]
  exact ⟨rfl, rfl⟩

theorem add_empty_col_high_bounds (g : CrosswordGrid) {n : Int}
    (hgt : n > g.bottom_right_cell_index.col) :
    (g.add_empty_col n).top_left_cell_index = g.top_left_cell_index ∧
    (g.add_empty_col n).bottom_right_cell_index =
      ⟨g.bottom_right_cell_index.row, n⟩ := by
  simp only [CrosswordGrid.add_empty_col]
  rw [if_pos (by omega)]
  exact ⟨rfl, rfl⟩

theorem add_empty_row_cell_map (g : CrosswordGrid) {n : Int}
    (hbox : g.box_exact = true)
    (hout : n < g.top_left_cell_index.row ∨ g.bottom_right_cell_index.row < n) :
    (g.add_empty_row n).cell_map =
      g.cell_map ++ g.colRange.map (fun c => ((⟨n, c⟩ : Location), Cell.empty)) := by
  rw [add_empty_row_cell_map_raw]
  apply foldl_mapInsert_fresh
  · intro c hc
    apply box_exact_get_none hbox
    rw [mem_boxLocations]
    simp only [CrosswordGrid.colRange, mem_intRange] at hc
    intro hmem
    simp only at hmem
    omega
  · apply List.Nodup.map
    · intro a b hab
      simpa using congrArg Location.col hab
    · exact intRange_nodup _ _

theorem add_empty_col_cell_map (g : CrosswordGrid) {n : Int}
    (hbox : g.box_exact = true)
    (hout : n < g.top_left_cell_index.col ∨ g.bottom_right_cell_index.col < n) :
    (g.add_empty_col n).cell_map =
      g.cell_map ++ g.rowRange.map (fun r => ((⟨r, n⟩ : Location), Cell.empty)) := by
  rw [add_empty_col_cell_map_raw]
  apply foldl_mapInsert_fresh
  · intro r hr
    apply box_exact_get_none hbox
    rw [mem_boxLocations]
    simp only [CrosswordGrid.rowRange, mem_intRange] at hr
    intro hmem
    simp only at hmem
    omega
  · apply List.Nodup.map
    · intro a b hab
      simpa using congrArg Location.row hab
    · exact intRange_nodup _ _

theorem mapGet_pairs_some {mkL : Int → Location} {v : Cell} :
    ∀ (cs : List Int) {k : Location}, (∃ c ∈ cs, mkL c = k) →
    mapGet (cs.map (fun c => (mkL c, v))) k = some v
  | [], _, h => by simp at h
  | c0 :: rest, k, h => by
    by_cases hc : mkL c0 = k
    · simp [mapGet, hc]
    · obtain ⟨c, hcmem, hck⟩ := h
      rcases List.mem_cons.1 hcmem with rfl | hcmem
    -- c = c0 contradicts hc
      · exact absurd hck hc
      · simp only [List.map_cons, mapGet, if_neg hc]
        exact mapGet_pairs_some rest ⟨c, hcmem, hck⟩

theorem mapGet_pairs_none {mkL : Int → Location} {v : Cell} :
    ∀ (cs : List Int) {k : Location}, (∀ c ∈ cs, mkL c ≠ k) →
    mapGet (cs.map (fun c => (mkL c, v))) k = none
  | [], _, _ => rfl
  | c0 :: rest, k, h => by
    simp only [List.map_cons, mapGet, if_neg (h c0 (List.mem_cons_self _ _))]
    exact mapGet_pairs_none rest (fun c hc => h c (List.mem_cons_of_mem _ hc))

theorem get_all_intersections_of_append_empties {g g' : CrosswordGrid}
    {news : List (Location × Cell)} (h : g'.cell_map = g.cell_map ++ news)
    (hnews : ∀ p ∈ news, p.2 = Cell.empty) :
    g'.get_all_intersections = g.get_all_intersections := by
  unfold CrosswordGrid.get_all_intersections
  rw [h, List.filter_append]
  have hnil : news.filter (fun p => p.2.is_intersection) = [] := by
    rw [List.filter_eq_nil_iff]
    intro p hp
    rw [hnews p hp]
    simp [Cell.empty_not_intersection]
  rw [hnil, List.append_nil]

theorem filledAt_eq_of_get {g g' : CrosswordGrid}
    (h : ∀ l, mapGet g'.cell_map l = mapGet g.cell_map l ∨
      (mapGet g'.cell_map l = some Cell.empty ∧ mapGet g.cell_map l = none) ∨
      (mapGet g'.cell_map l = none ∧
        ∃ c, mapGet g.cell_map l = some c ∧ c.contains_letter = false)) :
    ∀ l, g'.filledAt l = g.filledAt l := by
  intro l
  unfold CrosswordGrid.filledAt
  rcases h l with he | ⟨h1, h2⟩ | ⟨h1, c, h2, hc⟩
  · rw [he]
  · rw [h1, h2]
    rfl
  · rw [h1, h2]
    obtain ⟨st⟩ := c
    cases st <;> simp [Cell.contains_letter] at hc ⊢

theorem count_row_eq_of (g g' : CrosswordGrid) (r : Int)
    (hcols : g'.colRange = g.colRange)
    (hcells : ∀ c ∈ g.colRange,
      mapGet g'.cell_map (⟨r, c⟩ : Location) = mapGet g.cell_map ⟨r, c⟩) :
    g'.count_filled_cells_row r = g.count_filled_cells_row r := by
  unfold CrosswordGrid.count_filled_cells_row
  rw [hcols]
  apply countFilled_congr
  intro l hl
  obtain ⟨c, hc, rfl⟩ := List.mem_map.1 hl
  exact hcells c hc

theorem count_col_eq_of (g g' : CrosswordGrid) (c : Int)
    (hrows : g'.rowRange = g.rowRange)
    (hcells : ∀ r ∈ g.rowRange,
      mapGet g'.cell_map (⟨r, c⟩ : Location) = mapGet g.cell_map ⟨r, c⟩) :
    g'.count_filled_cells_col c = g.count_filled_cells_col c := by
  unfold CrosswordGrid.count_filled_cells_col
  rw [hrows]
  apply countFilled_congr
  intro l hl
  obtain ⟨r, hr, rfl⟩ := List.mem_map.1 hl
  exact hcells r hr

theorem count_row_zero_of_empty (g : CrosswordGrid) (r : Int)
    (h : ∀ c ∈ g.colRange, mapGet g.cell_map (⟨r, c⟩ : Location) = some Cell.empty) :
    g.count_filled_cells_row r = some 0 := by
  unfold CrosswordGrid.count_filled_cells_row
  rw [countFilled_zero_iff]
  intro l hl
  obtain ⟨c, hc, rfl⟩ := List.mem_map.1 hl
  exact ⟨Cell.empty, h c hc, Cell.empty_not_letter⟩

theorem count_col_zero_of_empty (g : CrosswordGrid) (c : Int)
    (h : ∀ r ∈ g.rowRange, mapGet g.cell_map (⟨r, c⟩ : Location) = some Cell.empty) :
    g.count_filled_cells_col c = some 0 := by
  unfold CrosswordGrid.count_filled_cells_col
  rw [countFilled_zero_iff]
  intro l hl
  obtain ⟨r, hr, rfl⟩ := List.mem_map.1 hl
  exact ⟨Cell.empty, h r hr, Cell.empty_not_letter⟩

/-- What `add_empty_row (top-1)` does to a well-formed grid. -/
structure RowAddedTop (g g' : CrosswordGrid) : Prop where
  box : g'.box_exact = true
  wm : g'.word_map = g.word_map
  tl : g'.top_left_cell_index =
    ⟨g.top_left_cell_index.row - 1, g.top_left_cell_index.col⟩
  br : g'.bottom_right_cell_index = g.bottom_right_cell_index
  get : ∀ l, mapGet g'.cell_map l =
    if l.row = g.top_left_cell_index.row - 1 ∧ l.col ∈ g.colRange then some Cell.empty
    else mapGet g.cell_map l
  filled : ∀ l, g'.filledAt l = g.filledAt l
  inters : g'.get_all_intersections = g.get_all_intersections
  ccounts : ∀ c ∈ g.colRange, g'.count_filled_cells_col c = g.count_filled_cells_col c
  rcounts : ∀ r, r ≠ g.top_left_cell_index.row - 1 →
    g'.count_filled_cells_row r = g.count_filled_cells_row r
  rzero : g'.count_filled_cells_row (g.top_left_cell_index.row - 1) = some 0

theorem add_empty_row_top_spec (g : CrosswordGrid) (hbox : g.box_exact = true) :
    RowAddedTop g (g.add_empty_row (g.top_left_cell_index.row - 1)) := by
  obtain ⟨hrr, hcc, hnodup, hsub, hcov⟩ := (box_exact_iff g).1 hbox
  have hout : g.top_left_cell_index.row - 1 < g.top_left_cell_index.row ∨
      g.bottom_right_cell_index.row < g.top_left_cell_index.row - 1 := by omega
  have hcm := add_empty_row_cell_map g hbox hout
  have hbounds := @add_empty_row_low_bounds g (g.top_left_cell_index.row - 1)
    (by omega) (by omega)
  set g' := g.add_empty_row (g.top_left_cell_index.row - 1) with hg'
  have hwm : g'.word_map = g.word_map := add_empty_row_word_map g _
  have hget : ∀ l, mapGet g'.cell_map l =
      if l.row = g.top_left_cell_index.row - 1 ∧ l.col ∈ g.colRange then some Cell.empty
      else mapGet g.cell_map l := by
    intro l
    rw [hcm]
    by_cases hmem : l.row = g.top_left_cell_index.row - 1 ∧ l.col ∈ g.colRange
    · rw [if_pos hmem]
      obtain ⟨hm1, hm2⟩ := hmem
      have hnone : mapGet g.cell_map l = none := by
        apply box_exact_get_none hbox
        rw [mem_boxLocations]
        intro hc
        omega
      rw [mapGet_append_of_none hnone]
      apply mapGet_pairs_some
      refine ⟨l.col, hm2, ?_⟩
      obtain ⟨r, c⟩ := l
      dsimp only at hm1
      rw [hm1]
    · rw [if_neg hmem]
      cases hg : mapGet g.cell_map l with
      | some cell => exact mapGet_append_of_some hg
      | none =>
        rw [mapGet_append_of_none hg]
        apply mapGet_pairs_none
        intro c hc hck
        apply hmem
        constructor
        · rw [← hck]
        · rw [← hck]
          exact hc
  have hcols : g'.colRange = g.colRange := by
    unfold CrosswordGrid.colRange
    rw [hbounds.1, hbounds.2]
  have hrows : g'.rowRange =
      (g.top_left_cell_index.row - 1) :: g.rowRange := by
    unfold CrosswordGrid.rowRange
    rw [hbounds.1, hbounds.2]
    dsimp only
    have hstep : g.top_left_cell_index.row - 1 + 1 = g.top_left_cell_index.row := by
      omega
    rw [intRange_cons (by omega), hstep]
  refine ⟨?_, hwm, hbounds.1, hbounds.2, hget, ?_, ?_, ?_, ?_, ?_⟩
  · -- box_exact g'
    rw [box_exact_iff]
    refine ⟨?_, ?_, ?_, ?_, ?_⟩
    · rw [hbounds.1, hbounds.2]
      simp only
      omega
    · rw [hbounds.1, hbounds.2]
      simp only
      omega
    · rw [hcm, List.map_append]
      rw [List.nodup_append]
      refine ⟨hnodup, ?_, ?_⟩
      · rw [List.map_map]
        apply List.Nodup.map
        · intro a b hab
          simpa using congrArg Location.col hab
        · exact intRange_nodup _ _
      · intro k hk1 hk2
        rw [List.map_map] at hk2
        obtain ⟨c, hc, rfl⟩ := List.mem_map.1 hk2
        obtain ⟨p, hp, hpk⟩ := List.mem_map.1 hk1
        have := hsub p hp
        rw [hpk] at this
        rw [mem_boxLocations] at this
        simp only [Function.comp_apply] at this
        omega
    · intro p hp
      rw [hcm] at hp
      rw [mem_boxLocations, hbounds.1, hbounds.2]
      rcases List.mem_append.1 hp with hp | hp
      · have := hsub p hp
        rw [mem_boxLocations] at this
        simp only
        omega
      · obtain ⟨c, hc, rfl⟩ := List.mem_map.1 hp
        simp only [CrosswordGrid.colRange, mem_intRange] at hc
        simp only
        omega
    · intro l hl
      rw [mem_boxLocations, hbounds.1, hbounds.2] at hl
      simp only at hl
      rw [hget l]
      by_cases hr0 : l.row = g.top_left_cell_index.row - 1
      · rw [if_pos ⟨hr0, by rw [CrosswordGrid.colRange, mem_intRange]; omega⟩]
        rfl
      · rw [if_neg (fun hc => hr0 hc.1)]
        apply hcov
        rw [mem_boxLocations]
        omega
  · -- filledAt
    apply filledAt_eq_of_get
    intro l
    rw [hget l]
    by_cases hmem : l.row = g.top_left_cell_index.row - 1 ∧ l.col ∈ g.colRange
    · rw [if_pos hmem]
      obtain ⟨hm1, hm2⟩ := hmem
      right
      left
      refine ⟨rfl, box_exact_get_none hbox ?_⟩
      rw [mem_boxLocations]
      intro hc
      omega
    · rw [if_neg hmem]
      left
      rfl
  · -- intersections
    apply get_all_intersections_of_append_empties hcm
    intro p hp
    obtain ⟨c, hc, rfl⟩ := List.mem_map.1 hp
    rfl
  · -- col counts
    intro c hc
    unfold CrosswordGrid.count_filled_cells_col
    rw [hrows, List.map_cons, countFilled_cons]
    have hnew : mapGet g'.cell_map (⟨g.top_left_cell_index.row - 1, c⟩ : Location) =
        some Cell.empty := by
      rw [hget]
      rw [if_pos ⟨rfl, hc⟩]
    rw [hnew]
    have hrest : countFilled g'.cell_map
        (g.rowRange.map (fun r => (⟨r, c⟩ : Location))) =
        countFilled g.cell_map (g.rowRange.map (fun r => (⟨r, c⟩ : Location))) := by
      apply countFilled_congr
      intro l hl
      obtain ⟨r, hr, rfl⟩ := List.mem_map.1 hl
      rw [hget]
      apply if_neg
      simp only [CrosswordGrid.rowRange, mem_intRange] at hr
      intro hcon
      obtain ⟨hcon1, hcon2⟩ := hcon
      dsimp only at hcon1
      omega
    rw [hrest]
    cases countFilled g.cell_map (g.rowRange.map (fun r => (⟨r, c⟩ : Location))) with
    | none => rfl
    | some n => rfl
  · -- row counts away from the new row
    intro r hr
    apply count_row_eq_of g g' r hcols
    intro c hc
    rw [hget]
    exact if_neg (fun hcon => hr hcon.1)
  · -- the new row is empty
    have : g'.count_filled_cells_row (g.top_left_cell_index.row - 1) = some 0 := by
      apply count_row_zero_of_empty
      intro c hc
      rw [hget]
      rw [hcols] at hc
      exact if_pos ⟨rfl, hc⟩
    exact this

/-- What `add_empty_row (bottom+1)` does to a well-formed grid. -/
structure RowAddedBottom (g g' : CrosswordGrid) : Prop where
  box : g'.box_exact = true
  wm : g'.word_map = g.word_map
  tl : g'.top_left_cell_index = g.top_left_cell_index
  br : g'.bottom_right_cell_index =
    ⟨g.bottom_right_cell_index.row + 1, g.bottom_right_cell_index.col⟩
  get : ∀ l, mapGet g'.cell_map l =
    if l.row = g.bottom_right_cell_index.row + 1 ∧ l.col ∈ g.colRange then
      some Cell.empty
    else mapGet g.cell_map l
  filled : ∀ l, g'.filledAt l = g.filledAt l
  inters : g'.get_all_intersections = g.get_all_intersections
  ccounts : ∀ c ∈ g.colRange, g'.count_filled_cells_col c = g.count_filled_cells_col c
  rcounts : ∀ r, r ≠ g.bottom_right_cell_index.row + 1 →
    g'.count_filled_cells_row r = g.count_filled_cells_row r
  rzero : g'.count_filled_cells_row (g.bottom_right_cell_index.row + 1) = some 0

theorem add_empty_row_bottom_spec (g : CrosswordGrid) (hbox : g.box_exact = true) :
    RowAddedBottom g (g.add_empty_row (g.bottom_right_cell_index.row + 1)) := by
  obtain ⟨hrr, hcc, hnodup, hsub, hcov⟩ := (box_exact_iff g).1 hbox
  have hout : g.bottom_right_cell_index.row + 1 < g.top_left_cell_index.row ∨
      g.bottom_right_cell_index.row < g.bottom_right_cell_index.row + 1 := by omega
  have hcm := add_empty_row_cell_map g hbox hout
  have hbounds := @add_empty_row_high_bounds g (g.bottom_right_cell_index.row + 1)
    (by omega)
  set g' := g.add_empty_row (g.bottom_right_cell_index.row + 1) with hg'
  have hwm : g'.word_map = g.word_map := add_empty_row_word_map g _
  have hget : ∀ l, mapGet g'.cell_map l =
      if l.row = g.bottom_right_cell_index.row + 1 ∧ l.col ∈ g.colRange then
        some Cell.empty
      else mapGet g.cell_map l := by
    intro l
    rw [hcm]
    by_cases hmem : l.row = g.bottom_right_cell_index.row + 1 ∧ l.col ∈ g.colRange
    · rw [if_pos hmem]
      obtain ⟨hm1, hm2⟩ := hmem
      have hnone : mapGet g.cell_map l = none := by
        apply box_exact_get_none hbox
        rw [mem_boxLocations]
        intro hc
        omega
      rw [mapGet_append_of_none hnone]
      apply mapGet_pairs_some
      refine ⟨l.col, hm2, ?_⟩
      obtain ⟨r, c⟩ := l
      dsimp only at hm1
      rw [hm1]
    · rw [if_neg hmem]
      cases hg : mapGet g.cell_map l with
      | some cell => exact mapGet_append_of_some hg
      | none =>
        rw [mapGet_append_of_none hg]
        apply mapGet_pairs_none
        intro c hc hck
        apply hmem
        constructor
        · rw [← hck]
        · rw [← hck]
          exact hc
  have hcols : g'.colRange = g.colRange := by
    unfold CrosswordGrid.colRange
    rw [hbounds.1, hbounds.2]
  have hrows : g'.rowRange = g.rowRange ++ [g.bottom_right_cell_index.row + 1] := by
    unfold CrosswordGrid.rowRange
    rw [hbounds.1, hbounds.2]
    dsimp only
    have hstep : g.bottom_right_cell_index.row + 1 - 1 = g.bottom_right_cell_index.row := by
      omega
    rw [intRange_snoc (by omega), hstep]
  refine ⟨?_, hwm, hbounds.1, hbounds.2, hget, ?_, ?_, ?_, ?_, ?_⟩
  · -- box_exact g'
    rw [box_exact_iff]
    refine ⟨?_, ?_, ?_, ?_, ?_⟩
    · rw [hbounds.1, hbounds.2]
      simp only
      omega
    · rw [hbounds.1, hbounds.2]
      simp only
      omega
    · rw [hcm, List.map_append]
      rw [List.nodup_append]
      refine ⟨hnodup, ?_, ?_⟩
      · rw [List.map_map]
        apply List.Nodup.map
        · intro a b hab
          simpa using congrArg Location.col hab
        · exact intRange_nodup _ _
      · intro k hk1 hk2
        rw [List.map_map] at hk2
        obtain ⟨c, hc, rfl⟩ := List.mem_map.1 hk2
        obtain ⟨p, hp, hpk⟩ := List.mem_map.1 hk1
        have := hsub p hp
        rw [hpk] at this
        rw [mem_boxLocations] at this
        simp only [Function.comp_apply] at this
        omega
    · intro p hp
      rw [hcm] at hp
      rw [mem_boxLocations, hbounds.1, hbounds.2]
      rcases List.mem_append.1 hp with hp | hp
      · have := hsub p hp
        rw [mem_boxLocations] at this
        simp only
        omega
      · obtain ⟨c, hc, rfl⟩ := List.mem_map.1 hp
        simp only [CrosswordGrid.colRange, mem_intRange] at hc
        simp only
        omega
    · intro l hl
      rw [mem_boxLocations, hbounds.1, hbounds.2] at hl
      simp only at hl
      rw [hget l]
      by_cases hr0 : l.row = g.bottom_right_cell_index.row + 1
      · rw [if_pos ⟨hr0, by rw [CrosswordGrid.colRange, mem_intRange]; omega⟩]
        rfl
      · rw [if_neg (fun hc => hr0 hc.1)]
        apply hcov
        rw [mem_boxLocations]
        omega
  · -- filledAt
    apply filledAt_eq_of_get
    intro l
    rw [hget l]
    by_cases hmem : l.row = g.bottom_right_cell_index.row + 1 ∧ l.col ∈ g.colRange
    · rw [if_pos hmem]
      obtain ⟨hm1, hm2⟩ := hmem
      right
      left
      refine ⟨rfl, box_exact_get_none hbox ?_⟩
      rw [mem_boxLocations]
      intro hc
      omega
    · rw [if_neg hmem]
      left
      rfl
  · -- intersections
    apply get_all_intersections_of_append_empties hcm
    intro p hp
    obtain ⟨c, hc, rfl⟩ := List.mem_map.1 hp
    rfl
  · -- col counts
    intro c hc
    unfold CrosswordGrid.count_filled_cells_col
    rw [hrows, List.map_append, countFilled_append]
    have hrest : countFilled g'.cell_map
        (g.rowRange.map (fun r => (⟨r, c⟩ : Location))) =
        countFilled g.cell_map (g.rowRange.map (fun r => (⟨r, c⟩ : Location))) := by
      apply countFilled_congr
      intro l hl
      obtain ⟨r, hr, rfl⟩ := List.mem_map.1 hl
      rw [hget]
      apply if_neg
      simp only [CrosswordGrid.rowRange, mem_intRange] at hr
      intro hcon
      obtain ⟨hcon1, hcon2⟩ := hcon
      dsimp only at hcon1
      omega
    have hnew : mapGet g'.cell_map
        (⟨g.bottom_right_cell_index.row + 1, c⟩ : Location) = some Cell.empty := by
      rw [hget]
      exact if_pos ⟨rfl, hc⟩
    have hsingle : countFilled g'.cell_map
        ([g.bottom_right_cell_index.row + 1].map (fun r => (⟨r, c⟩ : Location))) =
        some 0 := by
      simp [countFilled, hnew, Cell.contains_letter, Cell.empty]
    rw [hrest, hsingle]
    cases countFilled g.cell_map (g.rowRange.map (fun r => (⟨r, c⟩ : Location))) with
    | none => rfl
    | some n => simp
  · -- row counts away from the new row
    intro r hr
    apply count_row_eq_of g g' r hcols
    intro c hc
    rw [hget]
    exact if_neg (fun hcon => hr hcon.1)
  · -- the new row is empty
    apply count_row_zero_of_empty
    intro c hc
    rw [hget]
    rw [hcols] at hc
    exact if_pos ⟨rfl, hc⟩

/-- What `add_empty_col (left-1)` does to a well-formed grid. -/
structure ColAddedLeft (g g' : CrosswordGrid) : Prop where
  box : g'.box_exact = true
  wm : g'.word_map = g.word_map
  tl : g'.top_left_cell_index =
    ⟨g.top_left_cell_index.row, g.top_left_cell_index.col - 1⟩
  br : g'.bottom_right_cell_index = g.bottom_right_cell_index
  get : ∀ l, mapGet g'.cell_map l =
    if l.col = g.top_left_cell_index.col - 1 ∧ l.row ∈ g.rowRange then some Cell.empty
    else mapGet g.cell_map l
  filled : ∀ l, g'.filledAt l = g.filledAt l
  inters : g'.get_all_intersections = g.get_all_intersections
  rcounts : ∀ r ∈ g.rowRange, g'.count_filled_cells_row r = g.count_filled_cells_row r
  ccounts : ∀ c, c ≠ g.top_left_cell_index.col - 1 →
    g'.count_filled_cells_col c = g.count_filled_cells_col c
  czero : g'.count_filled_cells_col (g.top_left_cell_index.col - 1) = some 0

theorem add_empty_col_left_spec (g : CrosswordGrid) (hbox : g.box_exact = true) :
    ColAddedLeft g (g.add_empty_col (g.top_left_cell_index.col - 1)) := by
  obtain ⟨hrr, hcc, hnodup, hsub, hcov⟩ := (box_exact_iff g).1 hbox
  have hout : g.top_left_cell_index.col - 1 < g.top_left_cell_index.col ∨
      g.bottom_right_cell_index.col < g.top_left_cell_index.col - 1 := by omega
  have hcm := add_empty_col_cell_map g hbox hout
  have hbounds := @add_empty_col_low_bounds g (g.top_left_cell_index.col - 1)
    (by omega) (by omega)
  set g' := g.add_empty_col (g.top_left_cell_index.col - 1) with hg'
  have hwm : g'.word_map = g.word_map := add_empty_col_word_map g _
  have hget : ∀ l, mapGet g'.cell_map l =
      if l.col = g.top_left_cell_index.col - 1 ∧ l.row ∈ g.rowRange then some Cell.empty
      else mapGet g.cell_map l := by
    intro l
    rw [hcm]
    by_cases hmem : l.col = g.top_left_cell_index.col - 1 ∧ l.row ∈ g.rowRange
    · rw [if_pos hmem]
      obtain ⟨hm1, hm2⟩ := hmem
      have hnone : mapGet g.cell_map l = none := by
        apply box_exact_get_none hbox
        rw [mem_boxLocations]
        intro hc
        omega
      rw [mapGet_append_of_none hnone]
      apply mapGet_pairs_some
      refine ⟨l.row, hm2, ?_⟩
      obtain ⟨r, c⟩ := l
      dsimp only at hm1
      rw [hm1]
    · rw [if_neg hmem]
      cases hg : mapGet g.cell_map l with
      | some cell => exact mapGet_append_of_some hg
      | none =>
        rw [mapGet_append_of_none hg]
        apply mapGet_pairs_none
        intro r hr hrk
        apply hmem
        constructor
        · rw [← hrk]
        · rw [← hrk]
          exact hr
  have hrows : g'.rowRange = g.rowRange := by
    unfold CrosswordGrid.rowRange
    rw [hbounds.1, hbounds.2]
  have hcols2 : g'.colRange =
      (g.top_left_cell_index.col - 1) :: g.colRange := by
    unfold CrosswordGrid.colRange
    rw [hbounds.1, hbounds.2]
    dsimp only
    have hstep : g.top_left_cell_index.col - 1 + 1 = g.top_left_cell_index.col := by
      omega
    rw [intRange_cons (by omega), hstep]
  refine ⟨?_, hwm, hbounds.1, hbounds.2, hget, ?_, ?_, ?_, ?_, ?_⟩
  · rw [box_exact_iff]
    refine ⟨?_, ?_, ?_, ?_, ?_⟩
    · rw [hbounds.1, hbounds.2]
      simp only
      omega
    · rw [hbounds.1, hbounds.2]
      simp only
      omega
    · rw [hcm, List.map_append]
      rw [List.nodup_append]
      refine ⟨hnodup, ?_, ?_⟩
      · rw [List.map_map]
        apply List.Nodup.map
        · intro a b hab
          simpa using congrArg Location.row hab
        · exact intRange_nodup _ _
      · intro k hk1 hk2
        rw [List.map_map] at hk2
        obtain ⟨r, hr, rfl⟩ := List.mem_map.1 hk2
        obtain ⟨p, hp, hpk⟩ := List.mem_map.1 hk1
        have := hsub p hp
        rw [hpk] at this
        rw [mem_boxLocations] at this
        simp only [Function.comp_apply] at this
        omega
    · intro p hp
      rw [hcm] at hp
      rw [mem_boxLocations, hbounds.1, hbounds.2]
      rcases List.mem_append.1 hp with hp | hp
      · have := hsub p hp
        rw [mem_boxLocations] at this
        simp only
        omega
      · obtain ⟨r, hr, rfl⟩ := List.mem_map.1 hp
        simp only [CrosswordGrid.rowRange, mem_intRange] at hr
        simp only
        omega
    · intro l hl
      rw [mem_boxLocations, hbounds.1, hbounds.2] at hl
      simp only at hl
      rw [hget l]
      by_cases hc0 : l.col = g.top_left_cell_index.col - 1
      · rw [if_pos ⟨hc0, by rw [CrosswordGrid.rowRange, mem_intRange]; omega⟩]
        rfl
      · rw [if_neg (fun hc => hc0 hc.1)]
        apply hcov
        rw [mem_boxLocations]
        omega
  · apply filledAt_eq_of_get
    intro l
    rw [hget l]
    by_cases hmem : l.col = g.top_left_cell_index.col - 1 ∧ l.row ∈ g.rowRange
    · rw [if_pos hmem]
      obtain ⟨hm1, hm2⟩ := hmem
      right
      left
      refine ⟨rfl, box_exact_get_none hbox ?_⟩
      rw [mem_boxLocations]
      intro hc
      omega
    · rw [if_neg hmem]
      left
      rfl
  · apply get_all_intersections_of_append_empties hcm
    intro p hp
    obtain ⟨r, hr, rfl⟩ := List.mem_map.1 hp
    rfl
  · -- row counts
    intro r hr
    unfold CrosswordGrid.count_filled_cells_row
    rw [hcols2, List.map_cons, countFilled_cons]
    have hnew : mapGet g'.cell_map (⟨r, g.top_left_cell_index.col - 1⟩ : Location) =
        some Cell.empty := by
      rw [hget]
      rw [if_pos ⟨rfl, hr⟩]
    rw [hnew]
    have hrest : countFilled g'.cell_map
        (g.colRange.map (fun c => (⟨r, c⟩ : Location))) =
        countFilled g.cell_map (g.colRange.map (fun c => (⟨r, c⟩ : Location))) := by
      apply countFilled_congr
      intro l hl
      obtain ⟨c, hc, rfl⟩ := List.mem_map.1 hl
      rw [hget]
      apply if_neg
      simp only [CrosswordGrid.colRange, mem_intRange] at hc
      intro hcon
      obtain ⟨hcon1, hcon2⟩ := hcon
      dsimp only at hcon1
      omega
    rw [hrest]
    cases countFilled g.cell_map (g.colRange.map (fun c => (⟨r, c⟩ : Location))) with
    | none => rfl
    | some n => rfl
  · intro c hc
    apply count_col_eq_of g g' c hrows
    intro r hr
    rw [hget]
    exact if_neg (fun hcon => hc hcon.1)
  · apply count_col_zero_of_empty
    intro r hr
    rw [hget]
    rw [hrows] at hr
    exact if_pos ⟨rfl, hr⟩

/-- What `add_empty_col (right+1)` does to a well-formed grid. -/
structure ColAddedRight (g g' : CrosswordGrid) : Prop where
  box : g'.box_exact = true
  wm : g'.word_map = g.word_map
  tl : g'.top_left_cell_index = g.top_left_cell_index
  br : g'.bottom_right_cell_index =
    ⟨g.bottom_right_cell_index.row, g.bottom_right_cell_index.col + 1⟩
  get : ∀ l, mapGet g'.cell_map l =
    if l.col = g.bottom_right_cell_index.col + 1 ∧ l.row ∈ g.rowRange then
      some Cell.empty
    else mapGet g.cell_map l
  filled : ∀ l, g'.filledAt l = g.filledAt l
  inters : g'.get_all_intersections = g.get_all_intersections
  rcounts : ∀ r ∈ g.rowRange, g'.count_filled_cells_row r = g.count_filled_cells_row r
  ccounts : ∀ c, c ≠ g.bottom_right_cell_index.col + 1 →
    g'.count_filled_cells_col c = g.count_filled_cells_col c
  czero : g'.count_filled_cells_col (g.bottom_right_cell_index.col + 1) = some 0

theorem add_empty_col_right_spec (g : CrosswordGrid) (hbox : g.box_exact = true) :
    ColAddedRight g (g.add_empty_col (g.bottom_right_cell_index.col + 1)) := by
  obtain ⟨hrr, hcc, hnodup, hsub, hcov⟩ := (box_exact_iff g).1 hbox
  have hout : g.bottom_right_cell_index.col + 1 < g.top_left_cell_index.col ∨
      g.bottom_right_cell_index.col < g.bottom_right_cell_index.col + 1 := by omega
  have hcm := add_empty_col_cell_map g hbox hout
  have hbounds := @add_empty_col_high_bounds g (g.bottom_right_cell_index.col + 1)
    (by omega)
  set g' := g.add_empty_col (g.bottom_right_cell_index.col + 1) with hg'
  have hwm : g'.word_map = g.word_map := add_empty_col_word_map g _
  have hget : ∀ l, mapGet g'.cell_map l =
      if l.col = g.bottom_right_cell_index.col + 1 ∧ l.row ∈ g.rowRange then
        some Cell.empty
      else mapGet g.cell_map l := by
    intro l
    rw [hcm]
    by_cases hmem : l.col = g.bottom_right_cell_index.col + 1 ∧ l.row ∈ g.rowRange
    · rw [if_pos hmem]
      obtain ⟨hm1, hm2⟩ := hmem
      have hnone : mapGet g.cell_map l = none := by
        apply box_exact_get_none hbox
        rw [mem_boxLocations]
        intro hc
        omega
      rw [mapGet_append_of_none hnone]
      apply mapGet_pairs_some
      refine ⟨l.row, hm2, ?_⟩
      obtain ⟨r, c⟩ := l
      dsimp only at hm1
      rw [hm1]
    · rw [if_neg hmem]
      cases hg : mapGet g.cell_map l with
      | some cell => exact mapGet_append_of_some hg
      | none =>
        rw [mapGet_append_of_none hg]
        apply mapGet_pairs_none
        intro r hr hrk
        apply hmem
        constructor
        · rw [← hrk]
        · rw [← hrk]
          exact hr
  have hrows : g'.rowRange = g.rowRange := by
    unfold CrosswordGrid.rowRange
    rw [hbounds.1, hbounds.2]
  have hcols2 : g'.colRange = g.colRange ++ [g.bottom_right_cell_index.col + 1] := by
    unfold CrosswordGrid.colRange
    rw [hbounds.1, hbounds.2]
    dsimp only
    have hstep : g.bottom_right_cell_index.col + 1 - 1 = g.bottom_right_cell_index.col := by
      omega
    rw [intRange_snoc (by omega), hstep]
  refine ⟨?_, hwm, hbounds.1, hbounds.2, hget, ?_, ?_, ?_, ?_, ?_⟩
  · rw [box_exact_iff]
    refine ⟨?_, ?_, ?_, ?_, ?_⟩
    · rw [hbounds.1, hbounds.2]
      simp only
      omega
    · rw [hbounds.1, hbounds.2]
      simp only
      omega
    · rw [hcm, List.map_append]
      rw [List.nodup_append]
      refine ⟨hnodup, ?_, ?_⟩
      · rw [List.map_map]
        apply List.Nodup.map
        · intro a b hab
          simpa using congrArg Location.row hab
        · exact intRange_nodup _ _
      · intro k hk1 hk2
        rw [List.map_map] at hk2
        obtain ⟨r, hr, rfl⟩ := List.mem_map.1 hk2
        obtain ⟨p, hp, hpk⟩ := List.mem_map.1 hk1
        have := hsub p hp
        rw [hpk] at this
        rw [mem_boxLocations] at this
        simp only [Function.comp_apply] at this
        omega
    · intro p hp
      rw [hcm] at hp
      rw [mem_boxLocations, hbounds.1, hbounds.2]
      rcases List.mem_append.1 hp with hp | hp
      · have := hsub p hp
        rw [mem_boxLocations] at this
        simp only
        omega
      · obtain ⟨r, hr, rfl⟩ := List.mem_map.1 hp
        simp only [CrosswordGrid.rowRange, mem_intRange] at hr
        simp only
        omega
    · intro l hl
      rw [mem_boxLocations, hbounds.1, hbounds.2] at hl
      simp only at hl
      rw [hget l]
      by_cases hc0 : l.col = g.bottom_right_cell_index.col + 1
      · rw [if_pos ⟨hc0, by rw [CrosswordGrid.rowRange, mem_intRange]; omega⟩]
        rfl
      · rw [if_neg (fun hc => hc0 hc.1)]
        apply hcov
        rw [mem_boxLocations]
        omega
  · apply filledAt_eq_of_get
    intro l
    rw [hget l]
    by_cases hmem : l.col = g.bottom_right_cell_index.col + 1 ∧ l.row ∈ g.rowRange
    · rw [if_pos hmem]
      obtain ⟨hm1, hm2⟩ := hmem
      right
      left
      refine ⟨rfl, box_exact_get_none hbox ?_⟩
      rw [mem_boxLocations]
      intro hc
      omega
    · rw [if_neg hmem]
      left
      rfl
  · apply get_all_intersections_of_append_empties hcm
    intro p hp
    obtain ⟨r, hr, rfl⟩ := List.mem_map.1 hp
    rfl
  · -- row counts
    intro r hr
    unfold CrosswordGrid.count_filled_cells_row
    rw [hcols2, List.map_append, countFilled_append]
    have hrest : countFilled g'.cell_map
        (g.colRange.map (fun c => (⟨r, c⟩ : Location))) =
        countFilled g.cell_map (g.colRange.map (fun c => (⟨r, c⟩ : Location))) := by
      apply countFilled_congr
      intro l hl
      obtain ⟨c, hc, rfl⟩ := List.mem_map.1 hl
      rw [hget]
      apply if_neg
      simp only [CrosswordGrid.colRange, mem_intRange] at hc
      intro hcon
      obtain ⟨hcon1, hcon2⟩ := hcon
      dsimp only at hcon1
      omega
    have hnew : mapGet g'.cell_map
        (⟨r, g.bottom_right_cell_index.col + 1⟩ : Location) = some Cell.empty := by
      rw [hget]
      exact if_pos ⟨rfl, hr⟩
    have hsingle : countFilled g'.cell_map
        ([g.bottom_right_cell_index.col + 1].map (fun c => (⟨r, c⟩ : Location))) =
        some 0 := by
      simp [countFilled, hnew, Cell.contains_letter, Cell.empty]
    rw [hrest, hsingle]
    cases countFilled g.cell_map (g.colRange.map (fun c => (⟨r, c⟩ : Location))) with
    | none => rfl
    | some n => simp
  · intro c hc
    apply count_col_eq_of g g' c hrows
    intro r hr
    rw [hget]
    exact if_neg (fun hcon => hc hcon.1)
  · apply count_col_zero_of_empty
    intro r hr
    rw [hget]
    rw [hrows] at hr
    exact if_pos ⟨rfl, hr⟩

/-! ### remove_row / remove_col -/

theorem remove_row_cell_map_raw (g : CrosswordGrid) (row : Int) :
    (g.remove_row row).cell_map =
      g.colRange.foldl (fun m c => mapRemove m (⟨row, c⟩ : Location)) g.cell_map := by
  simp only [CrosswordGrid.remove_row]
  split
  · rfl
  · split <;> rfl

theorem remove_row_word_map (g : CrosswordGrid) (row : Int) :
    (g.remove_row row).word_map = g.word_map := by
  simp only [CrosswordGrid.remove_row]
  split
  · rfl
  · split <;> rfl

theorem remove_col_cell_map_raw (g : CrosswordGrid) (col : Int) :
    (g.remove_col col).cell_map =
      g.rowRange.foldl (fun m r => mapRemove m (⟨r, col⟩ : Location)) g.cell_map := by
  simp only [CrosswordGrid.remove_col]
  split
  · rfl
  · split <;> rfl

theorem remove_col_word_map (g : CrosswordGrid) (col : Int) :
    (g.remove_col col).word_map = g.word_map := by
  simp only [CrosswordGrid.remove_col]
  split
  · rfl
  · split <;> rfl

theorem remove_row_top_bounds (g : CrosswordGrid)
    (hne : g.top_left_cell_index.row ≠ g.bottom_right_cell_index.row) :
    (g.remove_row g.top_left_cell_index.row).top_left_cell_index =
      ⟨g.top_left_cell_index.row + 1, g.top_left_cell_index.col⟩ ∧
    (g.remove_row g.top_left_cell_index.row).bottom_right_cell_index =
      g.bottom_right_cell_index := by
  simp only [CrosswordGrid.remove_row]
  rw [if_neg (fun hc => hne hc), if_pos trivial]
  refine ⟨?_, rfl⟩
  dsimp only
  unfold Location.relative_location
  simp only [Location.mk.injEq]
  constructor
  · first
    | trivial
    | omega
  · first
    | trivial
    | omega

theorem remove_row_bottom_bounds (g : CrosswordGrid) :
    (g.remove_row g.bottom_right_cell_index.row).top_left_cell_index =
      g.top_left_cell_index ∧
    (g.remove_row g.bottom_right_cell_index.row).bottom_right_cell_index =
      ⟨g.bottom_right_cell_index.row - 1, g.bottom_right_cell_index.col⟩ := by
  simp only [CrosswordGrid.remove_row]
  rw [if_pos trivial]
  refine ⟨rfl, ?_⟩
  dsimp only
  unfold Location.relative_location
  simp only [Location.mk.injEq]
  constructor
  · first
    | trivial
    | omega
  · first
    | trivial
    | omega

theorem remove_col_left_bounds (g : CrosswordGrid)
    (hne : g.top_left_cell_index.col ≠ g.bottom_right_cell_index.col) :
    (g.remove_col g.top_left_cell_index.col).top_left_cell_index =
      ⟨g.top_left_cell_index.row, g.top_left_cell_index.col + 1⟩ ∧
    (g.remove_col g.top_left_cell_index.col).bottom_right_cell_index =
      g.bottom_right_cell_index := by
  simp only [CrosswordGrid.remove_col]
  rw [if_neg (fun hc => hne hc), if_pos trivial]
  refine ⟨?_, rfl⟩
  dsimp only
  unfold Location.relative_location
  simp only [Location.mk.injEq]
  constructor
  · first
    | trivial
    | omega
  · first
    | trivial
    | omega

theorem remove_col_right_bounds (g : CrosswordGrid) :
    (g.remove_col g.bottom_right_cell_index.col).top_left_cell_index =
      g.top_left_cell_index ∧
    (g.remove_col g.bottom_right_cell_index.col).bottom_right_cell_index =
      ⟨g.bottom_right_cell_index.row, g.bottom_right_cell_index.col - 1⟩ := by
  simp only [CrosswordGrid.remove_col]
  rw [if_pos trivial]
  refine ⟨rfl, ?_⟩
  dsimp only
  unfold Location.relative_location
  simp only [Location.mk.injEq]
  constructor
  · first
    | trivial
    | omega
  · first
    | trivial
    | omega

theorem remove_row_get (g : CrosswordGrid) (row : Int) (l : Location) :
    mapGet (g.remove_row row).cell_map l =
      if l.row = row ∧ l.col ∈ g.colRange then none else mapGet g.cell_map l := by
  rw [remove_row_cell_map_raw, mapGet_foldl_mapRemove]
  by_cases hmem : l.row = row ∧ l.col ∈ g.colRange
  · rw [if_pos hmem, if_pos]
    obtain ⟨hm1, hm2⟩ := hmem
    refine List.mem_map.2 ⟨l.col, hm2, ?_⟩
    obtain ⟨r, c⟩ := l
    dsimp only at hm1
    rw [hm1]
  · rw [if_neg hmem, if_neg]
    intro hc
    obtain ⟨c, hcmem, hck⟩ := List.mem_map.1 hc
    apply hmem
    constructor
    · rw [← hck]
    · rw [← hck]
      exact hcmem

theorem remove_col_get (g : CrosswordGrid) (col : Int) (l : Location) :
    mapGet (g.remove_col col).cell_map l =
      if l.col = col ∧ l.row ∈ g.rowRange then none else mapGet g.cell_map l := by
  rw [remove_col_cell_map_raw, mapGet_foldl_mapRemove]
  by_cases hmem : l.col = col ∧ l.row ∈ g.rowRange
  · rw [if_pos hmem, if_pos]
    obtain ⟨hm1, hm2⟩ := hmem
    refine List.mem_map.2 ⟨l.row, hm2, ?_⟩
    obtain ⟨r, c⟩ := l
    dsimp only at hm1
    rw [hm1]
  · rw [if_neg hmem, if_neg]
    intro hc
    obtain ⟨r, hrmem, hrk⟩ := List.mem_map.1 hc
    apply hmem
    constructor
    · rw [← hrk]
    · rw [← hrk]
      exact hrmem

/-- What `remove_row top` does to a well-formed grid whose top row holds no
letter. -/
structure RowRemovedTop (g g' : CrosswordGrid) : Prop where
  box : g'.box_exact = true
  wm : g'.word_map = g.word_map
  tl : g'.top_left_cell_index =
    ⟨g.top_left_cell_index.row + 1, g.top_left_cell_index.col⟩
  br : g'.bottom_right_cell_index = g.bottom_right_cell_index
  get : ∀ l, mapGet g'.cell_map l =
    if l.row = g.top_left_cell_index.row ∧ l.col ∈ g.colRange then none
    else mapGet g.cell_map l
  filled : ∀ l, g'.filledAt l = g.filledAt l
  inters : g'.get_all_intersections = g.get_all_intersections
  ccounts : ∀ c ∈ g.colRange, g'.count_filled_cells_col c = g.count_filled_cells_col c
  rcounts : ∀ r, r ≠ g.top_left_cell_index.row →
    g'.count_filled_cells_row r = g.count_filled_cells_row r

theorem remove_row_top_spec (g : CrosswordGrid) (hbox : g.box_exact = true)
    (hlt : g.top_left_cell_index.row < g.bottom_right_cell_index.row)
    (hzero : g.count_filled_cells_row g.top_left_cell_index.row = some 0) :
    RowRemovedTop g (g.remove_row g.top_left_cell_index.row) := by
  obtain ⟨hrr, hcc, hnodup, hsub, hcov⟩ := (box_exact_iff g).1 hbox
  have hbounds := remove_row_top_bounds g (by omega)
  set g' := g.remove_row g.top_left_cell_index.row with hg'
  have hget := remove_row_get g g.top_left_cell_index.row
  have hwm : g'.word_map = g.word_map := remove_row_word_map g _
  have hz : ∀ c ∈ g.colRange, ∃ cell,
      mapGet g.cell_map (⟨g.top_left_cell_index.row, c⟩ : Location) = some cell ∧
      cell.contains_letter = false := by
    intro c hc
    have := (countFilled_zero_iff g.cell_map _).1 hzero
      (⟨g.top_left_cell_index.row, c⟩ : Location) (List.mem_map_of_mem _ hc)
    exact this
  have hcols : g'.colRange = g.colRange := by
    unfold CrosswordGrid.colRange
    rw [hbounds.1, hbounds.2]
  have hrows : g'.rowRange =
      intRange (g.top_left_cell_index.row + 1) g.bottom_right_cell_index.row := by
    unfold CrosswordGrid.rowRange
    rw [hbounds.1, hbounds.2]
  have hrowsg : g.rowRange = g.top_left_cell_index.row ::
      intRange (g.top_left_cell_index.row + 1) g.bottom_right_cell_index.row := by
    unfold CrosswordGrid.rowRange
    exact intRange_cons (by omega)
  have hnodup2 : (g'.cell_map.map Prod.fst).Nodup := by
    rw [hg', remove_row_cell_map_raw]
    exact mapKeys_foldl_mapRemove_nodup _ _ _ hnodup
  refine ⟨?_, hwm, hbounds.1, hbounds.2, hget, ?_, ?_, ?_, ?_⟩
  · rw [box_exact_iff]
    refine ⟨?_, ?_, hnodup2, ?_, ?_⟩
    · rw [hbounds.1, hbounds.2]
      simp only
      omega
    · rw [hbounds.1, hbounds.2]
      simp only
      omega
    · intro p hp
      have hpm : p ∈ g.cell_map := by
        rw [hg', remove_row_cell_map_raw] at hp
        exact foldl_mapRemove_subset _ _ _ _ hp
      have hpbox := hsub p hpm
      rw [mem_boxLocations] at hpbox
      have hrow : p.1.row ≠ g.top_left_cell_index.row := by
        intro hc
        have h1 := mapGet_isSome_of_mem hp
        rw [hget p.1, if_pos ⟨hc, by rw [CrosswordGrid.colRange, mem_intRange]; omega⟩]
          at h1
        simp at h1
      rw [mem_boxLocations, hbounds.1, hbounds.2]
      simp only
      omega
    · intro l hl
      rw [mem_boxLocations, hbounds.1, hbounds.2] at hl
      simp only at hl
      rw [hget l, if_neg (fun hc => by omega : ¬ (l.row = g.top_left_cell_index.row ∧
        l.col ∈ g.colRange))]
      apply hcov
      rw [mem_boxLocations]
      omega
  · apply filledAt_eq_of_get
    intro l
    rw [hget l]
    by_cases hmem : l.row = g.top_left_cell_index.row ∧ l.col ∈ g.colRange
    · rw [if_pos hmem]
      right
      right
      obtain ⟨hm1, hm2⟩ := hmem
      obtain ⟨cell, hcg, hcl⟩ := hz l.col hm2
      refine ⟨rfl, cell, ?_, hcl⟩
      rw [← hcg]
      congr 1
      obtain ⟨r, c⟩ := l
      dsimp only at hm1 ⊢
      rw [hm1]
    · rw [if_neg hmem]
      left
      rfl
  · have hfilter : g'.cell_map.filter (fun p => p.2.is_intersection) =
        g.cell_map.filter (fun p => p.2.is_intersection) := by
      rw [hg', remove_row_cell_map_raw]
      apply filter_foldl_mapRemove_of_not
      intro p hp hpk
      obtain ⟨c, hc, hck⟩ := List.mem_map.1 hpk
      obtain ⟨cell, hcg, hcl⟩ := hz c hc
      have hval : mapGet g.cell_map p.1 = some p.2 := mapGet_eq_of_mem_nodup hnodup hp
      rw [← hck, hcg] at hval
      have hv2 : cell = p.2 := Option.some_injective _ hval
      cases hi : p.2.is_intersection with
      | false => rfl
      | true =>
        exact absurd (Cell.is_intersection_contains_letter hi)
          (by rw [← hv2, hcl]; simp)
    unfold CrosswordGrid.get_all_intersections
    rw [hfilter]
  · -- col counts
    intro c hc
    have hrest : countFilled g'.cell_map
        ((intRange (g.top_left_cell_index.row + 1) g.bottom_right_cell_index.row).map
          (fun r => (⟨r, c⟩ : Location))) =
        countFilled g.cell_map
        ((intRange (g.top_left_cell_index.row + 1) g.bottom_right_cell_index.row).map
          (fun r => (⟨r, c⟩ : Location))) := by
      apply countFilled_congr
      intro l hl
      obtain ⟨r, hr, rfl⟩ := List.mem_map.1 hl
      rw [hget]
      apply if_neg
      rw [mem_intRange] at hr
      intro hcon
      obtain ⟨hcon1, hcon2⟩ := hcon
      dsimp only at hcon1
      omega
    obtain ⟨cell, hcg, hcl⟩ := hz c hc
    unfold CrosswordGrid.count_filled_cells_col
    rw [hrows, hrowsg, List.map_cons, countFilled_cons, hcg, hrest]
    cases countFilled g.cell_map
        ((intRange (g.top_left_cell_index.row + 1) g.bottom_right_cell_index.row).map
          (fun r => (⟨r, c⟩ : Location))) with
    | none => rfl
    | some n =>
      show some n = some (if cell.contains_letter then n + 1 else n)
      rw [hcl]
      simp
  · intro r hr
    apply count_row_eq_of g g' r hcols
    intro c hc
    rw [hget]
    exact if_neg (fun hcon => hr hcon.1)

/-- What `remove_row bottom` does to a well-formed grid whose bottom row
holds no letter. -/
structure RowRemovedBottom (g g' : CrosswordGrid) : Prop where
  box : g'.box_exact = true
  wm : g'.word_map = g.word_map
  tl : g'.top_left_cell_index = g.top_left_cell_index
  br : g'.bottom_right_cell_index =
    ⟨g.bottom_right_cell_index.row - 1, g.bottom_right_cell_index.col⟩
  get : ∀ l, mapGet g'.cell_map l =
    if l.row = g.bottom_right_cell_index.row ∧ l.col ∈ g.colRange then none
    else mapGet g.cell_map l
  filled : ∀ l, g'.filledAt l = g.filledAt l
  inters : g'.get_all_intersections = g.get_all_intersections
  ccounts : ∀ c ∈ g.colRange, g'.count_filled_cells_col c = g.count_filled_cells_col c
  rcounts : ∀ r, r ≠ g.bottom_right_cell_index.row →
    g'.count_filled_cells_row r = g.count_filled_cells_row r

theorem remove_row_bottom_spec (g : CrosswordGrid) (hbox : g.box_exact = true)
    (hlt : g.top_left_cell_index.row < g.bottom_right_cell_index.row)
    (hzero : g.count_filled_cells_row g.bottom_right_cell_index.row = some 0) :
    RowRemovedBottom g (g.remove_row g.bottom_right_cell_index.row) := by
  obtain ⟨hrr, hcc, hnodup, hsub, hcov⟩ := (box_exact_iff g).1 hbox
  have hbounds := remove_row_bottom_bounds g
  set g' := g.remove_row g.bottom_right_cell_index.row with hg'
  have hget := remove_row_get g g.bottom_right_cell_index.row
  have hwm : g'.word_map = g.word_map := remove_row_word_map g _
  have hz : ∀ c ∈ g.colRange, ∃ cell,
      mapGet g.cell_map (⟨g.bottom_right_cell_index.row, c⟩ : Location) = some cell ∧
      cell.contains_letter = false := by
    intro c hc
    exact (countFilled_zero_iff g.cell_map _).1 hzero
      (⟨g.bottom_right_cell_index.row, c⟩ : Location) (List.mem_map_of_mem _ hc)
  have hcols : g'.colRange = g.colRange := by
    unfold CrosswordGrid.colRange
    rw [hbounds.1, hbounds.2]
  have hrows : g'.rowRange =
      intRange g.top_left_cell_index.row (g.bottom_right_cell_index.row - 1) := by
    unfold CrosswordGrid.rowRange
    rw [hbounds.1, hbounds.2]
  have hrowsg : g.rowRange =
      intRange g.top_left_cell_index.row (g.bottom_right_cell_index.row - 1) ++
        [g.bottom_right_cell_index.row] := by
    unfold CrosswordGrid.rowRange
    exact intRange_snoc (by omega)
  have hnodup2 : (g'.cell_map.map Prod.fst).Nodup := by
    rw [hg', remove_row_cell_map_raw]
    exact mapKeys_foldl_mapRemove_nodup _ _ _ hnodup
  refine ⟨?_, hwm, hbounds.1, hbounds.2, hget, ?_, ?_, ?_, ?_⟩
  · rw [box_exact_iff]
    refine ⟨?_, ?_, hnodup2, ?_, ?_⟩
    · rw [hbounds.1, hbounds.2]
      simp only
      omega
    · rw [hbounds.1, hbounds.2]
      simp only
      omega
    · intro p hp
      have hpm : p ∈ g.cell_map := by
        rw [hg', remove_row_cell_map_raw] at hp
        exact foldl_mapRemove_subset _ _ _ _ hp
      have hpbox := hsub p hpm
      rw [mem_boxLocations] at hpbox
      have hrow : p.1.row ≠ g.bottom_right_cell_index.row := by
        intro hc
        have h1 := mapGet_isSome_of_mem hp
        rw [hget p.1, if_pos ⟨hc, by rw [CrosswordGrid.colRange, mem_intRange]; omega⟩]
          at h1
        simp at h1
      rw [mem_boxLocations, hbounds.1, hbounds.2]
      simp only
      omega
    · intro l hl
      rw [mem_boxLocations, hbounds.1, hbounds.2] at hl
      simp only at hl
      rw [hget l, if_neg (fun hc => by omega : ¬ (l.row = g.bottom_right_cell_index.row ∧
        l.col ∈ g.colRange))]
      apply hcov
      rw [mem_boxLocations]
      omega
  · apply filledAt_eq_of_get
    intro l
    rw [hget l]
    by_cases hmem : l.row = g.bottom_right_cell_index.row ∧ l.col ∈ g.colRange
    · rw [if_pos hmem]
      right
      right
      obtain ⟨hm1, hm2⟩ := hmem
      obtain ⟨cell, hcg, hcl⟩ := hz l.col hm2
      refine ⟨rfl, cell, ?_, hcl⟩
      rw [← hcg]
      congr 1
      obtain ⟨r, c⟩ := l
      dsimp only at hm1 ⊢
      rw [hm1]
    · rw [if_neg hmem]
      left
      rfl
  · have hfilter : g'.cell_map.filter (fun p => p.2.is_intersection) =
        g.cell_map.filter (fun p => p.2.is_intersection) := by
      rw [hg', remove_row_cell_map_raw]
      apply filter_foldl_mapRemove_of_not
      intro p hp hpk
      obtain ⟨c, hc, hck⟩ := List.mem_map.1 hpk
      obtain ⟨cell, hcg, hcl⟩ := hz c hc
      have hval : mapGet g.cell_map p.1 = some p.2 := mapGet_eq_of_mem_nodup hnodup hp
      rw [← hck, hcg] at hval
      have hv2 : cell = p.2 := Option.some_injective _ hval
      cases hi : p.2.is_intersection with
      | false => rfl
      | true =>
        exact absurd (Cell.is_intersection_contains_letter hi)
          (by rw [← hv2, hcl]; simp)
    unfold CrosswordGrid.get_all_intersections
    rw [hfilter]
  · -- col counts
    intro c hc
    have hrest : countFilled g'.cell_map
        ((intRange g.top_left_cell_index.row (g.bottom_right_cell_index.row - 1)).map
          (fun r => (⟨r, c⟩ : Location))) =
        countFilled g.cell_map
        ((intRange g.top_left_cell_index.row (g.bottom_right_cell_index.row - 1)).map
          (fun r => (⟨r, c⟩ : Location))) := by
      apply countFilled_congr
      intro l hl
      obtain ⟨r, hr, rfl⟩ := List.mem_map.1 hl
      rw [hget]
      apply if_neg
      rw [mem_intRange] at hr
      intro hcon
      obtain ⟨hcon1, hcon2⟩ := hcon
      dsimp only at hcon1
      omega
    obtain ⟨cell, hcg, hcl⟩ := hz c hc
    have hsingle : countFilled g.cell_map
        ([g.bottom_right_cell_index.row].map (fun r => (⟨r, c⟩ : Location))) =
        some 0 := by
      simp [countFilled, hcg, hcl]
    unfold CrosswordGrid.count_filled_cells_col
    rw [hrows, hrowsg, List.map_append, countFilled_append, hsingle, hrest]
    cases countFilled g.cell_map
        ((intRange g.top_left_cell_index.row (g.bottom_right_cell_index.row - 1)).map
          (fun r => (⟨r, c⟩ : Location))) with
    | none => rfl
    | some n => simp
  · intro r hr
    apply count_row_eq_of g g' r hcols
    intro c hc
    rw [hget]
    exact if_neg (fun hcon => hr hcon.1)

/-- What `remove_col left` does to a well-formed grid whose left column holds
no letter. -/
structure ColRemovedLeft (g g' : CrosswordGrid) : Prop where
  box : g'.box_exact = true
  wm : g'.word_map = g.word_map
  tl : g'.top_left_cell_index =
    ⟨g.top_left_cell_index.row, g.top_left_cell_index.col + 1⟩
  br : g'.bottom_right_cell_index = g.bottom_right_cell_index
  get : ∀ l, mapGet g'.cell_map l =
    if l.col = g.top_left_cell_index.col ∧ l.row ∈ g.rowRange then none
    else mapGet g.cell_map l
  filled : ∀ l, g'.filledAt l = g.filledAt l
  inters : g'.get_all_intersections = g.get_all_intersections
  rcounts : ∀ r ∈ g.rowRange, g'.count_filled_cells_row r = g.count_filled_cells_row r
  ccounts : ∀ c, c ≠ g.top_left_cell_index.col →
    g'.count_filled_cells_col c = g.count_filled_cells_col c

theorem remove_col_left_spec (g : CrosswordGrid) (hbox : g.box_exact = true)
    (hlt : g.top_left_cell_index.col < g.bottom_right_cell_index.col)
    (hzero : g.count_filled_cells_col g.top_left_cell_index.col = some 0) :
    ColRemovedLeft g (g.remove_col g.top_left_cell_index.col) := by
  obtain ⟨hrr, hcc, hnodup, hsub, hcov⟩ := (box_exact_iff g).1 hbox
  have hbounds := remove_col_left_bounds g (by omega)
  set g' := g.remove_col g.top_left_cell_index.col with hg'
  have hget := remove_col_get g g.top_left_cell_index.col
  have hwm : g'.word_map = g.word_map := remove_col_word_map g _
  have hz : ∀ r ∈ g.rowRange, ∃ cell,
      mapGet g.cell_map (⟨r, g.top_left_cell_index.col⟩ : Location) = some cell ∧
      cell.contains_letter = false := by
    intro r hr
    exact (countFilled_zero_iff g.cell_map _).1 hzero
      (⟨r, g.top_left_cell_index.col⟩ : Location) (List.mem_map_of_mem _ hr)
  have hrows : g'.rowRange = g.rowRange := by
    unfold CrosswordGrid.rowRange
    rw [hbounds.1, hbounds.2]
  have hcols : g'.colRange =
      intRange (g.top_left_cell_index.col + 1) g.bottom_right_cell_index.col := by
    unfold CrosswordGrid.colRange
    rw [hbounds.1, hbounds.2]
  have hcolsg : g.colRange = g.top_left_cell_index.col ::
      intRange (g.top_left_cell_index.col + 1) g.bottom_right_cell_index.col := by
    unfold CrosswordGrid.colRange
    exact intRange_cons (by omega)
  have hnodup2 : (g'.cell_map.map Prod.fst).Nodup := by
    rw [hg', remove_col_cell_map_raw]
    exact mapKeys_foldl_mapRemove_nodup _ _ _ hnodup
  refine ⟨?_, hwm, hbounds.1, hbounds.2, hget, ?_, ?_, ?_, ?_⟩
  · rw [box_exact_iff]
    refine ⟨?_, ?_, hnodup2, ?_, ?_⟩
    · rw [hbounds.1, hbounds.2]
      simp only
      omega
    · rw [hbounds.1, hbounds.2]
      simp only
      omega
    · intro p hp
      have hpm : p ∈ g.cell_map := by
        rw [hg', remove_col_cell_map_raw] at hp
        exact foldl_mapRemove_subset _ _ _ _ hp
      have hpbox := hsub p hpm
      rw [mem_boxLocations] at hpbox
      have hcol : p.1.col ≠ g.top_left_cell_index.col := by
        intro hc
        have h1 := mapGet_isSome_of_mem hp
        rw [hget p.1, if_pos ⟨hc, by rw [CrosswordGrid.rowRange, mem_intRange]; omega⟩]
          at h1
        simp at h1
      rw [mem_boxLocations, hbounds.1, hbounds.2]
      simp only
      omega
    · intro l hl
      rw [mem_boxLocations, hbounds.1, hbounds.2] at hl
      simp only at hl
      rw [hget l, if_neg (fun hc => by omega : ¬ (l.col = g.top_left_cell_index.col ∧
        l.row ∈ g.rowRange))]
      apply hcov
      rw [mem_boxLocations]
      omega
  · apply filledAt_eq_of_get
    intro l
    rw [hget l]
    by_cases hmem : l.col = g.top_left_cell_index.col ∧ l.row ∈ g.rowRange
    · rw [if_pos hmem]
      right
      right
      obtain ⟨hm1, hm2⟩ := hmem
      obtain ⟨cell, hcg, hcl⟩ := hz l.row hm2
      refine ⟨rfl, cell, ?_, hcl⟩
      rw [← hcg]
      congr 1
      obtain ⟨r, c⟩ := l
      dsimp only at hm1 ⊢
      rw [hm1]
    · rw [if_neg hmem]
      left
      rfl
  · have hfilter : g'.cell_map.filter (fun p => p.2.is_intersection) =
        g.cell_map.filter (fun p => p.2.is_intersection) := by
      rw [hg', remove_col_cell_map_raw]
      apply filter_foldl_mapRemove_of_not
      intro p hp hpk
      obtain ⟨r, hr, hrk⟩ := List.mem_map.1 hpk
      obtain ⟨cell, hcg, hcl⟩ := hz r hr
      have hval : mapGet g.cell_map p.1 = some p.2 := mapGet_eq_of_mem_nodup hnodup hp
      rw [← hrk, hcg] at hval
      have hv2 : cell = p.2 := Option.some_injective _ hval
      cases hi : p.2.is_intersection with
      | false => rfl
      | true =>
        exact absurd (Cell.is_intersection_contains_letter hi)
          (by rw [← hv2, hcl]; simp)
    unfold CrosswordGrid.get_all_intersections
    rw [hfilter]
  · -- row counts
    intro r hr
    have hrest : countFilled g'.cell_map
        ((intRange (g.top_left_cell_index.col + 1) g.bottom_right_cell_index.col).map
          (fun c => (⟨r, c⟩ : Location))) =
        countFilled g.cell_map
        ((intRange (g.top_left_cell_index.col + 1) g.bottom_right_cell_index.col).map
          (fun c => (⟨r, c⟩ : Location))) := by
      apply countFilled_congr
      intro l hl
      obtain ⟨c, hc, rfl⟩ := List.mem_map.1 hl
      rw [hget]
      apply if_neg
      rw [mem_intRange] at hc
      intro hcon
      obtain ⟨hcon1, hcon2⟩ := hcon
      dsimp only at hcon1
      omega
    obtain ⟨cell, hcg, hcl⟩ := hz r hr
    unfold CrosswordGrid.count_filled_cells_row
    rw [hcols, hcolsg, List.map_cons, countFilled_cons, hcg, hrest]
    cases countFilled g.cell_map
        ((intRange (g.top_left_cell_index.col + 1) g.bottom_right_cell_index.col).map
          (fun c => (⟨r, c⟩ : Location))) with
    | none => rfl
    | some n =>
      show some n = some (if cell.contains_letter then n + 1 else n)
      rw [hcl]
      simp
  · intro c hc
    apply count_col_eq_of g g' c hrows
    intro r hr
    rw [hget]
    exact if_neg (fun hcon => hc hcon.1)

/-- What `remove_col right` does to a well-formed grid whose right column
holds no letter. -/
structure ColRemovedRight (g g' : CrosswordGrid) : Prop where
  box : g'.box_exact = true
  wm : g'.word_map = g.word_map
  tl : g'.top_left_cell_index = g.top_left_cell_index
  br : g'.bottom_right_cell_index =
    ⟨g.bottom_right_cell_index.row, g.bottom_right_cell_index.col - 1⟩
  get : ∀ l, mapGet g'.cell_map l =
    if l.col = g.bottom_right_cell_index.col ∧ l.row ∈ g.rowRange then none
    else mapGet g.cell_map l
  filled : ∀ l, g'.filledAt l = g.filledAt l
  inters : g'.get_all_intersections = g.get_all_intersections
  rcounts : ∀ r ∈ g.rowRange, g'.count_filled_cells_row r = g.count_filled_cells_row r
  ccounts : ∀ c, c ≠ g.bottom_right_cell_index.col →
    g'.count_filled_cells_col c = g.count_filled_cells_col c

theorem remove_col_right_spec (g : CrosswordGrid) (hbox : g.box_exact = true)
    (hlt : g.top_left_cell_index.col < g.bottom_right_cell_index.col)
    (hzero : g.count_filled_cells_col g.bottom_right_cell_index.col = some 0) :
    ColRemovedRight g (g.remove_col g.bottom_right_cell_index.col) := by
  obtain ⟨hrr, hcc, hnodup, hsub, hcov⟩ := (box_exact_iff g).1 hbox
  have hbounds := remove_col_right_bounds g
  set g' := g.remove_col g.bottom_right_cell_index.col with hg'
  have hget := remove_col_get g g.bottom_right_cell_index.col
  have hwm : g'.word_map = g.word_map := remove_col_word_map g _
  have hz : ∀ r ∈ g.rowRange, ∃ cell,
      mapGet g.cell_map (⟨r, g.bottom_right_cell_index.col⟩ : Location) = some cell ∧
      cell.contains_letter = false := by
    intro r hr
    exact (countFilled_zero_iff g.cell_map _).1 hzero
      (⟨r, g.bottom_right_cell_index.col⟩ : Location) (List.mem_map_of_mem _ hr)
  have hrows : g'.rowRange = g.rowRange := by
    unfold CrosswordGrid.rowRange
    rw [hbounds.1, hbounds.2]
  have hcols : g'.colRange =
      intRange g.top_left_cell_index.col (g.bottom_right_cell_index.col - 1) := by
    unfold CrosswordGrid.colRange
    rw [hbounds.1, hbounds.2]
  have hcolsg : g.colRange =
      intRange g.top_left_cell_index.col (g.bottom_right_cell_index.col - 1) ++
        [g.bottom_right_cell_index.col] := by
    unfold CrosswordGrid.colRange
    exact intRange_snoc (by omega)
  have hnodup2 : (g'.cell_map.map Prod.fst).Nodup := by
    rw [hg', remove_col_cell_map_raw]
    exact mapKeys_foldl_mapRemove_nodup _ _ _ hnodup
  refine ⟨?_, hwm, hbounds.1, hbounds.2, hget, ?_, ?_, ?_, ?_⟩
  · rw [box_exact_iff]
    refine ⟨?_, ?_, hnodup2, ?_, ?_⟩
    · rw [hbounds.1, hbounds.2]
      simp only
      omega
    · rw [hbounds.1, hbounds.2]
      simp only
      omega
    · intro p hp
      have hpm : p ∈ g.cell_map := by
        rw [hg', remove_col_cell_map_raw] at hp
        exact foldl_mapRemove_subset _ _ _ _ hp
      have hpbox := hsub p hpm
      rw [mem_boxLocations] at hpbox
      have hcol : p.1.col ≠ g.bottom_right_cell_index.col := by
        intro hc
        have h1 := mapGet_isSome_of_mem hp
        rw [hget p.1, if_pos ⟨hc, by rw [CrosswordGrid.rowRange, mem_intRange]; omega⟩]
          at h1
        simp at h1
      rw [mem_boxLocations, hbounds.1, hbounds.2]
      simp only
      omega
    · intro l hl
      rw [mem_boxLocations, hbounds.1, hbounds.2] at hl
      simp only at hl
      rw [hget l, if_neg (fun hc => by omega : ¬ (l.col = g.bottom_right_cell_index.col ∧
        l.row ∈ g.rowRange))]
      apply hcov
      rw [mem_boxLocations]
      omega
  · apply filledAt_eq_of_get
    intro l
    rw [hget l]
    by_cases hmem : l.col = g.bottom_right_cell_index.col ∧ l.row ∈ g.rowRange
    · rw [if_pos hmem]
      right
      right
      obtain ⟨hm1, hm2⟩ := hmem
      obtain ⟨cell, hcg, hcl⟩ := hz l.row hm2
      refine ⟨rfl, cell, ?_, hcl⟩
      rw [← hcg]
      congr 1
      obtain ⟨r, c⟩ := l
      dsimp only at hm1 ⊢
      rw [hm1]
    · rw [if_neg hmem]
      left
      rfl
  · have hfilter : g'.cell_map.filter (fun p => p.2.is_intersection) =
        g.cell_map.filter (fun p => p.2.is_intersection) := by
      rw [hg', remove_col_cell_map_raw]
      apply filter_foldl_mapRemove_of_not
      intro p hp hpk
      obtain ⟨r, hr, hrk⟩ := List.mem_map.1 hpk
      obtain ⟨cell, hcg, hcl⟩ := hz r hr
      have hval : mapGet g.cell_map p.1 = some p.2 := mapGet_eq_of_mem_nodup hnodup hp
      rw [← hrk, hcg] at hval
      have hv2 : cell = p.2 := Option.some_injective _ hval
      cases hi : p.2.is_intersection with
      | false => rfl
      | true =>
        exact absurd (Cell.is_intersection_contains_letter hi)
          (by rw [← hv2, hcl]; simp)
    unfold CrosswordGrid.get_all_intersections
    rw [hfilter]
  · -- row counts
    intro r hr
    have hrest : countFilled g'.cell_map
        ((intRange g.top_left_cell_index.col (g.bottom_right_cell_index.col - 1)).map
          (fun c => (⟨r, c⟩ : Location))) =
        countFilled g.cell_map
        ((intRange g.top_left_cell_index.col (g.bottom_right_cell_index.col - 1)).map
          (fun c => (⟨r, c⟩ : Location))) := by
      apply countFilled_congr
      intro l hl
      obtain ⟨c, hc, rfl⟩ := List.mem_map.1 hl
      rw [hget]
      apply if_neg
      rw [mem_intRange] at hc
      intro hcon
      obtain ⟨hcon1, hcon2⟩ := hcon
      dsimp only at hcon1
      omega
    obtain ⟨cell, hcg, hcl⟩ := hz r hr
    have hsingle : countFilled g.cell_map
        ([g.bottom_right_cell_index.col].map (fun c => (⟨r, c⟩ : Location))) =
        some 0 := by
      simp [countFilled, hcg, hcl]
    unfold CrosswordGrid.count_filled_cells_row
    rw [hcols, hcolsg, List.map_append, countFilled_append, hsingle, hrest]
    cases countFilled g.cell_map
        ((intRange g.top_left_cell_index.col (g.bottom_right_cell_index.col - 1)).map
          (fun c => (⟨r, c⟩ : Location))) with
    | none => rfl
    | some n => simp
  · intro c hc
    apply count_col_eq_of g g' c hrows
    intro r hr
    rw [hget]
    exact if_neg (fun hcon => hc hcon.1)

/-! ### Composition of grid steps -/

/-- The facts about a grid that every spacing operation preserves. -/
structure GridKept (g g' : CrosswordGrid) : Prop where
  box : g'.box_exact = true
  wm : g'.word_map = g.word_map
  filled : ∀ l, g'.filledAt l = g.filledAt l
  inters : g'.get_all_intersections = g.get_all_intersections

theorem GridKept.trans {g1 g2 g3 : CrosswordGrid} (h12 : GridKept g1 g2)
    (h23 : GridKept g2 g3) : GridKept g1 g3 :=
  ⟨h23.box, h23.wm.trans h12.wm, fun l => (h23.filled l).trans (h12.filled l),
    h23.inters.trans h12.inters⟩

theorem GridKept.refl {g : CrosswordGrid} (hbox : g.box_exact = true) : GridKept g g :=
  ⟨hbox, rfl, fun _ => rfl, rfl⟩

theorem box_exact_mem_of_isSome {g : CrosswordGrid} (hbox : g.box_exact = true)
    {l : Location} (h : (mapGet g.cell_map l).isSome = true) : l ∈ g.boxLocations := by
  obtain ⟨v, hv⟩ := Option.isSome_iff_exists.1 h
  exact ((box_exact_iff g).1 hbox).2.2.2.1 (l, v) (mapGet_eq_some_mem hv)

theorem colRange_nonempty {g : CrosswordGrid} (hbox : g.box_exact = true) :
    g.top_left_cell_index.col ∈ g.colRange := by
  rw [CrosswordGrid.colRange, mem_intRange]
  have := ((box_exact_iff g).1 hbox).2.1
  omega

theorem rowRange_nonempty {g : CrosswordGrid} (hbox : g.box_exact = true) :
    g.top_left_cell_index.row ∈ g.rowRange := by
  rw [CrosswordGrid.rowRange, mem_intRange]
  have := ((box_exact_iff g).1 hbox).1
  omega

theorem to_graph_eq_of_kept {g g' : CrosswordGrid} (hk : GridKept g g') :
    g'.to_graph = g.to_graph := by
  unfold CrosswordGrid.to_graph
  rw [hk.wm, hk.inters]

theorem check_valid_ok_iff (g : CrosswordGrid) :
    g.check_valid_ok = true ↔
      (g.top_left_cell_index.row ≤ g.bottom_right_cell_index.row ∧
       g.top_left_cell_index.col ≤ g.bottom_right_cell_index.col ∧
       (∀ l ∈ g.boxLocations, (mapGet g.cell_map l).isSome = true) ∧
       (∀ p ∈ g.cell_map,
         (match p.2.get_across_word_id with
          | some id => (mapGet g.word_map id).isSome
          | none => true) = true ∧
         (match p.2.get_down_word_id with
          | some id => (mapGet g.word_map id).isSome
          | none => true) = true) ∧
       g.to_graph.is_connected = some true) := by
  unfold CrosswordGrid.check_valid_ok
  simp only [Bool.and_eq_true, List.all_eq_true, decide_eq_true_eq, beq_iff_eq,
    and_assoc]

theorem check_valid_of_kept {g g' : CrosswordGrid} (hk : GridKept g g')
    (hcv : g.check_valid_ok = true) : g'.check_valid_ok = true := by
  obtain ⟨hrr2, hcc2, hnodup2, hsub2, hcov2⟩ := (box_exact_iff g').1 hk.box
  obtain ⟨_, _, _, hids, hconn⟩ := (check_valid_ok_iff g).1 hcv
  rw [check_valid_ok_iff]
  refine ⟨hrr2, hcc2, hcov2, ?_, ?_⟩
  · intro p hp
    obtain ⟨l0, c0⟩ := p
    obtain ⟨st0⟩ := c0
    cases st0 with
    | Empty => exact ⟨rfl, rfl⟩
    | Black => exact ⟨rfl, rfl⟩
    | Filled ch a d =>
      have hgv : mapGet g'.cell_map l0 = some (⟨FillStatus.Filled ch a d⟩ : Cell) :=
        mapGet_eq_of_mem_nodup hnodup2 hp
      have hfg : g.filledAt l0 = some (ch, a, d) := by
        rw [← hk.filled l0]
        unfold CrosswordGrid.filledAt
        rw [hgv]
      unfold CrosswordGrid.filledAt at hfg
      cases hgg : mapGet g.cell_map l0 with
      | none => rw [hgg] at hfg; simp at hfg
      | some cell =>
        rw [hgg] at hfg
        have hcellmem : (l0, cell) ∈ g.cell_map := mapGet_eq_some_mem hgg
        obtain ⟨st⟩ := cell
        cases st with
        | Empty => simp at hfg
        | Black => simp at hfg
        | Filled ch2 a2 d2 =>
          simp only [Option.some.injEq, Prod.mk.injEq] at hfg
          obtain ⟨he1, he2, he3⟩ := hfg
          have hthis := hids (l0, ⟨FillStatus.Filled ch2 a2 d2⟩) hcellmem
          rw [hk.wm]
          simp only [Cell.get_across_word_id, Cell.get_down_word_id]
          simp only [Cell.get_across_word_id, Cell.get_down_word_id] at hthis
          rw [← he2, ← he3]
          exact hthis
  · rw [to_graph_eq_of_kept hk]
    exact hconn

theorem one_buffer_iff (g : CrosswordGrid) :
    g.one_buffer_each_side = true ↔
      (g.count_filled_cells_row g.top_left_cell_index.row = some 0 ∧
       g.count_filled_cells_row g.bottom_right_cell_index.row = some 0 ∧
       g.count_filled_cells_col g.top_left_cell_index.col = some 0 ∧
       g.count_filled_cells_col g.bottom_right_cell_index.col = some 0 ∧
       (∃ k, k ≠ 0 ∧
         g.count_filled_cells_row (g.top_left_cell_index.row + 1) = some k) ∧
       (∃ k, k ≠ 0 ∧
         g.count_filled_cells_row (g.bottom_right_cell_index.row - 1) = some k) ∧
       (∃ k, k ≠ 0 ∧
         g.count_filled_cells_col (g.top_left_cell_index.col + 1) = some k) ∧
       (∃ k, k ≠ 0 ∧
         g.count_filled_cells_col (g.bottom_right_cell_index.col - 1) = some k)) := by
  unfold CrosswordGrid.one_buffer_each_side
  simp only [Bool.and_eq_true, beq_iff_eq, and_assoc]
  constructor
  · rintro ⟨h1, h2, h3, h4, h5, h6, h7, h8⟩
    refine ⟨h1, h2, h3, h4, ?_, ?_, ?_, ?_⟩
    · cases hm : g.count_filled_cells_row (g.top_left_cell_index.row + 1) with
      | none => rw [hm] at h5; simp at h5
      | some k =>
        rw [hm] at h5
        refine ⟨k, ?_, rfl⟩
        simpa using h5
    · cases hm : g.count_filled_cells_row (g.bottom_right_cell_index.row - 1) with
      | none => rw [hm] at h6; simp at h6
      | some k =>
        rw [hm] at h6
        refine ⟨k, ?_, rfl⟩
        simpa using h6
    · cases hm : g.count_filled_cells_col (g.top_left_cell_index.col + 1) with
      | none => rw [hm] at h7; simp at h7
      | some k =>
        rw [hm] at h7
        refine ⟨k, ?_, rfl⟩
        simpa using h7
    · cases hm : g.count_filled_cells_col (g.bottom_right_cell_index.col - 1) with
      | none => rw [hm] at h8; simp at h8
      | some k =>
        rw [hm] at h8
        refine ⟨k, ?_, rfl⟩
        simpa using h8
  · rintro ⟨h1, h2, h3, h4, ⟨k5, hk5, h5⟩, ⟨k6, hk6, h6⟩, ⟨k7, hk7, h7⟩, ⟨k8, hk8, h8⟩⟩
    refine ⟨h1, h2, h3, h4, ?_, ?_, ?_, ?_⟩
    · rw [h5]
      simpa using hk5
    · rw [h6]
      simpa using hk6
    · rw [h7]
      simpa using hk7
    · rw [h8]
      simpa using hk8

theorem remove_rows_top_spec :
    ∀ (fuel : Nat) (g g' : CrosswordGrid),
    CrosswordGrid.remove_rows_top fuel g = some g' →
    g.box_exact = true →
    g.count_filled_cells_row g.top_left_cell_index.row = some 0 →
    GridKept g g' ∧
    g'.bottom_right_cell_index = g.bottom_right_cell_index ∧
    g'.top_left_cell_index.col = g.top_left_cell_index.col ∧
    g.top_left_cell_index.row ≤ g'.top_left_cell_index.row ∧
    (∀ c ∈ g.colRange, g'.count_filled_cells_col c = g.count_filled_cells_col c) ∧
    (∀ r, g'.top_left_cell_index.row ≤ r →
      g'.count_filled_cells_row r = g.count_filled_cells_row r) ∧
    g'.count_filled_cells_row g'.top_left_cell_index.row = some 0 ∧
    (∃ k, k ≠ 0 ∧ g'.count_filled_cells_row (g'.top_left_cell_index.row + 1) = some k)
  | 0, g, g', h, _, _ => by simp [CrosswordGrid.remove_rows_top] at h
  | fuel+1, g, g', h, hbox, hzero => by
    rw [CrosswordGrid.remove_rows_top] at h
    cases hm : g.count_filled_cells_row (g.top_left_cell_index.row + 1) with
    | none =>
      rw [hm] at h
      exact absurd h (by simp)
    | some k =>
      rw [hm] at h
      cases k with
      | succ k2 =>
        have hgg : g = g' := by simpa using h
        subst hgg
        exact ⟨GridKept.refl hbox, rfl, rfl, le_refl _, fun c _ => rfl, fun r _ => rfl,
          hzero, ⟨k2 + 1, by omega, hm⟩⟩
      | zero =>
        have hm2 : countFilled g.cell_map
            (g.colRange.map
              (fun c => (⟨g.top_left_cell_index.row + 1, c⟩ : Location))) = some 0 := hm
        have hlt : g.top_left_cell_index.row < g.bottom_right_cell_index.row := by
          have hcell := (countFilled_isSome_iff g.cell_map _).1 (by rw [hm2]; rfl)
            (⟨g.top_left_cell_index.row + 1, g.top_left_cell_index.col⟩ : Location)
            (List.mem_map_of_mem _ (colRange_nonempty hbox))
          have hmem := box_exact_mem_of_isSome hbox hcell
          rw [mem_boxLocations] at hmem
          simp only at hmem
          omega
        have spec := remove_row_top_spec g hbox hlt hzero
        set g2 := g.remove_row g.top_left_cell_index.row with hg2
        have h2r : g2.top_left_cell_index.row = g.top_left_cell_index.row + 1 := by
          rw [spec.tl]
        have hcols2 : g2.colRange = g.colRange := by
          unfold CrosswordGrid.colRange
          rw [spec.tl, spec.br]
        have hzero2 : g2.count_filled_cells_row g2.top_left_cell_index.row = some 0 := by
          rw [h2r, spec.rcounts _ (by omega)]
          exact hm
        obtain ⟨ihk, ihbr, ihtc, ihtr, ihcc, ihrc, ihz, ihex⟩ :=
          remove_rows_top_spec fuel g2 g' h spec.box hzero2
        refine ⟨GridKept.trans ⟨spec.box, spec.wm, spec.filled, spec.inters⟩ ihk,
          ihbr.trans spec.br, ?_, ?_, ?_, ?_, ihz, ihex⟩
        · rw [ihtc, spec.tl]
        · rw [h2r] at ihtr
          omega
        · intro c hc
          rw [ihcc c (by rw [hcols2]; exact hc), spec.ccounts c hc]
        · intro r hr
          rw [ihrc r hr, spec.rcounts r (by rw [h2r] at ihtr; omega)]

theorem remove_rows_bottom_spec :
    ∀ (fuel : Nat) (g g' : CrosswordGrid),
    CrosswordGrid.remove_rows_bottom fuel g = some g' →
    g.box_exact = true →
    g.count_filled_cells_row g.bottom_right_cell_index.row = some 0 →
    g.count_filled_cells_row g.top_left_cell_index.row = some 0 →
    (∃ k, k ≠ 0 ∧ g.count_filled_cells_row (g.top_left_cell_index.row + 1) = some k) →
    GridKept g g' ∧
    g'.top_left_cell_index = g.top_left_cell_index ∧
    g'.bottom_right_cell_index.col = g.bottom_right_cell_index.col ∧
    g'.bottom_right_cell_index.row ≤ g.bottom_right_cell_index.row ∧
    (∀ c ∈ g.colRange, g'.count_filled_cells_col c = g.count_filled_cells_col c) ∧
    (∀ r, r ≤ g'.bottom_right_cell_index.row →
      g'.count_filled_cells_row r = g.count_filled_cells_row r) ∧
    g'.count_filled_cells_row g'.bottom_right_cell_index.row = some 0 ∧
    (∃ k, k ≠ 0 ∧
      g'.count_filled_cells_row (g'.bottom_right_cell_index.row - 1) = some k)
  | 0, g, g', h, _, _, _, _ => by simp [CrosswordGrid.remove_rows_bottom] at h
  | fuel+1, g, g', h, hbox, hzb, hzt, hnzt => by
    rw [CrosswordGrid.remove_rows_bottom] at h
    cases hm : g.count_filled_cells_row (g.bottom_right_cell_index.row - 1) with
    | none =>
      rw [hm] at h
      exact absurd h (by simp)
    | some k =>
      rw [hm] at h
      cases k with
      | succ k2 =>
        have hgg : g = g' := by simpa using h
        subst hgg
        exact ⟨GridKept.refl hbox, rfl, rfl, le_refl _, fun c _ => rfl, fun r _ => rfl,
          hzb, ⟨k2 + 1, by omega, hm⟩⟩
      | zero =>
        obtain ⟨kt, hkt, hnzteq⟩ := hnzt
        have hrr : g.top_left_cell_index.row ≤ g.bottom_right_cell_index.row :=
          ((box_exact_iff g).1 hbox).1
        have hne1 : g.bottom_right_cell_index.row ≠ g.top_left_cell_index.row + 1 := by
          intro hc
          rw [hc, hnzteq] at hzb
          simp at hzb
          omega
        have hne2 : g.bottom_right_cell_index.row - 1 ≠
            g.top_left_cell_index.row + 1 := by
          intro hc
          rw [hc, hnzteq] at hm
          simp at hm
          omega
        have hne3 : g.bottom_right_cell_index.row ≠ g.top_left_cell_index.row := by
          intro hc
          have hm2 : countFilled g.cell_map
              (g.colRange.map (fun c =>
                (⟨g.bottom_right_cell_index.row - 1, c⟩ : Location))) = some 0 := hm
          have hcell := (countFilled_isSome_iff g.cell_map _).1 (by rw [hm2]; rfl)
            (⟨g.bottom_right_cell_index.row - 1, g.top_left_cell_index.col⟩ : Location)
            (List.mem_map_of_mem _ (colRange_nonempty hbox))
          have hmem := box_exact_mem_of_isSome hbox hcell
          rw [mem_boxLocations] at hmem
          simp only at hmem
          omega
        have hlt : g.top_left_cell_index.row < g.bottom_right_cell_index.row := by
          omega
        have hge2 : g.top_left_cell_index.row + 2 ≤ g.bottom_right_cell_index.row := by
          omega
        have spec := remove_row_bottom_spec g hbox hlt hzb
        set g2 := g.remove_row g.bottom_right_cell_index.row with hg2
        have h2r : g2.bottom_right_cell_index.row =
            g.bottom_right_cell_index.row - 1 := by
          rw [spec.br]
        have hcols2 : g2.colRange = g.colRange := by
          unfold CrosswordGrid.colRange
          rw [spec.tl, spec.br]
        have hzb2 : g2.count_filled_cells_row g2.bottom_right_cell_index.row =
            some 0 := by
          rw [h2r, spec.rcounts _ (by omega)]
          exact hm
        have hzt2 : g2.count_filled_cells_row g2.top_left_cell_index.row = some 0 := by
          rw [spec.tl, spec.rcounts _ (by omega)]
          exact hzt
        have hnzt2 : ∃ k, k ≠ 0 ∧
            g2.count_filled_cells_row (g2.top_left_cell_index.row + 1) = some k := by
          refine ⟨kt, hkt, ?_⟩
          rw [spec.tl, spec.rcounts _ (by omega)]
          exact hnzteq
        obtain ⟨ihk, ihtl, ihbc, ihbr, ihcc, ihrc, ihz, ihex⟩ :=
          remove_rows_bottom_spec fuel g2 g' h spec.box hzb2 hzt2 hnzt2
        refine ⟨GridKept.trans ⟨spec.box, spec.wm, spec.filled, spec.inters⟩ ihk,
          ihtl.trans spec.tl, ?_, ?_, ?_, ?_, ihz, ihex⟩
        · rw [ihbc, spec.br]
        · rw [h2r] at ihbr
          omega
        · intro c hc
          rw [ihcc c (by rw [hcols2]; exact hc), spec.ccounts c hc]
        · intro r hr
          rw [ihrc r hr, spec.rcounts r (by rw [h2r] at ihbr; omega)]

theorem remove_cols_left_spec :
    ∀ (fuel : Nat) (g g' : CrosswordGrid),
    CrosswordGrid.remove_cols_left fuel g = some g' →
    g.box_exact = true →
    g.count_filled_cells_col g.top_left_cell_index.col = some 0 →
    GridKept g g' ∧
    g'.bottom_right_cell_index = g.bottom_right_cell_index ∧
    g'.top_left_cell_index.row = g.top_left_cell_index.row ∧
    g.top_left_cell_index.col ≤ g'.top_left_cell_index.col ∧
    (∀ r ∈ g.rowRange, g'.count_filled_cells_row r = g.count_filled_cells_row r) ∧
    (∀ c, g'.top_left_cell_index.col ≤ c →
      g'.count_filled_cells_col c = g.count_filled_cells_col c) ∧
    g'.count_filled_cells_col g'.top_left_cell_index.col = some 0 ∧
    (∃ k, k ≠ 0 ∧ g'.count_filled_cells_col (g'.top_left_cell_index.col + 1) = some k)
  | 0, g, g', h, _, _ => by simp [CrosswordGrid.remove_cols_left] at h
  | fuel+1, g, g', h, hbox, hzero => by
    rw [CrosswordGrid.remove_cols_left] at h
    cases hm : g.count_filled_cells_col (g.top_left_cell_index.col + 1) with
    | none =>
      rw [hm] at h
      exact absurd h (by simp)
    | some k =>
      rw [hm] at h
      cases k with
      | succ k2 =>
        have hgg : g = g' := by simpa using h
        subst hgg
        exact ⟨GridKept.refl hbox, rfl, rfl, le_refl _, fun r _ => rfl, fun c _ => rfl,
          hzero, ⟨k2 + 1, by omega, hm⟩⟩
      | zero =>
        have hm2 : countFilled g.cell_map
            (g.rowRange.map
              (fun r => (⟨r, g.top_left_cell_index.col + 1⟩ : Location))) = some 0 := hm
        have hlt : g.top_left_cell_index.col < g.bottom_right_cell_index.col := by
          have hcell := (countFilled_isSome_iff g.cell_map
              (g.rowRange.map
                (fun r => (⟨r, g.top_left_cell_index.col + 1⟩ : Location)))).1
            (by rw [hm2]; rfl)
            (⟨g.top_left_cell_index.row, g.top_left_cell_index.col + 1⟩ : Location)
            (List.mem_map_of_mem _ (rowRange_nonempty hbox))
          have hmem := box_exact_mem_of_isSome hbox hcell
          rw [mem_boxLocations] at hmem
          simp only at hmem
          omega
        have spec := remove_col_left_spec g hbox hlt hzero
        set g2 := g.remove_col g.top_left_cell_index.col with hg2
        have h2c : g2.top_left_cell_index.col = g.top_left_cell_index.col + 1 := by
          rw [spec.tl]
        have hrows2 : g2.rowRange = g.rowRange := by
          unfold CrosswordGrid.rowRange
          rw [spec.tl, spec.br]
        have hzero2 : g2.count_filled_cells_col g2.top_left_cell_index.col = some 0 := by
          rw [h2c, spec.ccounts _ (by omega)]
          exact hm
        obtain ⟨ihk, ihbr, ihtr, ihtc, ihrc, ihcc, ihz, ihex⟩ :=
          remove_cols_left_spec fuel g2 g' h spec.box hzero2
        refine ⟨GridKept.trans ⟨spec.box, spec.wm, spec.filled, spec.inters⟩ ihk,
          ihbr.trans spec.br, ?_, ?_, ?_, ?_, ihz, ihex⟩
        · rw [ihtr, spec.tl]
        · rw [h2c] at ihtc
          omega
        · intro r hr
          rw [ihrc r (by rw [hrows2]; exact hr), spec.rcounts r hr]
        · intro c hc
          rw [ihcc c hc, spec.ccounts c (by rw [h2c] at ihtc; omega)]

theorem remove_cols_right_spec :
    ∀ (fuel : Nat) (g g' : CrosswordGrid),
    CrosswordGrid.remove_cols_right fuel g = some g' →
    g.box_exact = true →
    g.count_filled_cells_col g.bottom_right_cell_index.col = some 0 →
    g.count_filled_cells_col g.top_left_cell_index.col = some 0 →
    (∃ k, k ≠ 0 ∧ g.count_filled_cells_col (g.top_left_cell_index.col + 1) = some k) →
    GridKept g g' ∧
    g'.top_left_cell_index = g.top_left_cell_index ∧
    g'.bottom_right_cell_index.row = g.bottom_right_cell_index.row ∧
    g'.bottom_right_cell_index.col ≤ g.bottom_right_cell_index.col ∧
    (∀ r ∈ g.rowRange, g'.count_filled_cells_row r = g.count_filled_cells_row r) ∧
    (∀ c, c ≤ g'.bottom_right_cell_index.col →
      g'.count_filled_cells_col c = g.count_filled_cells_col c) ∧
    g'.count_filled_cells_col g'.bottom_right_cell_index.col = some 0 ∧
    (∃ k, k ≠ 0 ∧
      g'.count_filled_cells_col (g'.bottom_right_cell_index.col - 1) = some k)
  | 0, g, g', h, _, _, _, _ => by simp [CrosswordGrid.remove_cols_right] at h
  | fuel+1, g, g', h, hbox, hzb, hzt, hnzt => by
    rw [CrosswordGrid.remove_cols_right] at h
    cases hm : g.count_filled_cells_col (g.bottom_right_cell_index.col - 1) with
    | none =>
      rw [hm] at h
      exact absurd h (by simp)
    | some k =>
      rw [hm] at h
      cases k with
      | succ k2 =>
        have hgg : g = g' := by simpa using h
        subst hgg
        exact ⟨GridKept.refl hbox, rfl, rfl, le_refl _, fun r _ => rfl, fun c _ => rfl,
          hzb, ⟨k2 + 1, by omega, hm⟩⟩
      | zero =>
        obtain ⟨kt, hkt, hnzteq⟩ := hnzt
        have hcc : g.top_left_cell_index.col ≤ g.bottom_right_cell_index.col :=
          ((box_exact_iff g).1 hbox).2.1
        have hne1 : g.bottom_right_cell_index.col ≠ g.top_left_cell_index.col + 1 := by
          intro hc
          rw [hc, hnzteq] at hzb
          simp at hzb
          omega
        have hne2 : g.bottom_right_cell_index.col - 1 ≠
            g.top_left_cell_index.col + 1 := by
          intro hc
          rw [hc, hnzteq] at hm
          simp at hm
          omega
        have hne3 : g.bottom_right_cell_index.col ≠ g.top_left_cell_index.col := by
          intro hc
          have hm2 : countFilled g.cell_map
              (g.rowRange.map (fun r =>
                (⟨r, g.bottom_right_cell_index.col - 1⟩ : Location))) = some 0 := hm
          have hcell := (countFilled_isSome_iff g.cell_map
              (g.rowRange.map
                (fun r => (⟨r, g.bottom_right_cell_index.col - 1⟩ : Location)))).1
            (by rw [hm2]; rfl)
            (⟨g.top_left_cell_index.row, g.bottom_right_cell_index.col - 1⟩ : Location)
            (List.mem_map_of_mem _ (rowRange_nonempty hbox))
          have hmem := box_exact_mem_of_isSome hbox hcell
          rw [mem_boxLocations] at hmem
          simp only at hmem
          omega
        have hlt : g.top_left_cell_index.col < g.bottom_right_cell_index.col := by
          omega
        have spec := remove_col_right_spec g hbox hlt hzb
        set g2 := g.remove_col g.bottom_right_cell_index.col with hg2
        have h2c : g2.bottom_right_cell_index.col =
            g.bottom_right_cell_index.col - 1 := by
          rw [spec.br]
        have hrows2 : g2.rowRange = g.rowRange := by
          unfold CrosswordGrid.rowRange
          rw [spec.tl, spec.br]
        have hzb2 : g2.count_filled_cells_col g2.bottom_right_cell_index.col =
            some 0 := by
          rw [h2c, spec.ccounts _ (by omega)]
          exact hm
        have hzt2 : g2.count_filled_cells_col g2.top_left_cell_index.col = some 0 := by
          rw [spec.tl, spec.ccounts _ (by omega)]
          exact hzt
        have hnzt2 : ∃ k, k ≠ 0 ∧
            g2.count_filled_cells_col (g2.top_left_cell_index.col + 1) = some k := by
          refine ⟨kt, hkt, ?_⟩
          rw [spec.tl, spec.ccounts _ (by omega)]
          exact hnzteq
        obtain ⟨ihk, ihtl, ihbr, ihbc, ihrc, ihcc, ihz, ihex⟩ :=
          remove_cols_right_spec fuel g2 g' h spec.box hzb2 hzt2 hnzt2
        refine ⟨GridKept.trans ⟨spec.box, spec.wm, spec.filled, spec.inters⟩ ihk,
          ihtl.trans spec.tl, ?_, ?_, ?_, ?_, ihz, ihex⟩
        · rw [ihbr, spec.br]
        · rw [h2c] at ihbc
          omega
        · intro r hr
          rw [ihrc r (by rw [hrows2]; exact hr), spec.rcounts r hr]
        · intro c hc
          rw [ihcc c hc, spec.ccounts c (by rw [h2c] at ihbc; omega)]

theorem ensure_stage1 (g : CrosswordGrid) (c1 : Nat) (hbox : g.box_exact = true)
    (hc1 : g.count_filled_cells_row g.top_left_cell_index.row = some c1) :
    GridKept g
      (if c1 > 0 then g.add_empty_row (g.top_left_cell_index.row - 1) else g) ∧
    (if c1 > 0 then g.add_empty_row (g.top_left_cell_index.row - 1)
      else g).count_filled_cells_row
      (if c1 > 0 then g.add_empty_row (g.top_left_cell_index.row - 1)
        else g).top_left_cell_index.row = some 0 := by
  by_cases hpos : c1 > 0
  · rw [if_pos hpos]
    have spec := add_empty_row_top_spec g hbox
    refine ⟨⟨spec.box, spec.wm, spec.filled, spec.inters⟩, ?_⟩
    rw [spec.tl]
    exact spec.rzero
  · rw [if_neg hpos]
    have hz : c1 = 0 := by omega
    exact ⟨GridKept.refl hbox, by rw [hc1, hz]⟩

theorem ensure_stage2 (g : CrosswordGrid) (c2 : Nat) (hbox : g.box_exact = true)
    (hzt : g.count_filled_cells_row g.top_left_cell_index.row = some 0)
    (hc2 : g.count_filled_cells_row g.bottom_right_cell_index.row = some c2) :
    GridKept g
      (if c2 > 0 then g.add_empty_row (g.bottom_right_cell_index.row + 1) else g) ∧
    (if c2 > 0 then g.add_empty_row (g.bottom_right_cell_index.row + 1)
      else g).count_filled_cells_row
      (if c2 > 0 then g.add_empty_row (g.bottom_right_cell_index.row + 1)
        else g).top_left_cell_index.row = some 0 ∧
    (if c2 > 0 then g.add_empty_row (g.bottom_right_cell_index.row + 1)
      else g).count_filled_cells_row
      (if c2 > 0 then g.add_empty_row (g.bottom_right_cell_index.row + 1)
        else g).bottom_right_cell_index.row = some 0 := by
  have hord := ((box_exact_iff g).1 hbox).1
  by_cases hpos : c2 > 0
  · rw [if_pos hpos]
    have spec := add_empty_row_bottom_spec g hbox
    refine ⟨⟨spec.box, spec.wm, spec.filled, spec.inters⟩, ?_, ?_⟩
    · rw [spec.tl, spec.rcounts _ (by omega)]
      exact hzt
    · rw [spec.br]
      exact spec.rzero
  · rw [if_neg hpos]
    have hz : c2 = 0 := by omega
    exact ⟨GridKept.refl hbox, hzt, by rw [hc2, hz]⟩

theorem ensure_stage3 (g : CrosswordGrid) (c3 : Nat) (hbox : g.box_exact = true)
    (hzt : g.count_filled_cells_row g.top_left_cell_index.row = some 0)
    (hzb : g.count_filled_cells_row g.bottom_right_cell_index.row = some 0)
    (hc3 : g.count_filled_cells_col g.top_left_cell_index.col = some c3) :
    GridKept g
      (if c3 > 0 then g.add_empty_col (g.top_left_cell_index.col - 1) else g) ∧
    (if c3 > 0 then g.add_empty_col (g.top_left_cell_index.col - 1)
      else g).count_filled_cells_row
      (if c3 > 0 then g.add_empty_col (g.top_left_cell_index.col - 1)
        else g).top_left_cell_index.row = some 0 ∧
    (if c3 > 0 then g.add_empty_col (g.top_left_cell_index.col - 1)
      else g).count_filled_cells_row
      (if c3 > 0 then g.add_empty_col (g.top_left_cell_index.col - 1)
        else g).bottom_right_cell_index.row = some 0 ∧
    (if c3 > 0 then g.add_empty_col (g.top_left_cell_index.col - 1)
      else g).count_filled_cells_col
      (if c3 > 0 then g.add_empty_col (g.top_left_cell_index.col - 1)
        else g).top_left_cell_index.col = some 0 := by
  by_cases hpos : c3 > 0
  · rw [if_pos hpos]
    have spec := add_empty_col_left_spec g hbox
    refine ⟨⟨spec.box, spec.wm, spec.filled, spec.inters⟩, ?_, ?_, ?_⟩
    · rw [spec.tl, spec.rcounts _ (rowRange_nonempty hbox)]
      exact hzt
    · rw [spec.br]
      have hbrrow : g.bottom_right_cell_index.row ∈ g.rowRange := by
        rw [CrosswordGrid.rowRange, mem_intRange]
        have := ((box_exact_iff g).1 hbox).1
        omega
      rw [spec.rcounts _ hbrrow]
      exact hzb
    · rw [spec.tl]
      exact spec.czero
  · rw [if_neg hpos]
    have hz : c3 = 0 := by omega
    exact ⟨GridKept.refl hbox, hzt, hzb, by rw [hc3, hz]⟩

theorem ensure_stage4 (g : CrosswordGrid) (c4 : Nat) (hbox : g.box_exact = true)
    (hzt : g.count_filled_cells_row g.top_left_cell_index.row = some 0)
    (hzb : g.count_filled_cells_row g.bottom_right_cell_index.row = some 0)
    (hzl : g.count_filled_cells_col g.top_left_cell_index.col = some 0)
    (hc4 : g.count_filled_cells_col g.bottom_right_cell_index.col = some c4) :
    GridKept g
      (if c4 > 0 then g.add_empty_col (g.bottom_right_cell_index.col + 1) else g) ∧
    (if c4 > 0 then g.add_empty_col (g.bottom_right_cell_index.col + 1)
      else g).count_filled_cells_row
      (if c4 > 0 then g.add_empty_col (g.bottom_right_cell_index.col + 1)
        else g).top_left_cell_index.row = some 0 ∧
    (if c4 > 0 then g.add_empty_col (g.bottom_right_cell_index.col + 1)
      else g).count_filled_cells_row
      (if c4 > 0 then g.add_empty_col (g.bottom_right_cell_index.col + 1)
        else g).bottom_right_cell_index.row = some 0 ∧
    (if c4 > 0 then g.add_empty_col (g.bottom_right_cell_index.col + 1)
      else g).count_filled_cells_col
      (if c4 > 0 then g.add_empty_col (g.bottom_right_cell_index.col + 1)
        else g).top_left_cell_index.col = some 0 ∧
    (if c4 > 0 then g.add_empty_col (g.bottom_right_cell_index.col + 1)
      else g).count_filled_cells_col
      (if c4 > 0 then g.add_empty_col (g.bottom_right_cell_index.col + 1)
        else g).bottom_right_cell_index.col = some 0 := by
  have hord := ((box_exact_iff g).1 hbox).2.1
  by_cases hpos : c4 > 0
  · rw [if_pos hpos]
    have spec := add_empty_col_right_spec g hbox
    refine ⟨⟨spec.box, spec.wm, spec.filled, spec.inters⟩, ?_, ?_, ?_, ?_⟩
    · rw [spec.tl, spec.rcounts _ (rowRange_nonempty hbox)]
      exact hzt
    · rw [spec.br]
      dsimp only
      have hbrrow : g.bottom_right_cell_index.row ∈ g.rowRange := by
        rw [CrosswordGrid.rowRange, mem_intRange]
        have := ((box_exact_iff g).1 hbox).1
        omega
      rw [spec.rcounts _ hbrrow]
      exact hzb
    · rw [spec.tl, spec.ccounts _ (by omega)]
      exact hzl
    · rw [spec.br]
      exact spec.czero
  · rw [if_neg hpos]
    have hz : c4 = 0 := by omega
    exact ⟨GridKept.refl hbox, hzt, hzb, hzl, by rw [hc4, hz]⟩

theorem ensure_buffer_exists_spec (g g1 : CrosswordGrid)
    (hbox : g.box_exact = true) (h : g.ensure_buffer_exists = some g1) :
    GridKept g g1 ∧
    g1.count_filled_cells_row g1.top_left_cell_index.row = some 0 ∧
    g1.count_filled_cells_row g1.bottom_right_cell_index.row = some 0 ∧
    g1.count_filled_cells_col g1.top_left_cell_index.col = some 0 ∧
    g1.count_filled_cells_col g1.bottom_right_cell_index.col = some 0 := by
  unfold CrosswordGrid.ensure_buffer_exists at h
  simp only [bind, Option.bind_eq_some, pure, Option.some.injEq] at h
  obtain ⟨c1, hc1, c2, hc2, c3, hc3, c4, hc4, hfin⟩ := h
  obtain ⟨k1, z1⟩ := ensure_stage1 g c1 hbox hc1
  obtain ⟨k2, z2t, z2b⟩ := ensure_stage2 _ c2 k1.box z1 hc2
  obtain ⟨k3, z3t, z3b, z3l⟩ := ensure_stage3 _ c3 k2.box z2t z2b hc3
  obtain ⟨k4, z4t, z4b, z4l, z4r⟩ := ensure_stage4 _ c4 k3.box z3t z3b z3l hc4
  subst hfin
  exact ⟨((k1.trans k2).trans k3).trans k4, z4t, z4b, z4l, z4r⟩

theorem row_bounds_of_nonzero {g : CrosswordGrid} (hbox : g.box_exact = true)
    {r : Int} {k : Nat} (hk : k ≠ 0)
    (h : g.count_filled_cells_row r = some k) :
    g.top_left_cell_index.row ≤ r ∧ r ≤ g.bottom_right_cell_index.row := by
  obtain ⟨l, hl, c, hc, _⟩ := countFilled_exists_letter g.cell_map _ k h hk
  obtain ⟨c2, hc2, rfl⟩ := List.mem_map.1 hl
  have hmem := box_exact_mem_of_isSome hbox (by rw [hc]; rfl)
  rw [mem_boxLocations] at hmem
  simp only at hmem
  omega

theorem col_bounds_of_nonzero {g : CrosswordGrid} (hbox : g.box_exact = true)
    {c : Int} {k : Nat} (hk : k ≠ 0)
    (h : g.count_filled_cells_col c = some k) :
    g.top_left_cell_index.col ≤ c ∧ c ≤ g.bottom_right_cell_index.col := by
  obtain ⟨l, hl, cl, hcl, _⟩ := countFilled_exists_letter g.cell_map _ k h hk
  obtain ⟨r2, hr2, rfl⟩ := List.mem_map.1 hl
  have hmem := box_exact_mem_of_isSome hbox (by rw [hcl]; rfl)
  rw [mem_boxLocations] at hmem
  simp only at hmem
  omega

theorem remove_excess_empty_spec (g g2 : CrosswordGrid)
    (hbox : g.box_exact = true)
    (hzt : g.count_filled_cells_row g.top_left_cell_index.row = some 0)
    (hzb : g.count_filled_cells_row g.bottom_right_cell_index.row = some 0)
    (hzl : g.count_filled_cells_col g.top_left_cell_index.col = some 0)
    (hzr : g.count_filled_cells_col g.bottom_right_cell_index.col = some 0)
    (h : g.remove_excess_empty = some g2) :
    GridKept g g2 ∧ g2.one_buffer_each_side = true := by
  unfold CrosswordGrid.remove_excess_empty at h
  simp only [bind, Option.bind_eq_some, pure, Option.some.injEq] at h
  obtain ⟨gA, hA, gB, hB, gC, hC, gD, hD, hfin⟩ := h
  rw [hfin] at hD
  -- Phase 1: trim empty top rows.
  obtain ⟨k1, br1, tc1, tr1, cc1, rt1, z1, e1⟩ :=
    remove_rows_top_spec _ g gA hA hbox hzt
  have hordA := ((box_exact_iff gA).1 k1.box).1
  have hordA2 := ((box_exact_iff gA).1 k1.box).2.1
  have hcolsA : gA.colRange = g.colRange := by
    unfold CrosswordGrid.colRange
    rw [tc1, br1]
  -- facts about gA
  have hzbA : gA.count_filled_cells_row gA.bottom_right_cell_index.row = some 0 := by
    rw [br1, rt1 _ (by rw [br1] at hordA; exact hordA)]
    exact hzb
  -- Phase 2: trim empty bottom rows.
  obtain ⟨k2, tl2, bc2, br2le, cc2, rt2, z2, e2⟩ :=
    remove_rows_bottom_spec _ gA gB hB k1.box hzbA z1 e1
  have hordB := ((box_exact_iff gB).1 k2.box).1
  have hordB2 := ((box_exact_iff gB).1 k2.box).2.1
  have hcolsB : gB.colRange = gA.colRange := by
    unfold CrosswordGrid.colRange
    rw [tl2, bc2]
  obtain ⟨kt, hkt, hktc⟩ := e1
  -- the nonzero row below the top survives phase 2
  have hBrow2 : gB.bottom_right_cell_index.row ≥ gA.top_left_cell_index.row + 2 := by
    obtain ⟨kb, hkb, hkbc⟩ := e2
    have hb1 := (row_bounds_of_nonzero k2.box hkb hkbc).1
    rw [tl2] at hb1
    by_cases hcase : gA.top_left_cell_index.row + 1 ≤ gB.bottom_right_cell_index.row
    · rcases eq_or_lt_of_le hcase with heq | hlt2
      · exfalso
        have := rt2 _ (le_of_eq heq)
        rw [hktc] at this
        rw [← heq] at z2
        rw [z2] at this
        simp at this
        omega
      · omega
    · omega
  have he1B : gB.count_filled_cells_row (gB.top_left_cell_index.row + 1) = some kt := by
    rw [tl2]
    rw [rt2 _ (by omega)]
    exact hktc
  -- column zero facts survive the row phases
  have hzlB : gB.count_filled_cells_col gB.top_left_cell_index.col = some 0 := by
    have h1 : gB.top_left_cell_index.col = g.top_left_cell_index.col := by
      rw [tl2, tc1]
    rw [h1, cc2 _ (by rw [hcolsA]; exact colRange_nonempty hbox),
      cc1 _ (colRange_nonempty hbox)]
    exact hzl
  have hzrB : gB.count_filled_cells_col gB.bottom_right_cell_index.col = some 0 := by
    have h1 : gB.bottom_right_cell_index.col = g.bottom_right_cell_index.col := by
      rw [bc2, br1]
    have hmemr : g.bottom_right_cell_index.col ∈ g.colRange := by
      rw [CrosswordGrid.colRange, mem_intRange]
      have := ((box_exact_iff g).1 hbox).2.1
      omega
    rw [h1, cc2 _ (by rw [hcolsA]; exact hmemr), cc1 _ hmemr]
    exact hzr
  -- Phase 3: trim empty left columns.
  obtain ⟨k3, br3, tr3, tc3le, rc3, cc3, z3, e3⟩ :=
    remove_cols_left_spec _ gB gC hC k2.box hzlB
  have hordC := ((box_exact_iff gC).1 k3.box).1
  have hordC2 := ((box_exact_iff gC).1 k3.box).2.1
  have hrowsC : gC.rowRange = gB.rowRange := by
    unfold CrosswordGrid.rowRange
    rw [tr3, br3]
  have hzrC : gC.count_filled_cells_col gC.bottom_right_cell_index.col = some 0 := by
    rw [br3]
    rw [cc3 _ (by rw [br3] at hordC2; exact hordC2)]
    exact hzrB
  -- Phase 4: trim empty right columns.
  obtain ⟨k4, tl4, br4r, bc4le, rc4, cc4, z4, e4⟩ :=
    remove_cols_right_spec _ gC g2 hD k3.box hzrC z3 e3
  have hord2 := ((box_exact_iff g2).1 k4.box).1
  have hord22 := ((box_exact_iff g2).1 k4.box).2.1
  obtain ⟨kl, hkl, hklc⟩ := e3
  have hCcol2 : g2.bottom_right_cell_index.col ≥ gC.top_left_cell_index.col + 2 := by
    obtain ⟨kr, hkr, hkrc⟩ := e4
    have hb1 := (col_bounds_of_nonzero k4.box hkr hkrc).1
    rw [tl4] at hb1
    by_cases hcase : gC.top_left_cell_index.col + 1 ≤ g2.bottom_right_cell_index.col
    · rcases eq_or_lt_of_le hcase with heq | hlt2
      · exfalso
        have := cc4 _ (le_of_eq heq)
        rw [hklc] at this
        rw [← heq] at z4
        rw [z4] at this
        simp at this
        omega
      · omega
    · omega
  have he3D : g2.count_filled_cells_col (g2.top_left_cell_index.col + 1) = some kl := by
    rw [tl4]
    rw [cc4 _ (by omega)]
    exact hklc
  -- row facts at the end
  have hrowtr : g2.top_left_cell_index.row = gB.top_left_cell_index.row := by
    rw [tl4, tr3]
  have hrowbr : g2.bottom_right_cell_index.row = gB.bottom_right_cell_index.row := by
    rw [br4r, br3]
  have hmemtB : gB.top_left_cell_index.row ∈ gB.rowRange := rowRange_nonempty k2.box
  have hmemt1B : gB.top_left_cell_index.row + 1 ∈ gB.rowRange := by
    rw [CrosswordGrid.rowRange, mem_intRange]
    rw [tl2]
    rw [tl2] at hordB
    omega
  have hmembB : gB.bottom_right_cell_index.row ∈ gB.rowRange := by
    rw [CrosswordGrid.rowRange, mem_intRange]
    omega
  have hmemb1B : gB.bottom_right_cell_index.row - 1 ∈ gB.rowRange := by
    rw [CrosswordGrid.rowRange, mem_intRange]
    rw [tl2]
    omega
  have hztD : g2.count_filled_cells_row g2.top_left_cell_index.row = some 0 := by
    rw [hrowtr, rc4 _ (by rw [hrowsC]; exact hmemtB), rc3 _ hmemtB]
    rw [rt2 _ (by rw [tl2]; omega)]
    rw [tl2]
    exact z1
  have hntD : ∃ k, k ≠ 0 ∧
      g2.count_filled_cells_row (g2.top_left_cell_index.row + 1) = some k := by
    refine ⟨kt, hkt, ?_⟩
    rw [hrowtr, rc4 _ (by rw [hrowsC]; exact hmemt1B), rc3 _ hmemt1B]
    exact he1B
  have hzbD : g2.count_filled_cells_row g2.bottom_right_cell_index.row = some 0 := by
    rw [hrowbr, rc4 _ (by rw [hrowsC]; exact hmembB), rc3 _ hmembB]
    exact z2
  have hnbD : ∃ k, k ≠ 0 ∧
      g2.count_filled_cells_row (g2.bottom_right_cell_index.row - 1) = some k := by
    obtain ⟨kb, hkb, hkbc⟩ := e2
    refine ⟨kb, hkb, ?_⟩
    rw [hrowbr, rc4 _ (by rw [hrowsC]; exact hmemb1B), rc3 _ hmemb1B]
    exact hkbc
  refine ⟨((k1.trans k2).trans k3).trans k4, ?_⟩
  rw [one_buffer_iff]
  refine ⟨hztD, hzbD, ?_, z4, hntD, hnbD, ⟨kl, hkl, he3D⟩, e4⟩
  -- left column of the final grid is empty
  rw [tl4]
  rw [cc4 _ (by omega)]
  exact z3

theorem fit_to_size_spec (g g' : CrosswordGrid) (hbox : g.box_exact = true)
    (h : g.fit_to_size = some g') :
    GridKept g g' ∧ g'.one_buffer_each_side = true ∧ g.check_valid_ok = true := by
  unfold CrosswordGrid.fit_to_size at h
  by_cases hcv : g.check_valid_ok = true
  · rw [if_pos hcv] at h
    simp only [bind, Option.bind_eq_some] at h
    obtain ⟨g1, h1, h2⟩ := h
    obtain ⟨k1, z1, z2, z3, z4⟩ := ensure_buffer_exists_spec g g1 hbox h1
    obtain ⟨k2, hob⟩ := remove_excess_empty_spec g1 g' k1.box z1 z2 z3 z4 h2
    exact ⟨k1.trans k2, hob, hcv⟩
  · rw [if_neg hcv] at h
    simp at h

theorem fit_to_size_fixed (g' : CrosswordGrid)
    (hcv : g'.check_valid_ok = true)
    (hob : g'.one_buffer_each_side = true) :
    g'.fit_to_size = some g' := by
  obtain ⟨z1, z2, z3, z4, e1, e2, e3, e4⟩ := (one_buffer_iff g').1 hob
  unfold CrosswordGrid.fit_to_size
  rw [if_pos hcv]
  have hens : g'.ensure_buffer_exists = some g' := by
    unfold CrosswordGrid.ensure_buffer_exists
    simp [bind, z1, z2, z3, z4]
  have hrt : CrosswordGrid.remove_rows_top
      ((g'.bottom_right_cell_index.row - g'.top_left_cell_index.row).toNat + 2) g' =
      some g' := by
    obtain ⟨k, hk0, hkc⟩ := e1
    rw [CrosswordGrid.remove_rows_top, hkc]
    cases k with
    | zero => exact absurd rfl hk0
    | succ k2 => rfl
  have hrb : CrosswordGrid.remove_rows_bottom
      ((g'.bottom_right_cell_index.row - g'.top_left_cell_index.row).toNat + 2) g' =
      some g' := by
    obtain ⟨k, hk0, hkc⟩ := e2
    rw [CrosswordGrid.remove_rows_bottom, hkc]
    cases k with
    | zero => exact absurd rfl hk0
    | succ k2 => rfl
  have hcl : CrosswordGrid.remove_cols_left
      ((g'.bottom_right_cell_index.col - g'.top_left_cell_index.col).toNat + 2) g' =
      some g' := by
    obtain ⟨k, hk0, hkc⟩ := e3
    rw [CrosswordGrid.remove_cols_left, hkc]
    cases k with
    | zero => exact absurd rfl hk0
    | succ k2 => rfl
  have hcr : CrosswordGrid.remove_cols_right
      ((g'.bottom_right_cell_index.col - g'.top_left_cell_index.col).toNat + 2) g' =
      some g' := by
    obtain ⟨k, hk0, hkc⟩ := e4
    rw [CrosswordGrid.remove_cols_right, hkc]
    cases k with
    | zero => exact absurd rfl hk0
    | succ k2 => rfl
  have hrem : g'.remove_excess_empty = some g' := by
    unfold CrosswordGrid.remove_excess_empty
    simp [bind, hrt, hrb, hcl, hcr]
  simp [bind, hens, hrem]

/-- C8: `fit_to_size()` is idempotent: for every well-formed grid (box bounds
ordered and the cell map exactly covering the bounding box, as the builders
maintain), if one call returns normally with result `g'`, an immediate second
call returns `g'` unchanged — in particular the cell count is the same — and
after the call exactly one empty buffer row/column exists on every side of
the occupied region (the boundary rows/columns hold no letter while the
rows/columns just inside them do). -/
theorem c8_fit_to_size_idempotent (g g' : CrosswordGrid)
    (hbox : g.box_exact = true) (h : g.fit_to_size = some g') :
    g'.fit_to_size = some g' ∧ g'.one_buffer_each_side = true := by
  obtain ⟨hk, hob, hcv⟩ := fit_to_size_spec g g' hbox h
  exact ⟨fit_to_size_fixed g' (check_valid_of_kept hk hcv) hob, hob⟩

/-- Witness for C8 at a concrete input: fitting the freshly built ALPHA grid
(the `new_single_word("ALPHA")` grid before its final `fit_to_size`) yields
the 3×7 fitted grid, and the theorem applies to it. -/
theorem c8_fit_to_size_idempotent_witness :
    alphaFitted.fit_to_size = some alphaFitted ∧
    alphaFitted.one_buffer_each_side = true :=
  c8_fit_to_size_idempotent alphaBase alphaFitted (by decide) (by decide)

/-! ### Lemmas for the placement path (add_word.rs) -/

theorem relative_location_directed_zero (l : Location) (dir : Direction) :
    l.relative_location_directed 0 dir = l := by
  cases dir <;> simp [Location.relative_location_directed]

theorem relative_location_directed_add (l : Location) (a b : Int) (dir : Direction) :
    (l.relative_location_directed a dir).relative_location_directed b dir =
      l.relative_location_directed (a + b) dir := by
  cases dir with
  | Across =>
    show (⟨l.row, l.col + a + b⟩ : Location) = ⟨l.row, l.col + (a + b)⟩
    rw [Int.add_assoc]
  | Down =>
    show (⟨l.row + a + b, l.col⟩ : Location) = ⟨l.row + (a + b), l.col⟩
    rw [Int.add_assoc]

theorem relative_location_directed_inj (l : Location) {a b : Int} (dir : Direction)
    (h : l.relative_location_directed a dir = l.relative_location_directed b dir) :
    a = b := by
  cases dir <;>
    simp only [Location.relative_location_directed, Location.mk.injEq] at h <;>
    omega

/-- Removing a word id a cell does not carry leaves the cell unchanged,
provided a filled cell carries at least one id. -/
theorem cell_remove_noop (c : Cell) (wid : Nat)
    (hfa : c.get_across_word_id ≠ some wid)
    (hfd : c.get_down_word_id ≠ some wid)
    (hlab : c.contains_letter = true →
      (c.get_across_word_id.isSome = true ∨ c.get_down_word_id.isSome = true)) :
    c.remove_word wid = c := by
  obtain ⟨st⟩ := c
  cases st with
  | Empty => rfl
  | Black => rfl
  | Filled ch a d =>
    simp only [Cell.get_across_word_id, Cell.get_down_word_id] at hfa hfd hlab
    have hsome := hlab rfl
    show (if (if a = some wid then none else a) = none ∧
        (if d = some wid then none else d) = none then (⟨FillStatus.Empty⟩ : Cell)
      else ⟨FillStatus.Filled ch (if a = some wid then none else a)
        (if d = some wid then none else d)⟩) = ⟨FillStatus.Filled ch a d⟩
    rw [if_neg hfa, if_neg hfd, if_neg]
    intro hc
    rcases hsome with hs | hs
    · rw [hc.1] at hs
      simp at hs
    · rw [hc.2] at hs
      simp at hs

/-- Undoing a successful `add_word` with a fresh id restores the original
cell exactly. -/
theorem cell_add_remove (c c2 : Cell) (wid : Nat) (ch : Char) (dir : Direction)
    (hok : c.add_word wid ch dir = Except.ok c2)
    (hfa : c.get_across_word_id ≠ some wid)
    (hfd : c.get_down_word_id ≠ some wid)
    (hlab : c.contains_letter = true →
      (c.get_across_word_id.isSome = true ∨ c.get_down_word_id.isSome = true)) :
    c2.remove_word wid = c := by
  obtain ⟨st⟩ := c
  cases st with
  | Black =>
    cases dir <;> simp [Cell.add_word] at hok
  | Empty =>
    cases dir <;>
      (simp only [Cell.add_word, Except.ok.injEq] at hok
       rw [← hok]
       simp [Cell.remove_word])
  | Filled l a d =>
    simp only [Cell.get_across_word_id, Cell.get_down_word_id] at hfa hfd hlab
    have hsome := hlab rfl
    cases dir with
    | Across =>
      cases a with
      | some existing =>
        simp only [Cell.add_word] at hok
        by_cases hex : existing ≠ wid
        · rw [if_pos hex] at hok
          simp at hok
        · simp only [not_not] at hex
          exact absurd (by rw [hex]) hfa
      | none =>
        simp only [Cell.add_word] at hok
        by_cases hl : l ≠ ch
        · rw [if_pos hl] at hok
          simp at hok
        · simp only [not_not] at hl
          rw [if_neg (by simpa using hl)] at hok
          simp only [Except.ok.injEq] at hok
          rw [← hok]
          have hd : d ≠ none := by
            rcases hsome with hs | hs
            · simp at hs
            · intro hc; rw [hc] at hs; simp at hs
          show (if (if some wid = some wid then none else some wid) = none ∧
              (if d = some wid then none else d) = none then (⟨FillStatus.Empty⟩ : Cell)
            else ⟨FillStatus.Filled ch (if some wid = some wid then none else some wid)
              (if d = some wid then none else d)⟩) = ⟨FillStatus.Filled l none d⟩
          have h1 : (if some wid = some wid then none else some wid) = (none : Option Nat) :=
            if_pos rfl
          rw [h1, if_neg hfd, if_neg (by intro hc; exact hd hc.2), hl]
    | Down =>
      cases d with
      | some existing =>
        simp only [Cell.add_word] at hok
        by_cases hex : existing ≠ wid
        · rw [if_pos hex] at hok
          simp at hok
        · simp only [not_not] at hex
          exact absurd (by rw [hex]) hfd
      | none =>
        simp only [Cell.add_word] at hok
        by_cases hl : l ≠ ch
        · rw [if_pos hl] at hok
          simp at hok
        · simp only [not_not] at hl
          rw [if_neg (by simpa using hl)] at hok
          simp only [Except.ok.injEq] at hok
          rw [← hok]
          have ha : a ≠ none := by
            rcases hsome with hs | hs
            · intro hc; rw [hc] at hs; simp at hs
            · simp at hs
          show (if (if a = some wid then none else a) = none ∧
              (if some wid = some wid then none else some wid) = none then
              (⟨FillStatus.Empty⟩ : Cell)
            else ⟨FillStatus.Filled ch (if a = some wid then none else a)
              (if some wid = some wid then none else some wid)⟩) =
            ⟨FillStatus.Filled l a none⟩
          have h1 : (if some wid = some wid then none else some wid) = (none : Option Nat) :=
            if_pos rfl
          rw [h1, if_neg hfa, if_neg (by intro hc; exact ha hc.1), hl]

theorem id_unused_get {g : CrosswordGrid} {wid : Nat} {l : Location} {cell : Cell}
    (h : g.id_unused_in_cells wid = true) (hg : mapGet g.cell_map l = some cell) :
    cell.get_across_word_id ≠ some wid ∧ cell.get_down_word_id ≠ some wid := by
  unfold CrosswordGrid.id_unused_in_cells at h
  rw [List.all_eq_true] at h
  have := h (l, cell) (mapGet_eq_some_mem hg)
  simpa using this

theorem labelled_get {g : CrosswordGrid} {l : Location} {cell : Cell}
    (h : g.filled_cells_labelled = true) (hg : mapGet g.cell_map l = some cell) :
    cell.contains_letter = true →
      (cell.get_across_word_id.isSome = true ∨ cell.get_down_word_id.isSome = true) := by
  unfold CrosswordGrid.filled_cells_labelled at h
  rw [List.all_eq_true] at h
  have := h (l, cell) (mapGet_eq_some_mem hg)
  intro hc
  simp only [Bool.or_eq_true] at this
  rcases this with (hf | hs) | hs
  · rw [hc] at hf
    simp at hf
  · exact Or.inl hs
  · exact Or.inr hs

theorem id_unused_of_kept {g g' : CrosswordGrid} (hk : GridKept g g') {wid : Nat}
    (h : g.id_unused_in_cells wid = true) : g'.id_unused_in_cells wid = true := by
  have hnodup2 := ((box_exact_iff g').1 hk.box).2.2.1
  unfold CrosswordGrid.id_unused_in_cells
  rw [List.all_eq_true]
  intro p hp
  obtain ⟨l0, c0⟩ := p
  obtain ⟨st0⟩ := c0
  cases st0 with
  | Empty => simp [Cell.get_across_word_id, Cell.get_down_word_id]
  | Black => simp [Cell.get_across_word_id, Cell.get_down_word_id]
  | Filled ch a d =>
    have hgv : mapGet g'.cell_map l0 = some (⟨FillStatus.Filled ch a d⟩ : Cell) :=
      mapGet_eq_of_mem_nodup hnodup2 hp
    have hfg : g.filledAt l0 = some (ch, a, d) := by
      rw [← hk.filled l0]
      unfold CrosswordGrid.filledAt
      rw [hgv]
    unfold CrosswordGrid.filledAt at hfg
    cases hgg : mapGet g.cell_map l0 with
    | none => rw [hgg] at hfg; simp at hfg
    | some cell =>
      rw [hgg] at hfg
      obtain ⟨st⟩ := cell
      cases st with
      | Empty => simp at hfg
      | Black => simp at hfg
      | Filled ch2 a2 d2 =>
        simp only [Option.some.injEq, Prod.mk.injEq] at hfg
        obtain ⟨he1, he2, he3⟩ := hfg
        have hids := id_unused_get h hgg
        simp only [Cell.get_across_word_id, Cell.get_down_word_id] at hids ⊢
        rw [← he2, ← he3]
        simpa using hids

theorem labelled_of_kept {g g' : CrosswordGrid} (hk : GridKept g g')
    (h : g.filled_cells_labelled = true) : g'.filled_cells_labelled = true := by
  have hnodup2 := ((box_exact_iff g').1 hk.box).2.2.1
  unfold CrosswordGrid.filled_cells_labelled
  rw [List.all_eq_true]
  intro p hp
  obtain ⟨l0, c0⟩ := p
  obtain ⟨st0⟩ := c0
  cases st0 with
  | Empty => simp [Cell.contains_letter]
  | Black => simp [Cell.contains_letter]
  | Filled ch a d =>
    have hgv : mapGet g'.cell_map l0 = some (⟨FillStatus.Filled ch a d⟩ : Cell) :=
      mapGet_eq_of_mem_nodup hnodup2 hp
    have hfg : g.filledAt l0 = some (ch, a, d) := by
      rw [← hk.filled l0]
      unfold CrosswordGrid.filledAt
      rw [hgv]
    unfold CrosswordGrid.filledAt at hfg
    cases hgg : mapGet g.cell_map l0 with
    | none => rw [hgg] at hfg; simp at hfg
    | some cell =>
      rw [hgg] at hfg
      obtain ⟨st⟩ := cell
      cases st with
      | Empty => simp at hfg
      | Black => simp at hfg
      | Filled ch2 a2 d2 =>
        simp only [Option.some.injEq, Prod.mk.injEq] at hfg
        obtain ⟨he1, he2, he3⟩ := hfg
        have hl := labelled_get h hgg rfl
        simp only [Cell.get_across_word_id, Cell.get_down_word_id] at hl
        simp only [Bool.or_eq_true, Bool.not_eq_true', Cell.contains_letter,
          Cell.get_across_word_id, Cell.get_down_word_id]
        rw [← he2, ← he3]
        rcases hl with hs | hs
        · exact Or.inl (Or.inr hs)
        · exact Or.inr hs

theorem expand_up_spec :
    ∀ (fuel : Nat) (g : CrosswordGrid) (r : Int) (g' : CrosswordGrid),
    CrosswordGrid.expand_up fuel g r = some g' → g.box_exact = true → GridKept g g'
  | 0, g, r, g', h, _ => by simp [CrosswordGrid.expand_up] at h
  | fuel+1, g, r, g', h, hbox => by
    rw [CrosswordGrid.expand_up] at h
    by_cases hc : r < g.top_left_cell_index.row
    · rw [if_pos hc] at h
      have spec := add_empty_row_top_spec g hbox
      exact GridKept.trans ⟨spec.box, spec.wm, spec.filled, spec.inters⟩
        (expand_up_spec fuel _ r g' h spec.box)
    · rw [if_neg hc] at h
      obtain rfl : g = g' := by simpa using h
      exact GridKept.refl hbox

theorem expand_down_spec :
    ∀ (fuel : Nat) (g : CrosswordGrid) (r : Int) (g' : CrosswordGrid),
    CrosswordGrid.expand_down fuel g r = some g' → g.box_exact = true → GridKept g g'
  | 0, g, r, g', h, _ => by simp [CrosswordGrid.expand_down] at h
  | fuel+1, g, r, g', h, hbox => by
    rw [CrosswordGrid.expand_down] at h
    by_cases hc : r > g.bottom_right_cell_index.row
    · rw [if_pos hc] at h
      have spec := add_empty_row_bottom_spec g hbox
      exact GridKept.trans ⟨spec.box, spec.wm, spec.filled, spec.inters⟩
        (expand_down_spec fuel _ r g' h spec.box)
    · rw [if_neg hc] at h
      obtain rfl : g = g' := by simpa using h
      exact GridKept.refl hbox

theorem expand_left_spec :
    ∀ (fuel : Nat) (g : CrosswordGrid) (c : Int) (g' : CrosswordGrid),
    CrosswordGrid.expand_left fuel g c = some g' → g.box_exact = true → GridKept g g'
  | 0, g, c, g', h, _ => by simp [CrosswordGrid.expand_left] at h
  | fuel+1, g, c, g', h, hbox => by
    rw [CrosswordGrid.expand_left] at h
    by_cases hc : c < g.top_left_cell_index.col
    · rw [if_pos hc] at h
      have spec := add_empty_col_left_spec g hbox
      exact GridKept.trans ⟨spec.box, spec.wm, spec.filled, spec.inters⟩
        (expand_left_spec fuel _ c g' h spec.box)
    · rw [if_neg hc] at h
      obtain rfl : g = g' := by simpa using h
      exact GridKept.refl hbox

theorem expand_right_spec :
    ∀ (fuel : Nat) (g : CrosswordGrid) (c : Int) (g' : CrosswordGrid),
    CrosswordGrid.expand_right fuel g c = some g' → g.box_exact = true → GridKept g g'
  | 0, g, c, g', h, _ => by simp [CrosswordGrid.expand_right] at h
  | fuel+1, g, c, g', h, hbox => by
    rw [CrosswordGrid.expand_right] at h
    by_cases hc : c > g.bottom_right_cell_index.col
    · rw [if_pos hc] at h
      have spec := add_empty_col_right_spec g hbox
      exact GridKept.trans ⟨spec.box, spec.wm, spec.filled, spec.inters⟩
        (expand_right_spec fuel _ c g' h spec.box)
    · rw [if_neg hc] at h
      obtain rfl : g = g' := by simpa using h
      exact GridKept.refl hbox

theorem expand_to_fit_cell_spec (g : CrosswordGrid) (l : Location)
    (g' : CrosswordGrid) (h : g.expand_to_fit_cell l = some g')
    (hbox : g.box_exact = true) : GridKept g g' := by
  unfold CrosswordGrid.expand_to_fit_cell at h
  simp only [bind, Option.bind_eq_some, pure, Option.some.injEq] at h
  obtain ⟨gA, hA, gB, hB, gC, hC, gD, hD, hfin⟩ := h
  rw [hfin] at hD
  have k1 := expand_up_spec _ g _ gA hA hbox
  have k2 := expand_down_spec _ gA _ gB hB k1.box
  have k3 := expand_left_spec _ gB _ gC hC k2.box
  have k4 := expand_right_spec _ gC _ g' hD k3.box
  exact ((k1.trans k2).trans k3).trans k4

theorem check_cells_at_ends_spec (g : CrosswordGrid) (l : Location) (word : Word)
    (idx : Nat) (dir : Direction) (g1 : CrosswordGrid)
    (res : Except CrosswordError Location)
    (hbox : g.box_exact = true)
    (h : g.check_cells_at_ends_free_for_word l word idx dir = some (g1, res)) :
    GridKept g g1 := by
  unfold CrosswordGrid.check_cells_at_ends_free_for_word at h
  simp only [bind, Option.bind_eq_some] at h
  obtain ⟨gA, hA, h⟩ := h
  have k1 := expand_to_fit_cell_spec g _ gA hA hbox
  cases hg : mapGet gA.cell_map
      (Location.relative_location_directed
        (l.relative_location_directed (-(idx : Int)) dir) (-1) dir) with
  | none =>
    rw [hg] at h
    simp only [Option.some.injEq, Prod.mk.injEq] at h
    rw [← h.1]
    exact k1
  | some cell =>
    rw [hg] at h
    dsimp only at h
    by_cases hl : cell.contains_letter = true
    · rw [if_pos hl] at h
      simp only [Option.some.injEq, Prod.mk.injEq] at h
      rw [← h.1]
      exact k1
    · rw [if_neg hl] at h
      simp only [bind, Option.bind_eq_some] at h
      obtain ⟨gB, hB, h⟩ := h
      have k2 := expand_to_fit_cell_spec gA _ gB hB k1.box
      cases hg2 : mapGet gB.cell_map
          (Location.relative_location_directed
            (l.relative_location_directed
              ((word.word_text.length : Int) - ((idx : Int) + 1)) dir) 1 dir) with
      | none =>
        rw [hg2] at h
        simp only [Option.some.injEq, Prod.mk.injEq] at h
        rw [← h.1]
        exact k1.trans k2
      | some cell2 =>
        rw [hg2] at h
        dsimp only at h
        by_cases hl2 : cell2.contains_letter = true
        · rw [if_pos hl2] at h
          simp only [Option.some.injEq, Prod.mk.injEq] at h
          rw [← h.1]
          exact k1.trans k2
        · rw [if_neg hl2] at h
          simp only [Option.some.injEq, Prod.mk.injEq] at h
          rw [← h.1]
          exact k1.trans k2

theorem place_letter_error (g : CrosswordGrid) (letter : Char) (wid : Nat)
    (loc : Location) (dir : Direction) (g1 : CrosswordGrid) (e : CrosswordError)
    (h : g.place_letter letter wid loc dir = (g1, Except.error e)) : g1 = g := by
  unfold CrosswordGrid.place_letter at h
  cases hg : mapGet g.cell_map loc with
  | none =>
    rw [hg] at h
    simp only [Prod.mk.injEq] at h
    exact h.1.symm
  | some cell =>
    rw [hg] at h
    dsimp only at h
    cases ha : cell.add_word wid letter dir with
    | ok c2 =>
      rw [ha] at h
      simp at h
    | error e2 =>
      rw [ha] at h
      simp only [Prod.mk.injEq] at h
      exact h.1.symm

theorem place_letter_ok (g : CrosswordGrid) (letter : Char) (wid : Nat)
    (loc : Location) (dir : Direction) (g1 : CrosswordGrid)
    (h : g.place_letter letter wid loc dir = (g1, Except.ok ())) :
    ∃ cell c2, mapGet g.cell_map loc = some cell ∧
      cell.add_word wid letter dir = Except.ok c2 ∧
      g1 = { g with cell_map := mapInsert g.cell_map loc c2 } := by
  unfold CrosswordGrid.place_letter at h
  cases hg : mapGet g.cell_map loc with
  | none =>
    rw [hg] at h
    simp at h
  | some cell =>
    rw [hg] at h
    dsimp only at h
    cases ha : cell.add_word wid letter dir with
    | ok c2 =>
      rw [ha] at h
      simp only [Prod.mk.injEq] at h
      exact ⟨cell, c2, rfl, ha, h.1.symm⟩
    | error e2 =>
      rw [ha] at h
      simp at h

/-- Invariant of the letter loop on the failing path: the word map, the
bounds and the key list are untouched, the updated locations are distinct
cells along the direction, every location outside them is untouched, and
every updated location is either untouched or holds the result of one
successful `Cell::add_word` on its original cell. -/
theorem place_letters_loop_err :
    ∀ (letters : List Char) (g : CrosswordGrid) (wid : Nat) (loc : Location)
      (dir : Direction) (g2 : CrosswordGrid) (updated : List Location)
      (e : CrosswordError),
    CrosswordGrid.place_letters_loop g letters wid loc dir =
      (g2, updated, Except.error e) →
    g2.word_map = g.word_map ∧
    g2.top_left_cell_index = g.top_left_cell_index ∧
    g2.bottom_right_cell_index = g.bottom_right_cell_index ∧
    g2.cell_map.map Prod.fst = g.cell_map.map Prod.fst ∧
    updated.Nodup ∧
    (∀ l, l ∉ updated → mapGet g2.cell_map l = mapGet g.cell_map l) ∧
    (∀ l ∈ updated, ∃ k : Nat, l = loc.relative_location_directed (k : Int) dir) ∧
    (∀ l ∈ updated,
      mapGet g2.cell_map l = mapGet g.cell_map l ∨
      ∃ c1 ch c2, mapGet g.cell_map l = some c1 ∧
        c1.add_word wid ch dir = Except.ok c2 ∧
        mapGet g2.cell_map l = some c2)
  | [], g, wid, loc, dir, g2, updated, e, h => by
    simp [CrosswordGrid.place_letters_loop] at h
  | letter :: rest, g, wid, loc, dir, g2, updated, e, h => by
    rw [CrosswordGrid.place_letters_loop] at h
    cases hpl : g.place_letter letter wid loc dir with
    | mk g1 res =>
      rw [hpl] at h
      cases res with
      | error e1 =>
        dsimp only at h
        simp only [Prod.mk.injEq] at h
        obtain ⟨hg2, hupd, _⟩ := h
        have hg1 := place_letter_error g letter wid loc dir g1 e1 hpl
        rw [← hg2, ← hupd, hg1]
        refine ⟨rfl, rfl, rfl, rfl, by simp, fun l hl => rfl, ?_, ?_⟩
        · intro l hl
          have hleq := List.mem_singleton.1 hl
          rw [hleq]
          exact ⟨0, (relative_location_directed_zero loc dir).symm⟩
        · intro l hl
          exact Or.inl rfl
      | ok u =>
        obtain ⟨⟩ := u
        dsimp only at h
        simp only [Prod.mk.injEq] at h
        obtain ⟨hg2, hupd, hres⟩ := h
        obtain ⟨cell, c2, hget, hadd, hg1⟩ := place_letter_ok g letter wid loc dir g1 hpl
        cases hrec : CrosswordGrid.place_letters_loop g1 rest wid
            (loc.relative_location_directed 1 dir) dir with
        | mk gr pr =>
          obtain ⟨ur, rr⟩ := pr
          rw [hrec] at hg2 hupd hres
          dsimp only at hg2 hupd hres
          rw [hres] at hrec
          have IH := place_letters_loop_err rest g1 wid
            (loc.relative_location_directed 1 dir) dir gr ur e hrec
          obtain ⟨ihwm, ihtl, ihbr, ihkeys, ihnodup, ihout, ihprog, ihrel⟩ := IH
          have hkeys1 : g1.cell_map.map Prod.fst = g.cell_map.map Prod.fst := by
            rw [hg1]
            exact mapKeys_mapInsert_of_get_some c2 (by rw [hget]; rfl)
          have hget1self : mapGet g1.cell_map loc = some c2 := by
            rw [hg1]
            show mapGet (mapInsert g.cell_map loc c2) loc = some c2
            rw [mapGet_mapInsert, if_pos rfl]
          have hget1other : ∀ l, l ≠ loc → mapGet g1.cell_map l = mapGet g.cell_map l := by
            intro l hne
            rw [hg1]
            show mapGet (mapInsert g.cell_map loc c2) l = mapGet g.cell_map l
            rw [mapGet_mapInsert, if_neg hne]
          have hprog : ∀ l ∈ ur, ∃ k : Nat,
              l = loc.relative_location_directed ((k : Int) + 1) dir := by
            intro l hl
            obtain ⟨k, hk⟩ := ihprog l hl
            refine ⟨k, ?_⟩
            rw [hk, relative_location_directed_add]
            rw [show (1 : Int) + (k : Int) = (k : Int) + 1 by omega]
          have hlocnot : loc ∉ ur := by
            intro hmem
            obtain ⟨k, hk⟩ := hprog loc hmem
            have h0 : loc = loc.relative_location_directed 0 dir :=
              (relative_location_directed_zero loc dir).symm
            have := relative_location_directed_inj loc dir (h0.symm.trans hk)
            omega
          subst hg2 hupd
          refine ⟨ihwm.trans (by rw [hg1]), ihtl.trans (by rw [hg1]),
            ihbr.trans (by rw [hg1]), ihkeys.trans hkeys1, ?_, ?_, ?_, ?_⟩
          · exact List.nodup_cons.2 ⟨hlocnot, ihnodup⟩
          · intro l hl
            rw [List.mem_cons] at hl
            push_neg at hl
            rw [ihout l hl.2]
            exact hget1other l hl.1
          · intro l hl
            rcases List.mem_cons.1 hl with rfl | hl
            · exact ⟨0, (relative_location_directed_zero l dir).symm⟩
            · obtain ⟨k, hk⟩ := hprog l hl
              exact ⟨k + 1, by rw [hk]; simp⟩
          · intro l hl
            rcases List.mem_cons.1 hl with rfl | hl
            · right
              refine ⟨cell, letter, c2, hget, hadd, ?_⟩
              rw [ihout l hlocnot]
              exact hget1self
            · have hlne : l ≠ loc := by
                intro hc
                rw [hc] at hl
                exact hlocnot hl
              rcases ihrel l hl with hsame | ⟨c1, ch, c2x, hc1, haddx, hc2⟩
              · left
                rw [hsame]
                exact hget1other l hlne
              · right
                refine ⟨c1, ch, c2x, ?_, haddx, hc2⟩
                rw [← hget1other l hlne]
                exact hc1

/-- Undoing the updated locations of a failed letter loop restores the
pre-loop cell map exactly, provided the placed word id was fresh and every
filled cell carried a word id. -/
theorem undoLocations_restores (wid : Nat) (dir : Direction) :
    ∀ (updated : List Location) (cm cmE cm2 : List (Location × Cell)),
    updated.Nodup →
    cm.map Prod.fst = cmE.map Prod.fst →
    (cmE.map Prod.fst).Nodup →
    (∀ l, l ∉ updated → mapGet cm l = mapGet cmE l) →
    (∀ l ∈ updated,
      mapGet cm l = mapGet cmE l ∨
      ∃ c1 ch c2, mapGet cmE l = some c1 ∧ c1.add_word wid ch dir = Except.ok c2 ∧
        mapGet cm l = some c2) →
    (∀ l ∈ updated, ∀ c1, mapGet cmE l = some c1 →
      c1.get_across_word_id ≠ some wid ∧ c1.get_down_word_id ≠ some wid ∧
      (c1.contains_letter = true →
        (c1.get_across_word_id.isSome = true ∨ c1.get_down_word_id.isSome = true))) →
    undoLocations wid cm updated = some cm2 →
    cm2 = cmE
  | [], cm, cmE, cm2, _, hkeys, hnodupE, hout, _, _, h => by
    have hcm : cm = cm2 := by simpa [undoLocations] using h
    rw [← hcm]
    refine assoc_ext hkeys ?_ (fun k => hout k (by simp))
    rw [hkeys]
    exact hnodupE
  | l :: rest, cm, cmE, cm2, hnodup, hkeys, hnodupE, hout, hrel, hfresh, h => by
    rw [undoLocations] at h
    cases hc : mapGet cm l with
    | none => rw [hc] at h; simp at h
    | some cell =>
      rw [hc] at h
      dsimp only at h
      have hEeq : mapGet cmE l = some (cell.remove_word wid) := by
        rcases hrel l (List.mem_cons_self l rest) with hsame | ⟨c1, ch, c2, hE, hadd, hcm⟩
        · have hE : mapGet cmE l = some cell := by rw [← hsame, hc]
          obtain ⟨hfa, hfd, hlab⟩ := hfresh l (List.mem_cons_self l rest) cell hE
          rw [cell_remove_noop cell wid hfa hfd hlab]
          exact hE
        · have hcell : cell = c2 := by
            have := hcm.symm.trans hc
            exact (Option.some_injective _ this).symm
          obtain ⟨hfa, hfd, hlab⟩ := hfresh l (List.mem_cons_self l rest) c1 hE
          rw [hcell, cell_add_remove c1 c2 wid ch dir hadd hfa hfd hlab]
          exact hE
      have hkeys1 : (mapInsert cm l (cell.remove_word wid)).map Prod.fst =
          cmE.map Prod.fst := by
        rw [mapKeys_mapInsert_of_get_some _ (by rw [hc]; rfl)]
        exact hkeys
      have hnodup1 := List.nodup_cons.1 hnodup
      refine undoLocations_restores wid dir rest
        (mapInsert cm l (cell.remove_word wid)) cmE cm2 hnodup1.2 hkeys1 hnodupE
        ?_ ?_ (fun l2 hl2 => hfresh l2 (List.mem_cons_of_mem l hl2)) h
      · intro l2 hl2
        by_cases hll : l2 = l
        · rw [hll, mapGet_mapInsert, if_pos rfl]
          exact hEeq.symm
        · rw [mapGet_mapInsert, if_neg hll]
          refine hout l2 ?_
          intro hmem
          rcases List.mem_cons.1 hmem with hx | hx
          · exact hll hx
          · exact hl2 hx
      · intro l2 hl2
        have hll : l2 ≠ l := by
          intro hx
          rw [hx] at hl2
          exact hnodup1.1 hl2
        rw [mapGet_mapInsert, if_neg hll]
        exact hrel l2 (List.mem_cons_of_mem l hl2)

/-- A failed `place_word_in_cell` leaves the word map and every cell's
letter content unchanged, for a grid whose cells all lie in its bounding
box, whose placed word id does not appear in any cell, and whose filled
cells all carry a word id. -/
theorem placement_error_preserves_content (g : CrosswordGrid) (l : Location)
    (wid idx : Nat) (dir : Direction) (g' : CrosswordGrid) (e : CrosswordError)
    (hbox : g.box_exact = true)
    (hfresh : g.id_unused_in_cells wid = true)
    (hlab : g.filled_cells_labelled = true)
    (hres : g.place_word_in_cell l wid idx dir = some (g', Except.error e)) :
    g'.word_map = g.word_map ∧ ∀ l2, g'.filledAt l2 = g.filledAt l2 := by
  unfold CrosswordGrid.place_word_in_cell at hres
  cases hw : g.get_word wid with
  | error e0 =>
    rw [hw] at hres
    dsimp only at hres
    simp only [Option.some.injEq, Prod.mk.injEq] at hres
    rw [← hres.1]
    exact ⟨rfl, fun _ => rfl⟩
  | ok word =>
    rw [hw] at hres
    dsimp only at hres
    cases hchk : g.check_cells_at_ends_free_for_word l word idx dir with
    | none =>
      rw [hchk] at hres
      simp at hres
    | some p =>
      obtain ⟨g1, res1⟩ := p
      rw [hchk] at hres
      have k1 := check_cells_at_ends_spec g l word idx dir g1 res1 hbox hchk
      cases res1 with
      | error e1 =>
        dsimp only at hres
        simp only [Option.some.injEq, Prod.mk.injEq] at hres
        rw [← hres.1]
        exact ⟨k1.wm, k1.filled⟩
      | ok start =>
        dsimp only at hres
        cases hloop : g1.place_letters_loop word.word_text wid start dir with
        | mk g2 pr =>
          obtain ⟨updated, res2⟩ := pr
          rw [hloop] at hres
          cases res2 with
          | ok u =>
            obtain ⟨⟩ := u
            dsimp only at hres
            cases hu : word.update_location start dir with
            | none =>
              rw [hu] at hres
              simp at hres
            | some w2 =>
              rw [hu] at hres
              dsimp only at hres
              simp only [Option.some.injEq, Prod.mk.injEq] at hres
              exact absurd hres.2 (by simp)
          | error e2 =>
            dsimp only at hres
            cases hundo : undoLocations wid g2.cell_map updated with
            | none =>
              rw [hundo] at hres
              simp at hres
            | some cm2 =>
              rw [hundo] at hres
              dsimp only at hres
              have IH := place_letters_loop_err word.word_text g1 wid start dir
                g2 updated e2 hloop
              obtain ⟨ihwm, ihtl, ihbr, ihkeys, ihnodup, ihout, _, ihrel⟩ := IH
              have hfresh1 : g1.id_unused_in_cells wid = true :=
                id_unused_of_kept k1 hfresh
              have hlab1 : g1.filled_cells_labelled = true :=
                labelled_of_kept k1 hlab
              have hnodupE : (g1.cell_map.map Prod.fst).Nodup :=
                ((box_exact_iff g1).1 k1.box).2.2.1
              have hfreshget : ∀ l2 ∈ updated, ∀ c1,
                  mapGet g1.cell_map l2 = some c1 →
                  c1.get_across_word_id ≠ some wid ∧
                  c1.get_down_word_id ≠ some wid ∧
                  (c1.contains_letter = true →
                    (c1.get_across_word_id.isSome = true ∨
                      c1.get_down_word_id.isSome = true)) := by
                intro l2 _ c1 hg
                obtain ⟨hfa, hfd⟩ := id_unused_get hfresh1 hg
                exact ⟨hfa, hfd, labelled_get hlab1 hg⟩
              have hcm2 : cm2 = g1.cell_map :=
                undoLocations_restores wid dir updated g2.cell_map g1.cell_map cm2
                  ihnodup ihkeys hnodupE ihout ihrel hfreshget hundo
              have hgeq : ({ g2 with cell_map := cm2 } : CrosswordGrid) = g1 := by
                rw [show ({ g2 with cell_map := cm2 } : CrosswordGrid) =
                  ⟨cm2, g2.word_map, g2.top_left_cell_index,
                    g2.bottom_right_cell_index⟩ from rfl,
                  hcm2, ihwm, ihtl, ihbr]
              rw [hgeq] at hres
              cases hfit : g1.fit_to_size with
              | none =>
                rw [hfit] at hres
                simp at hres
              | some g3 =>
                rw [hfit] at hres
                dsimp only at hres
                simp only [Option.some.injEq, Prod.mk.injEq] at hres
                obtain ⟨k2, _, _⟩ := fit_to_size_spec g1 g3 k1.box hfit
                rw [← hres.1]
                exact ⟨(k1.trans k2).wm, (k1.trans k2).filled⟩

/-- C1 (amended): a failed `place_word_in_cell` has no partial effect on
the letter content or the word map — `g'.word_map = g.word_map` and every
cell's filled content (`filledAt`) is unchanged — whenever the grid's cells
all lie inside its bounding box, the word id being placed appears in no
cell, and every filled cell carries a word id.  The rendered text
(`to_string`) is NOT always identical: the boundary-check failure path
keeps the rows/columns added by `expand_to_fit_cell`
(see the counterexample). -/
theorem c1_failed_placement_no_partial_effect (g : CrosswordGrid) (l : Location)
    (wid idx : Nat) (dir : Direction) (g' : CrosswordGrid) (e : CrosswordError)
    (hbox : g.box_exact = true)
    (hfresh : g.id_unused_in_cells wid = true)
    (hlab : g.filled_cells_labelled = true)
    (hres : g.place_word_in_cell l wid idx dir = some (g', Except.error e)) :
    g'.word_map = g.word_map ∧ ∀ l2, g'.filledAt l2 = g.filledAt l2 :=
  placement_error_preserves_content g l wid idx dir g' e hbox hfresh hlab hres

/-- C1 counterexample: placing "BA" (word 1, anchored by its second letter)
downwards at `(-1, 4)` on the fitted ALPHA grid fails with
`NonEmptyWordBoundary` — the cell below the word's end holds the final 'A'
of ALPHA — yet the grid handed back renders as three rows where the
original rendered as one: the rows added by `expand_to_fit_cell` are kept
on this failure path. -/
theorem c1_failed_placement_changes_rendered_text :
    c1Grid.place_word_in_cell ⟨-1, 4⟩ 1 1 Direction.Down =
      some (c1After,
        Except.error (CrosswordError.NonEmptyWordBoundary ⟨0, 4⟩ ⟨-1, 4⟩)) ∧
    c1Grid.to_string = some "ALPHA\n".toList ∧
    c1After.to_string = some "     \n     \nALPHA\n".toList ∧
    c1After.to_string ≠ c1Grid.to_string := by decide

theorem c1_failed_placement_no_partial_effect_witness :
    c1Grid.box_exact = true ∧ c1Grid.id_unused_in_cells 1 = true ∧
    c1Grid.filled_cells_labelled = true ∧
    c1Grid.place_word_in_cell ⟨-1, 4⟩ 1 1 Direction.Down =
      some (c1After,
        Except.error (CrosswordError.NonEmptyWordBoundary ⟨0, 4⟩ ⟨-1, 4⟩)) ∧
    c1After.word_map = c1Grid.word_map ∧
    c1After.filledAt ⟨0, 4⟩ = c1Grid.filledAt ⟨0, 4⟩ := by
  have happ := c1_failed_placement_no_partial_effect c1Grid ⟨-1, 4⟩ 1 1
    Direction.Down c1After
    (CrosswordError.NonEmptyWordBoundary ⟨0, 4⟩ ⟨-1, 4⟩)
    (by decide) (by decide) (by decide) (by decide)
  exact ⟨by decide, by decide, by decide, by decide, happ.1, happ.2 ⟨0, 4⟩⟩

/-! ### Matrix lemmas (C7) -/

theorem matGet_mkMat (nr nc : Nat) (f : Nat → Nat → Int) (i j : Nat) :
    matGet (mkMat nr nc f) i j = if i < nr ∧ j < nc then f i j else 0 := by
  by_cases hi : i < nr
  · have hrow : (mkMat nr nc f).getD i [] = (List.range nc).map (fun j => f i j) := by
      unfold mkMat
      rw [List.getD_eq_getElem?_getD, List.getElem?_map, List.getElem?_range hi]
      rfl
    unfold matGet
    rw [hrow]
    by_cases hj : j < nc
    · rw [List.getD_eq_getElem?_getD, List.getElem?_map, List.getElem?_range hj,
        if_pos ⟨hi, hj⟩]
      rfl
    · rw [List.getD_eq_getElem?_getD, List.getElem?_map,
        List.getElem?_eq_none (by simp only [List.length_range]; omega),
        if_neg (fun hc => hj hc.2)]
      rfl
  · have hrow : (mkMat nr nc f).getD i [] = [] := by
      unfold mkMat
      rw [List.getD_eq_getElem?_getD, List.getElem?_map,
        List.getElem?_eq_none (by simp only [List.length_range]; omega)]
      rfl
    unfold matGet
    rw [hrow, if_neg (fun hc => hi hc.1)]
    rfl

theorem matRowsOf_mkMat (nr nc : Nat) (f : Nat → Nat → Int) :
    matRowsOf (mkMat nr nc f) = nr := by
  simp [matRowsOf, mkMat]

theorem matColsOf_mkMat (nr nc : Nat) (f : Nat → Nat → Int) :
    matColsOf (mkMat nr nc f) = if nr = 0 then 0 else nc := by
  cases nr with
  | zero => simp [matColsOf, mkMat]
  | succ n =>
    simp only [matColsOf, mkMat, List.range_succ_eq_map, List.map_cons,
      List.headD_cons, List.length_map, List.length_range]
    simp

theorem countMat_mkMat_eq_zero (nr nc : Nat) (f : Nat → Nat → Int)
    (p : Int → Bool) :
    countMat p (mkMat nr nc f) = 0 ↔
      ∀ i < nr, ∀ j < nc, p (f i j) = false := by
  unfold countMat mkMat
  rw [List.map_map, List.sum_eq_zero_iff]
  constructor
  · intro h i hi j hj
    have hmem : ((List.range nc).map (fun j => f i j)).countP p ∈
        (List.range nr).map
          ((fun row => row.countP p) ∘ fun i => (List.range nc).map (fun j => f i j)) :=
      List.mem_map.2 ⟨i, List.mem_range.2 hi, rfl⟩
    have hz := h _ hmem
    rw [List.countP_eq_zero] at hz
    have := hz (f i j) (List.mem_map.2 ⟨j, List.mem_range.2 hj, rfl⟩)
    exact Bool.not_eq_true _ ▸ (by simpa using this)
  · intro h x hx
    obtain ⟨i, hi, rfl⟩ := List.mem_map.1 hx
    show ((List.range nc).map (fun j => f i j)).countP p = 0
    rw [List.countP_eq_zero]
    intro a ha
    obtain ⟨j, hj, rfl⟩ := List.mem_map.1 ha
    rw [h i (List.mem_range.1 hi) j (List.mem_range.1 hj)]
    simp

theorem overlap_count_iff (R C : Nat) (A B : List (List Int))
    (hra : matRowsOf A = R) (hca : matColsOf A = if R = 0 then 0 else C) :
    (countMat (fun x => decide (1 < x)) (matMul A B) ≠ 0) ↔
      ∃ i < R, ∃ j < C, 1 < matGet A i j * matGet B i j := by
  unfold matMul
  rw [hra, hca]
  by_cases hR : R = 0
  · subst hR
    rw [if_pos rfl]
    constructor
    · intro h
      exact absurd ((countMat_mkMat_eq_zero 0 0 _ _).2 (fun i hi => by omega)) h
    · rintro ⟨i, hi, _⟩
      omega
  · rw [if_neg hR, Ne, countMat_mkMat_eq_zero]
    constructor
    · intro h
      push_neg at h
      obtain ⟨i, hi, j, hj, hd⟩ := h
      refine ⟨i, hi, j, hj, ?_⟩
      simp only [ne_eq, Bool.not_eq_false, decide_eq_true_iff] at hd
      exact hd
    · rintro ⟨i, hi, j, hj, hlt⟩ h
      have := h i hi j hj
      simp [hlt] at this

theorem mul_sub_eq_zero_iff (a b : Int) :
    (a * b) * (a - b) = 0 ↔ (a ≠ 0 → b ≠ 0 → a = b) := by
  constructor
  · intro h ha hb
    rcases mul_eq_zero.1 h with h1 | h2
    · rcases mul_eq_zero.1 h1 with h | h
      · exact absurd h ha
      · exact absurd h hb
    · exact sub_eq_zero.1 h2
  · intro h
    by_cases ha : a = 0
    · rw [ha]
      ring
    · by_cases hb : b = 0
      · rw [hb]
        ring
      · rw [h ha hb]
        ring

theorem mismatch_count_iff (R C : Nat) (A B : List (List Int))
    (hra : matRowsOf A = R) (hca : matColsOf A = if R = 0 then 0 else C) :
    (countMat (fun x => decide (x ≠ 0)) (matMul (matMul A B) (matSub A B)) = 0) ↔
      ∀ i < R, ∀ j < C, matGet A i j ≠ 0 → matGet B i j ≠ 0 →
        matGet A i j = matGet B i j := by
  unfold matMul matSub
  rw [hra, hca]
  by_cases hR : R = 0
  · subst hR
    rw [if_pos rfl]
    constructor
    · intro _ i hi
      omega
    · intro _
      rw [matRowsOf_mkMat, matColsOf_mkMat, countMat_mkMat_eq_zero]
      intro i hi
      omega
  · rw [if_neg hR, matRowsOf_mkMat, matColsOf_mkMat, if_neg hR,
      countMat_mkMat_eq_zero]
    constructor
    · intro h i hi j hj
      have := h i hi j hj
      rw [matGet_mkMat, matGet_mkMat, if_pos ⟨hi, hj⟩, if_pos ⟨hi, hj⟩] at this
      rw [decide_eq_false_iff_not, not_not] at this
      exact (mul_sub_eq_zero_iff _ _).1 this
    · intro h i hi j hj
      rw [matGet_mkMat, matGet_mkMat, if_pos ⟨hi, hj⟩, if_pos ⟨hi, hj⟩,
        decide_eq_false_iff_not, not_not]
      exact (mul_sub_eq_zero_iff _ _).2 (h i hi j hj)

theorem squares_count_iff (R C : Nat) (A B : List (List Int)) (hR : R ≠ 0)
    (hra : matRowsOf A = R) (hca : matColsOf A = if R = 0 then 0 else C)
    (hrb : matRowsOf B = R) (hcb : matColsOf B = if R = 0 then 0 else C) :
    (count_squares (matAdd (binarise_array_threshold A 1)
        (binarise_array_threshold B 1)) = 0) ↔
      ¬ (∃ i < R, ∃ j < C, i + 1 < R ∧ j + 1 < C ∧
        (∀ a, a ≤ 1 → ∀ b, b ≤ 1 →
          (1 < |matGet A (i + a) (j + b)| ∨ 1 < |matGet B (i + a) (j + b)|))) := by
  rw [if_neg hR] at hca hcb
  have hrowD : ∀ f : Nat → Nat → Int, matRowsOf (mkMat R C f) = R :=
    fun f => matRowsOf_mkMat R C f
  have hcolD : ∀ f : Nat → Nat → Int, matColsOf (mkMat R C f) = C :=
    fun f => by rw [matColsOf_mkMat, if_neg hR]
  unfold count_squares
  simp only [binarise_array_threshold, matAdd, binarise_array, shift_by_row,
    shift_by_col, hra, hca, hrb, hcb, hrowD, hcolD]
  rw [countMat_mkMat_eq_zero]
  set E : Nat → Nat → Int :=
    matGet (mkMat R C (fun i j =>
      if matGet (mkMat R C (fun i j =>
        matGet (mkMat R C (fun i j => if 1 < |matGet A i j| then 1 else 0)) i j +
        matGet (mkMat R C (fun i j => if 1 < |matGet B i j| then 1 else 0)) i j)) i j ≠ 0
      then 1 else 0)) with hE
  have hEbound : ∀ x y, 0 ≤ E x y ∧ E x y ≤ 1 := by
    intro x y
    simp only [hE]
    rw [matGet_mkMat]
    split
    · split <;> omega
    · omega
  have hEone : ∀ x y, E x y = 1 ↔
      x < R ∧ y < C ∧ (1 < |matGet A x y| ∨ 1 < |matGet B x y|) := by
    intro x y
    simp only [hE]
    rw [matGet_mkMat]
    by_cases hxy : x < R ∧ y < C
    · rw [if_pos hxy]
      by_cases hm : matGet (mkMat R C (fun i j =>
          matGet (mkMat R C (fun i j => if 1 < |matGet A i j| then 1 else 0)) i j +
          matGet (mkMat R C (fun i j => if 1 < |matGet B i j| then 1 else 0)) i j)) x y ≠ 0
      · rw [if_pos hm]
        rw [matGet_mkMat, if_pos hxy, matGet_mkMat, matGet_mkMat, if_pos hxy,
          if_pos hxy] at hm
        constructor
        · intro _
          refine ⟨hxy.1, hxy.2, ?_⟩
          by_contra hcon
          push_neg at hcon
          rw [if_neg (not_lt.2 hcon.1), if_neg (not_lt.2 hcon.2)] at hm
          exact hm rfl
        · intro _
          rfl
      · rw [if_neg hm]
        rw [matGet_mkMat, if_pos hxy, matGet_mkMat, matGet_mkMat, if_pos hxy,
          if_pos hxy, not_not] at hm
        constructor
        · intro h
          omega
        · rintro ⟨_, _, hd | hd⟩
          · rw [if_pos hd] at hm
            split at hm <;> omega
          · rw [if_pos hd] at hm
            split at hm <;> omega
    · rw [if_neg hxy]
      constructor
      · intro h
        omega
      · rintro ⟨h1, h2, _⟩
        exact absurd ⟨h1, h2⟩ hxy
  have hEz : ∀ x y, ¬(x < R ∧ y < C) → E x y = 0 := by
    intro x y hxy
    simp only [hE]
    rw [matGet_mkMat, if_neg hxy]
  have hsum : ∀ i < R, ∀ j < C,
      matGet (mkMat R C (fun i j =>
        matGet (mkMat R C (fun i j =>
          E i j + matGet (mkMat R C (fun i j => E (i + 1) j)) i j)) i j +
        matGet (mkMat R C (fun i j => E i (j + 1))) i j)) i j +
      matGet (mkMat R C (fun i j =>
        matGet (mkMat R C (fun i j => E (i + 1) j)) i (j + 1))) i j =
      E i j + E (i + 1) j + E i (j + 1) + E (i + 1) (j + 1) := by
    intro i hi j hj
    have hcc : i < R ∧ j < C := ⟨hi, hj⟩
    simp only [matGet_mkMat, if_pos hcc]
    by_cases hj1 : j + 1 < C
    · rw [if_pos ⟨hi, hj1⟩]
    · rw [if_neg (fun hc => hj1 hc.2), hEz (i + 1) (j + 1) (fun hc => hj1 hc.2)]
  constructor
  · intro h
    rintro ⟨i, hi, j, hj, hi1, hj1, hblock⟩
    have hc4 := h i hi j hj
    rw [hsum i hi j hj] at hc4
    have e00 : E i j = 1 := (hEone i j).2
      ⟨hi, hj, by have := hblock 0 (by omega) 0 (by omega); simpa using this⟩
    have e10 : E (i + 1) j = 1 := (hEone (i + 1) j).2
      ⟨hi1, hj, by have := hblock 1 (by omega) 0 (by omega); simpa using this⟩
    have e01 : E i (j + 1) = 1 := (hEone i (j + 1)).2
      ⟨hi, hj1, by have := hblock 0 (by omega) 1 (by omega); simpa using this⟩
    have e11 : E (i + 1) (j + 1) = 1 := (hEone (i + 1) (j + 1)).2
      ⟨hi1, hj1, by have := hblock 1 (by omega) 1 (by omega); simpa using this⟩
    rw [e00, e10, e01, e11] at hc4
    simp at hc4
  · intro h i hi j hj
    rw [hsum i hi j hj]
    by_cases h4 : E i j + E (i + 1) j + E i (j + 1) + E (i + 1) (j + 1) = 4
    · exfalso
      have b00 := hEbound i j
      have b10 := hEbound (i + 1) j
      have b01 := hEbound i (j + 1)
      have b11 := hEbound (i + 1) (j + 1)
      have e00 : E i j = 1 := by omega
      have e10 : E (i + 1) j = 1 := by omega
      have e01 : E i (j + 1) = 1 := by omega
      have e11 : E (i + 1) (j + 1) = 1 := by omega
      obtain ⟨_, _, d00⟩ := (hEone i j).1 e00
      obtain ⟨hi1, _, d10⟩ := (hEone (i + 1) j).1 e10
      obtain ⟨_, hj1, d01⟩ := (hEone i (j + 1)).1 e01
      obtain ⟨_, _, d11⟩ := (hEone (i + 1) (j + 1)).1 e11
      refine h ⟨i, hi, j, hj, hi1, hj1, ?_⟩
      intro a ha b hb
      interval_cases a <;> interval_cases b <;> simpa using (by assumption)
    · exact beq_eq_false_iff_ne.2 h4

theorem c7_assess_characterization (m other : CrosswordGridMatrix) (ors ocs : Int) :
    (m.assess_compatability other ors ocs).compatible = true ↔
      amendedMatrixCompatible m other ors ocs := by
  have hra : matRowsOf (m.alignedPadded other ors ocs).1.matrix =
      (m.alignedPadded other ors ocs).1.nrows := matRowsOf_mkMat _ _ _
  have hca : matColsOf (m.alignedPadded other ors ocs).1.matrix =
      if (m.alignedPadded other ors ocs).1.nrows = 0 then 0
      else (m.alignedPadded other ors ocs).1.ncols := matColsOf_mkMat _ _ _
  have hrb : matRowsOf (m.alignedPadded other ors ocs).2.matrix =
      (m.alignedPadded other ors ocs).1.nrows := matRowsOf_mkMat _ _ _
  have hcb : matColsOf (m.alignedPadded other ors ocs).2.matrix =
      if (m.alignedPadded other ors ocs).1.nrows = 0 then 0
      else (m.alignedPadded other ors ocs).1.ncols := matColsOf_mkMat _ _ _
  have hh := overlap_count_iff (m.alignedPadded other ors ocs).1.nrows
    (m.alignedPadded other ors ocs).1.ncols
    (m.alignedPadded other ors ocs).1.matrix
    (m.alignedPadded other ors ocs).2.matrix hra hca
  have hm := mismatch_count_iff (m.alignedPadded other ors ocs).1.nrows
    (m.alignedPadded other ors ocs).1.ncols
    (m.alignedPadded other ors ocs).1.matrix
    (m.alignedPadded other ors ocs).2.matrix hra hca
  simp only [CrosswordGridMatrix.assess_compatability, amendedMatrixCompatible,
    Bool.and_eq_true, decide_eq_true_eq, beq_iff_eq, Bool.not_eq_true',
    look_for_squares, decide_eq_false_iff_not, not_lt, Nat.le_zero]
  by_cases hR0 : (m.alignedPadded other ors ocs).1.nrows = 0
  · constructor
    · rintro ⟨⟨hov, _⟩, _⟩
      obtain ⟨i, hi, _⟩ := hh.1 hov
      omega
    · rintro ⟨_, ⟨i, hi, _⟩, _⟩
      omega
  · have hs := squares_count_iff (m.alignedPadded other ors ocs).1.nrows
      (m.alignedPadded other ors ocs).1.ncols
      (m.alignedPadded other ors ocs).1.matrix
      (m.alignedPadded other ors ocs).2.matrix hR0 hra hca hrb hcb
    constructor
    · rintro ⟨⟨hov, hnm⟩, hsq⟩
      exact ⟨hm.1 hnm, hh.1 hov, hs.1 hsq⟩
    · rintro ⟨hnm, hov, hsq⟩
      exact ⟨⟨hh.2 hov, hm.2 hnm⟩, hs.2 hsq⟩

/-- C7 (amended): matrix compatibility at an offset holds exactly when the
three corrected conditions hold on the aligned rasters — every overlapping
nonzero cell has identical content, some shared cell has entry product
strictly greater than 1 (so a black/black overlap, product 1·1, does NOT
count as an overlap), and no axis-aligned 2×2 block is all-nonzero in the
union of the rasters binarised at threshold 1 (black cells, value 1, are
invisible to this test) — and, as a consequence, a horizontally placed
"BEE" and a vertically placed "BEAR" are compatible at exactly 3 distinct
relative offsets over the full offset range the Rust test enumerates. -/
theorem c7_matrix_compatibility_amended :
    (∀ (m other : CrosswordGridMatrix) (ors ocs : Int),
      (m.assess_compatability other ors ocs).compatible = true ↔
        amendedMatrixCompatible m other ors ocs) ∧
    c7CompatCount = 3 :=
  ⟨c7_assess_characterization, by decide⟩

/-- C7 counterexample: two rasters whose only overlap is a shared black
cell (value 1) satisfy all three of the spec's conditions — the
overlapping nonzero cell has identical content, the rasters overlap in a
shared cell, and their binarised union has no 2×2 block — yet
`assess_compatability` judges them incompatible, because its overlap count
only accepts cells with product strictly greater than 1. -/
theorem c7_black_black_counterexample :
    specMatrixCompatible blackCellMatrix blackCellMatrix 0 0 ∧
    (blackCellMatrix.assess_compatability blackCellMatrix 0 0).compatible = false :=
  ⟨by decide, by decide⟩

/-! ### Generator lemmas (C4, C5, C9) -/

theorem argmaxAux_lt {α : Type} [LinearOrder α] :
    ∀ (l : List α) (i bi : Nat) (bv : α), bi < i →
      argmaxAux l i bi bv < i + l.length
  | [], i, bi, bv, h => by
    rw [argmaxAux]
    simpa using h
  | x :: rest, i, bi, bv, h => by
    rw [argmaxAux]
    split
    · have := argmaxAux_lt rest (i + 1) i x (by omega)
      simp only [List.length_cons]
      omega
    · have := argmaxAux_lt rest (i + 1) bi bv (by omega)
      simp only [List.length_cons]
      omega

theorem argmaxLast_lt {α : Type} [LinearOrder α] {l : List α} {idx : Nat}
    (h : argmaxLast l = some idx) : idx < l.length := by
  cases l with
  | nil => simp [argmaxLast] at h
  | cons x rest =>
    simp only [argmaxLast, Option.some.injEq] at h
    have := argmaxAux_lt rest 1 0 x (by omega)
    rw [← h]
    simp only [List.length_cons]
    omega

theorem pickLoop_isSome :
    ∀ (fuel num : Nat) (best : List GridAttemptLite)
      (entries : List (GridAttemptLite × Int)),
      num ≤ fuel + best.length →
      ((pickLoop num fuel best entries).isSome = true ↔
        num ≤ best.length + entries.length)
  | 0, num, best, entries, hfuel => by
    rw [pickLoop]
    by_cases hlen : best.length < num
    · exact absurd hfuel (by omega)
    · rw [if_neg hlen]
      constructor
      · intro _
        omega
      · intro _
        rfl
  | fuel + 1, num, best, entries, hfuel => by
    rw [pickLoop]
    by_cases hlen : best.length < num
    · rw [if_pos hlen]
      cases hmax : argmaxLast (entries.map Prod.snd) with
      | none =>
        have hemp : entries = [] := by
          cases entries with
          | nil => rfl
          | cons e rest => simp [argmaxLast] at hmax
        subst hemp
        dsimp only
        constructor
        · intro hc
          simp at hc
        · intro hc
          simp at hc
          omega
      | some idx =>
        dsimp only
        have hlt : idx < entries.length := by
          have := argmaxLast_lt hmax
          simpa using this
        cases hget : entries.get? idx with
        | none =>
          rw [List.get?_eq_none] at hget
          omega
        | some p =>
          dsimp only
          have IH := pickLoop_isSome fuel num (best ++ [p.1])
            ((entries.eraseIdx idx).map (updateEntry p.1))
            (by simp only [List.length_append, List.length_cons, List.length_nil]; omega)
          rw [IH]
          have herase : (entries.eraseIdx idx).length = entries.length - 1 := by
            rw [List.length_eraseIdx]
            simp [hlt]
          simp only [List.length_map, List.length_append, List.length_cons,
            List.length_nil, herase]
          omega
    · rw [if_neg hlen]
      constructor
      · intro _
        omega
      · intro _
        rfl

/-- C5 (amended): the generator can fail outright.  `pick_best_varied`
panics (`max_by_key(..).unwrap()` on an empty list) exactly when fewer
distinct rendered grids than `num_to_pick` are available; with the default
`num-per-gen` of 15 a single-word (or empty) population therefore panics,
and an empty seed word list already panics inside `new_from_singletons`
at the `singletons[0]` access.  When enough distinct grids exist the call
returns normally, which is the only sense in which the worst case degrades
gracefully. -/
theorem c5_generator_failure_amended :
    (∀ (grid_attempts : List GridAttemptLite) (num_to_pick : Nat),
      (pick_best_varied grid_attempts num_to_pick).isSome = true ↔
        num_to_pick ≤ (dedupByKey grid_attempts []).length) ∧
    (∀ seed, CrosswordGrid.random_singleton_grids [] seed = some []) ∧
    (∀ settings_map, new_from_singletons_firstGrid [] settings_map = none) := by
  refine ⟨?_, fun _ => rfl, fun _ => rfl⟩
  intro l n
  unfold pick_best_varied
  have := pickLoop_isSome n n []
    ((dedupByKey l []).map (fun a => (a, a.summary_score))) (by simp)
  simpa using this

/-- C5 counterexample: with the default `num-per-gen` of 15, a population
holding a single distinct grid (what a single-word seed list yields, since
no second word can ever be placed) makes `pick_best_varied` panic, as does
an empty population. -/
theorem c5_single_word_panics :
    pick_best_varied [candA] 15 = none ∧ pick_best_varied [] 15 = none :=
  ⟨by decide, by decide⟩

theorem pickLoop_step (num fuel : Nat) (best : List GridAttemptLite)
    (entries : List (GridAttemptLite × Int)) (idx : Nat) (p : GridAttemptLite × Int)
    (hlen : best.length < num)
    (hmax : argmaxLast (entries.map Prod.snd) = some idx)
    (hget : entries.get? idx = some p) :
    pickLoop num (fuel + 1) best entries =
      pickLoop num fuel (best ++ [p.1]) ((entries.eraseIdx idx).map (updateEntry p.1)) := by
  conv_lhs => rw [pickLoop]
  rw [if_pos hlen, hmax]
  dsimp only
  rw [hget]

theorem specPickLoop_step (num fuel : Nat) (best : List GridAttemptLite)
    (entries : List (GridAttemptLite × ℚ)) (idx : Nat) (p : GridAttemptLite × ℚ)
    (hlen : best.length < num)
    (hmax : argmaxLast (entries.map Prod.snd) = some idx)
    (hget : entries.get? idx = some p) :
    specPickLoop num (fuel + 1) best entries =
      specPickLoop num fuel (best ++ [p.1])
        ((entries.eraseIdx idx).map (specUpdateEntry p.1)) := by
  conv_lhs => rw [specPickLoop]
  rw [if_pos hlen, hmax]
  dsimp only
  rw [hget]

/-- C9 (amended): after each pick the loop does not subtract
`raw * similarity` from the running adjusted score; it truncates
`raw * (1 - similarity)` toward zero and takes the minimum with the
current adjusted score. -/
theorem c9_pick_adjustment_amended :
    ∀ (fuel num : Nat) (best : List GridAttemptLite)
      (entries : List (GridAttemptLite × Int)) (idx : Nat) (p : GridAttemptLite × Int),
      best.length < num →
      argmaxLast (entries.map Prod.snd) = some idx →
      entries.get? idx = some p →
      pickLoop num (fuel + 1) best entries =
        pickLoop num fuel (best ++ [p.1])
          ((entries.eraseIdx idx).map (fun e =>
            (e.1, min e.2 (f64toInt ((e.1.summary_score : ℚ) *
              (1 - calculate_similarity e.1.adjacency p.1.adjacency)))))) := by
  intro fuel num best entries idx p hlen hmax hget
  rw [pickLoop_step num fuel best entries idx p hlen hmax hget]
  congr 1
  refine List.map_congr_left ?_
  intro e _
  unfold updateEntry
  dsimp only
  by_cases h : f64toInt ((e.1.summary_score : ℚ) *
      (1 - calculate_similarity e.1.adjacency p.1.adjacency)) < e.2
  · rw [if_pos h, min_eq_right (le_of_lt h)]
  · rw [if_neg h, min_eq_left (not_lt.1 h)]

theorem c9_pick_adjustment_amended_witness :
    ([] : List GridAttemptLite).length < 1 ∧
    argmaxLast (([(candA, (102 : Int)), (candB, 101)]).map Prod.snd) = some 0 ∧
    ([(candA, (102 : Int)), (candB, 101)]).get? 0 = some (candA, 102) ∧
    pickLoop 1 1 [] [(candA, (102 : Int)), (candB, 101)] =
      pickLoop 1 0 ([] ++ [candA])
        ((([(candA, (102 : Int)), (candB, 101)]).eraseIdx 0).map (fun e =>
          (e.1, min e.2 (f64toInt ((e.1.summary_score : ℚ) *
            (1 - calculate_similarity e.1.adjacency candA.adjacency)))))) :=
  ⟨by decide, by decide, by decide,
    c9_pick_adjustment_amended 0 1 [] [(candA, 102), (candB, 101)] 0 (candA, 102)
      (by decide) (by decide) (by decide)⟩

/-- C9 counterexample: under the code's min-of-truncation rule the
three-candidate population A(102), B(101, half its adjacency union shared
with A), C(50, disjoint from A) selects A then C — B's adjusted score
truncates from 50.5 to 50 and loses the tie to C — while the spec's
"reduce by raw_score * similarity" rule keeps B at 50.5 and selects A
then B. -/
theorem c9_adjustment_counterexample :
    pick_best_varied [candA, candB, candC] 2 = some [candA, candC] ∧
    spec_pick_best_varied [candA, candB, candC] 2 = some [candA, candB] := by
  have simBA : calculate_similarity candB.adjacency candA.adjacency = 1 / 2 := by
    norm_num [calculate_similarity, candA, candB, matAdd, matMul, matSum, countMat,
      mkMat, matGet, matRowsOf, matColsOf, List.range_succ]
  have simCA : calculate_similarity candC.adjacency candA.adjacency = 0 := by
    norm_num [calculate_similarity, candA, candC, matAdd, matMul, matSum, countMat,
      mkMat, matGet, matRowsOf, matColsOf, List.range_succ]
  have simBC : calculate_similarity candB.adjacency candC.adjacency = 0 := by
    norm_num [calculate_similarity, candB, candC, matAdd, matMul, matSum, countMat,
      mkMat, matGet, matRowsOf, matColsOf, List.range_succ]
  have hupB : updateEntry candA (candB, (101 : Int)) = (candB, 50) := by
    simp only [updateEntry]
    rw [simBA]
    norm_num [f64toInt, candB]
  have hupC : updateEntry candA (candC, (50 : Int)) = (candC, 50) := by
    simp only [updateEntry]
    rw [simCA]
    norm_num [f64toInt, candC]
  have hupB2 : updateEntry candC (candB, (50 : Int)) = (candB, 50) := by
    simp only [updateEntry]
    rw [simBC]
    norm_num [f64toInt, candB]
  constructor
  · show pickLoop 2 2 [] [(candA, 102), (candB, 101), (candC, 50)] =
      some [candA, candC]
    rw [pickLoop_step 2 1 [] _ 0 (candA, 102) (by decide) (by decide) (by decide)]
    simp only [List.eraseIdx, List.map, List.nil_append]
    rw [hupB, hupC]
    rw [pickLoop_step 2 0 [candA] _ 1 (candC, 50) (by decide) (by decide) (by decide)]
    simp only [List.eraseIdx, List.map]
    rw [hupB2]
    decide
  · show specPickLoop 2 2 [] [(candA, 102), (candB, 101), (candC, 50)] =
      some [candA, candB]
    rw [specPickLoop_step 2 1 [] _ 0 (candA, 102) (by decide) (by decide) (by decide)]
    simp only [List.eraseIdx, List.map, List.nil_append]
    have hsB : specUpdateEntry candA (candB, (101 : ℚ)) = (candB, 101 / 2) := by
      simp only [specUpdateEntry]
      rw [simBA]
      norm_num [candB]
    have hsC : specUpdateEntry candA (candC, (50 : ℚ)) = (candC, 50) := by
      simp only [specUpdateEntry]
      rw [simCA]
      norm_num [candC]
    rw [hsB, hsC]
    have hmax2 : argmaxLast ([(candB, (101 : ℚ) / 2), (candC, 50)].map Prod.snd) =
        some 0 := by
      simp only [List.map, argmaxLast, argmaxAux, Option.some.injEq]
      norm_num
    rw [specPickLoop_step 2 0 [candA] _ 0 (candB, 101 / 2) (by decide) hmax2 rfl]
    simp only [List.eraseIdx, List.map, List.nil_append]
    have simCB : calculate_similarity candC.adjacency candB.adjacency = 0 := by
      norm_num [calculate_similarity, candB, candC, matAdd, matMul, matSum,
        countMat, mkMat, matGet, matRowsOf, matColsOf, List.range_succ]
    have hsC2 : specUpdateEntry candB (candC, (50 : ℚ)) = (candC, 50) := by
      simp only [specUpdateEntry]
      rw [simCB]
      norm_num [candC]
    rw [hsC2]
    rw [specPickLoop]
    norm_num

/-- C4: the embedded pipeline is a pure function of the seed word list and
the settings map — for every move engine (itself fed only the parent
attempt and the seed derived from the explicit settings seed, summary
scores, round and child indices), two generators constructed identically
are identical, produce identical generations round for round, and render
identical final output. -/
theorem c4_pipeline_deterministic :
    ∀ (E : MoveEngine) (words : List (List Char))
      (settings_map : List (List Char × Nat)) (g1 g2 : CrosswordGeneratorLite),
      new_from_singletonsLite E words settings_map = some g1 →
      new_from_singletonsLite E words settings_map = some g2 →
      g1 = g2 ∧ generateLite E g1 = generateLite E g2 ∧
        ∀ n, Nat.iterate (fun o => o.bind (next_generationLite E)) n (some g1) =
          Nat.iterate (fun o => o.bind (next_generationLite E)) n (some g2) := by
  intro E words m g1 g2 h1 h2
  rw [h1] at h2
  obtain rfl : g1 = g2 := Option.some_injective _ h2
  exact ⟨rfl, rfl, fun _ => rfl⟩

theorem c4_pipeline_deterministic_witness :
    new_from_singletonsLite idEngine ["HELLO".toList] [] = some c4Gen ∧
    (c4Gen = c4Gen ∧ generateLite idEngine c4Gen = generateLite idEngine c4Gen ∧
      Nat.iterate (fun o => o.bind (next_generationLite idEngine)) 3 (some c4Gen) =
        Nat.iterate (fun o => o.bind (next_generationLite idEngine)) 3 (some c4Gen)) := by
  have happ := c4_pipeline_deterministic idEngine ["HELLO".toList] [] c4Gen c4Gen
    (by rfl) (by rfl)
  exact ⟨by rfl, happ.1, happ.2.1, happ.2.2 3⟩

end Crossword
